import Mathlib

/-!
# achgateway: per-shard aggregation pipeline

A shallow embedding of `internal/pipeline/merging.go`, `internal/pipeline/aggregate.go`
and `internal/notify/multi.go`.

* Go strings are lists of characters (`Str`), so that every definition evaluates in the kernel.
* A Go `error` is a `GoError`; a nil-able `error` is an `Option GoError`.
* The local filesystem is an explicit value `FS` passed through every operation that touches it.
* Collaborators outside the repository (the ACH library, the upload agent, the lock client,
  the retry library, the notification sinks, the event emitter) are fields of records; the
  world they act on is a type parameter `W` threaded through every call, so that each call may
  depend on everything that happened before it.
-/

namespace AchGateway

/-- Go strings, as lists of characters. -/
abbrev Str := List Char

/-- A Go `error` value: its `Error()` text, whether it reports `Timeout() == true`, and whether
`os.IsNotExist` holds of it. -/
structure GoError where
  msg : Str
  timeout : Bool
  notExist : Bool
deriving DecidableEq, Repr

deriving instance DecidableEq for Except

/-- The error built by `errors.New(text)` or `fmt.Errorf(format, ...)` (no `%w`): plain text. -/
def errorf (text : Str) : GoError := ⟨text, false, false⟩

/-! ## package strings -/

/-- The function strings.HasPrefix. -/
def HasPrefix (s pre : Str) : Bool := pre.isPrefixOf s

/-- The function strings.HasSuffix. -/
def HasSuffix (s suf : Str) : Bool := suf.reverse.isPrefixOf s.reverse

/-- The function strings.TrimSuffix. -/
def TrimSuffix (s suf : Str) : Str :=
  if HasSuffix s suf then s.take (s.length - suf.length) else s

/-- The function strings.Contains. -/
def Contains (s sub : Str) : Bool :=
  match s with
  | [] => sub.isPrefixOf []
  | c :: rest => sub.isPrefixOf (c :: rest) || Contains rest sub

/-! ## package path/filepath (Unix) -/

/-- Splits a path at every separator: `a//b` gives `a`, the empty string and `b`. -/
def splitSep : Str → List Str
  | [] => [[]]
  | c :: cs =>
    if c = '/' then [] :: splitSep cs
    else
      match splitSep cs with
      | [] => [[c]]
      | h :: t => (c :: h) :: t

/-- One element of the path read by `filepath.Clean`; `stack` holds the elements written so far,
the last one first. Empty elements and `.` are dropped, `..` removes the element before it, is
dropped at the root, and is kept at the start of a relative path. -/
def cleanStep (rooted : Bool) (stack : List Str) (comp : Str) : List Str :=
  if comp = [] ∨ comp = ['.'] then stack
  else if comp = ['.', '.'] then
    match stack with
    | top :: rest => if top = ['.', '.'] then comp :: stack else rest
    | [] => if rooted then [] else [comp]
  else comp :: stack

/-- Writes path elements separated by `/`. -/
def joinSep : List Str → Str
  | [] => []
  | [a] => a
  | a :: b :: rest => a ++ '/' :: joinSep (b :: rest)

/-- The function filepath.Clean. -/
def Clean (path : Str) : Str :=
  if path = [] then ['.']
  else
    let rooted := path.head? = some '/'
    let body := joinSep ((splitSep path).foldl (cleanStep rooted) []).reverse
    if rooted then '/' :: body
    else if body = [] then ['.'] else body

/-- The function filepath.Join, for two elements. -/
def Join (a b : Str) : Str :=
  if a ≠ [] then Clean (a ++ '/' :: b)
  else if b ≠ [] then Clean b
  else []

/-- The function filepath.Split: the path up to and including its last separator, and the rest. -/
def Split : Str → Str × Str
  | [] => ([], [])
  | c :: cs =>
    match Split cs with
    | ([], f) => if c = '/' then (['/'], f) else ([], c :: f)
    | (d, f) => (c :: d, f)

/-- The function filepath.Dir. -/
def Dir (path : Str) : Str := Clean (Split path).1

/-- The function filepath.Base. -/
def Base (path : Str) : Str :=
  if path = [] then ['.']
  else
    let stripped := (path.reverse.dropWhile (fun c => c = '/')).reverse
    let last := (Split stripped).2
    if last = [] then ['/'] else last

/-- The function hasMeta of path/filepath: the pattern holds one of the characters
`*`, `?`, `[` or backslash. -/
def hasMeta (path : Str) : Bool :=
  path.any (fun c => c = '*' ∨ c = '?' ∨ c = '[' ∨ c = Char.ofNat 92)

/-- The function cleanGlobPath of path/filepath. -/
def cleanGlobPath (path : Str) : Str :=
  if path = [] then ['.']
  else if path = ['/'] then path
  else path.dropLast

/-- A `*` of a pattern: the rest of the pattern matches here, or after one more character that
is not a separator. -/
def matchStar (rest : Str → Bool) : Str → Bool
  | [] => rest []
  | c :: s => rest (c :: s) || (c != '/' && matchStar rest s)

/-- Matching of a pattern made of `*`, `?` and plain characters against a name. -/
def matchPat : Str → Str → Bool
  | [], s => s.isEmpty
  | a :: p, s =>
    if a = '*' then matchStar (matchPat p) s
    else
      match s with
      | [] => false
      | c :: s => if a = '?' then c != '/' && matchPat p s else a == c && matchPat p s

/-- The error filepath.ErrBadPattern. -/
def ErrBadPattern : GoError := errorf "syntax error in pattern".toList

/-- The function getEsc of path/filepath: a possibly escaped character of a character class,
with the rest of the chunk; none is `ErrBadPattern`. The class may not end here. -/
def getEsc (chunk : Str) : Option (Char × Str) :=
  match chunk with
  | [] => none
  | c :: rest =>
    if c = '-' ∨ c = ']' then none
    else if c = Char.ofNat 92 then
      match rest with
      | [] => none
      | r :: nchunk => if nchunk = [] then none else some (r, nchunk)
    else if rest = [] then none else some (c, rest)

/-- The loop of matchChunk that parses the ranges of a character class, up to its closing
bracket: the ranges and what follows the class; none is `ErrBadPattern`. `nonempty` is
`nrange > 0`. Every pass consumes a character, so `fuel` above the length of the chunk is never
used up. -/
def scanRanges : Nat → Bool → Str → Option (List (Char × Char) × Str)
  | 0, _, _ => none
  | fuel + 1, nonempty, chunk =>
    if chunk.head? = some ']' ∧ nonempty then some ([], chunk.tail)
    else
      match getEsc chunk with
      | none => none
      | some (lo, chunk1) =>
        if chunk1.head? = some '-' then
          match getEsc chunk1.tail with
          | none => none
          | some (hi, chunk2) =>
            match scanRanges fuel true chunk2 with
            | none => none
            | some (ranges, rest) => some ((lo, hi) :: ranges, rest)
        else
          match scanRanges fuel true chunk1 with
          | none => none
          | some (ranges, rest) => some ((lo, lo) :: ranges, rest)

/-- One element of a pattern of `filepath.Match`: a `*`, a `?`, a plain or escaped character,
or a character class with its ranges. -/
inductive PatElem where
  | star
  | any
  | lit (c : Char)
  | cls (negated : Bool) (ranges : List (Char × Char))
deriving DecidableEq, Repr

/-- The elements of a pattern, as scanChunk and matchChunk read them; none is
`ErrBadPattern`: a class that is empty, not closed or has a range without end, or a backslash
at the end. Every pass consumes a character, so `fuel` above the length of the pattern is never
used up. -/
def scanPattern : Nat → Str → Option (List PatElem)
  | 0, _ => none
  | _ + 1, [] => some []
  | fuel + 1, c :: rest =>
    if c = '*' then (scanPattern fuel rest).map (fun p => PatElem.star :: p)
    else if c = '?' then (scanPattern fuel rest).map (fun p => PatElem.any :: p)
    else if c = '[' then
      -- possibly negated
      let negated : Bool := rest.head? = some '^'
      let chunk := if negated then rest.tail else rest
      -- parse all ranges
      match scanRanges (chunk.length + 1) false chunk with
      | none => none
      | some (ranges, rest1) => (scanPattern fuel rest1).map (fun p => PatElem.cls negated ranges :: p)
    else if c = Char.ofNat 92 then
      match rest with
      | [] => none
      | r :: rest1 => (scanPattern fuel rest1).map (fun p => PatElem.lit r :: p)
    else (scanPattern fuel rest).map (fun p => PatElem.lit c :: p)

/-- Matching of the elements of a pattern against a name: `*` matches any run of characters
without separator, `?` one character that is not a separator, a class one character of (or,
negated, outside) its ranges, a plain character itself. -/
def matchElems : List PatElem → Str → Bool
  | [], s => s.isEmpty
  | PatElem.star :: p, s => matchStar (matchElems p) s
  | _ :: _, [] => false
  | PatElem.any :: p, c :: s => c != '/' && matchElems p s
  | PatElem.lit a :: p, c :: s => a == c && matchElems p s
  | PatElem.cls negated ranges :: p, c :: s =>
    (ranges.any (fun r => decide (r.1 ≤ c ∧ c ≤ r.2)) != negated) && matchElems p s

/-- The function filepath.Match (Unix): `ErrBadPattern` when the pattern is malformed, else
whether the whole name matches the pattern. The names matched in this program are directory
entries and the empty name, which hold no separator. -/
def Match (pattern name : Str) : Except GoError Bool :=
  match scanPattern (pattern.length + 1) pattern with
  | none => .error ErrBadPattern
  | some elems => .ok (matchElems elems name)

/-! ## The local filesystem -/

/-- What a path names: a regular file with its bytes, or a directory. -/
inductive Node where
  | file (data : Str)
  | dir
deriving DecidableEq, Repr

instance : Inhabited Node := ⟨Node.dir⟩

/-- The filesystem: the cleaned absolute paths that exist, each with what it names. The root `/`
is a directory that always exists and has no entry. -/
abbrev FS := List (Str × Node)

/-- The entry of a path, if the path exists. -/
def lookup : FS → Str → Option Node
  | [], _ => none
  | (k, n) :: rest, p => if k = p then some n else lookup rest p

/-- Path `k` lies below directory `d`. -/
def under (d k : Str) : Bool := (d ++ ['/']).isPrefixOf k

/-- The proper ancestors of a path below the root, the shortest first. -/
def ancestors (p : Str) : List Str :=
  p.inits.filter (fun q => q ≠ [] ∧ q ≠ p ∧ (p.drop q.length).head? = some '/')

/-- The path is a directory. -/
def isDir (fs : FS) (p : Str) : Bool :=
  p = ['/'] ∨ p = ['.'] ∨ lookup fs p = some Node.dir

def ENOENT : GoError := ⟨"no such file or directory".toList, false, true⟩
def ENOTDIR : GoError := errorf "not a directory".toList
def EISDIR : GoError := errorf "is a directory".toList
def ENOTEMPTY : GoError := errorf "directory not empty".toList
def EINVAL : GoError := errorf "invalid argument".toList

/-- The function os.Stat: the entry, ENOTDIR when an ancestor is a regular file, ENOENT when the
path does not exist. Only ENOENT satisfies `os.IsNotExist`. -/
def Stat (fs : FS) (p : Str) : Except GoError Node :=
  match lookup fs p with
  | some n => .ok n
  | none =>
    if (ancestors p).any (fun q => match lookup fs q with | some (Node.file _) => true | _ => false)
    then .error ENOTDIR else .error ENOENT

/-- The function ioutil.WriteFile: creates or truncates a regular file in an existing directory. -/
def WriteFile (fs : FS) (name : Str) (data : Str) : Except GoError FS :=
  if isDir fs (Dir name) then
    match lookup fs name with
    | some Node.dir => .error EISDIR
    | _ => .ok ((name, Node.file data) :: fs.filter (fun e => e.1 ≠ name))
  else .error ENOENT

/-- One directory of `os.MkdirAll`: kept when it is a directory, created when absent, an error
when it is a regular file. -/
def mkdirStep (acc : Except GoError FS) (q : Str) : Except GoError FS :=
  match acc with
  | .error e => .error e
  | .ok fs =>
    if isDir fs q then .ok fs
    else
      match lookup fs q with
      | some _ => .error ENOTDIR
      | none => .ok (fs ++ [(q, Node.dir)])

/-- The function os.MkdirAll: creates the directory and every missing parent. -/
def MkdirAll (fs : FS) (path : Str) : Except GoError FS :=
  (ancestors path ++ [path]).foldl mkdirStep (.ok fs)

/-- The key of an entry after `old` was renamed to `new`. -/
def rekey (old new : Str) (e : Str × Node) : Str × Node :=
  if e.1 = old then (new, e.2)
  else if under old e.1 then (new ++ e.1.drop old.length, e.2)
  else e

/-- The function os.Rename (POSIX rename): moves `old`, with everything below it, to `new`,
replacing a regular file or an empty directory of the same kind. -/
def Rename (fs : FS) (old new : Str) : Except GoError FS :=
  match lookup fs old with
  | none => .error ENOENT
  | some node =>
    if !isDir fs (Dir new) then .error ENOENT
    else if old = new then .ok fs
    else if under old new then .error EINVAL
    else
      let move : Except GoError FS :=
        .ok ((fs.filter (fun e => e.1 ≠ new)).map (rekey old new))
      match node, lookup fs new with
      | Node.file _, some Node.dir => .error EISDIR
      | Node.dir, some (Node.file _) => .error ENOTDIR
      | Node.dir, some Node.dir => if fs.any (fun e => under new e.1) then .error ENOTEMPTY else move
      | _, _ => move

/-- The function os.RemoveAll: removes the path and everything below it; a missing path is not
an error. The tree itself never makes the removal fail; `fault` is the error of a removal the
operating system refuses (permissions, a busy mount), in which case the tree is left as it is. -/
def RemoveAll (fault : Option GoError) (fs : FS) (path : Str) : Option GoError × FS :=
  match fault with
  | some e => (some e, fs)
  | none => (none, fs.filter (fun e => e.1 ≠ path ∧ ¬ under path e.1))

/-- The order of `sort.Strings`. -/
def strLe (a b : Str) : Prop := a ≤ b

instance : DecidableRel strLe := fun a b => inferInstanceAs (Decidable (a ≤ b))

/-- The names in a directory, sorted (`Readdirnames` followed by `sort.Strings`); `pre` is the
directory as `filepath.Split` leaves it, with its closing separator. -/
def Readdirnames (fs : FS) (pre : Str) : List Str :=
  (fs.filterMap (fun e =>
    if pre.isPrefixOf e.1 ∧ e.1.drop pre.length ≠ [] ∧ '/' ∉ e.1.drop pre.length
    then some (e.1.drop pre.length) else none)).insertionSort strLe

/-- A directory as the prefix of the paths of its entries: the directory closed by a
separator; nothing for the current directory. For a cleaned `dir` and an entry name `n`,
`dirSep dir ++ n` is `filepath.Join(dir, n)`. -/
def dirSep (dir : Str) : Str :=
  if dir = ['.'] then [] else if dir = ['/'] then dir else dir ++ ['/']

/-- The function glob of path/filepath: appends to `matches_` the entries of directory `dir`
whose name matches `pattern`, in sorted order; a directory that cannot be read adds nothing. -/
def glob (fs : FS) (dir : Str) (pattern : Str) (matches_ : List Str) : Except GoError (List Str) :=
  if isDir fs dir then
    (Readdirnames fs (dirSep dir)).foldl
      (fun acc n =>
        match acc with
        | .error e => .error e
        | .ok m =>
          match Match pattern n with
          | .error e => .error e
          | .ok matched => .ok (if matched then m ++ [dirSep dir ++ n] else m))
      (.ok matches_)
  else .ok matches_

/-- The function globWithLimit of path/filepath; `fuel` is what is left of the limit of 10000
levels of directory patterns, and `ErrBadPattern` is returned when it is used up. A malformed
pattern is `ErrBadPattern`; a pattern without metacharacter is itself when it exists; else the
directory part is expanded first, when it holds a metacharacter, and the entries of every
directory found are matched against the file part. -/
def globWithLimit (fs : FS) : Nat → Str → Except GoError (List Str)
  | 0, _ => .error ErrBadPattern
  | fuel + 1, pattern =>
    -- Check pattern is well-formed.
    match Match pattern [] with
    | .error e => .error e
    | .ok _ =>
      if !hasMeta pattern then
        .ok (if (lookup fs pattern).isSome || isDir fs pattern then [pattern] else [])
      else
        let dir := cleanGlobPath (Split pattern).1
        let file := (Split pattern).2
        if !hasMeta dir then glob fs dir file []
        -- Prevent infinite recursion.
        else if dir = pattern then .error ErrBadPattern
        else
          match globWithLimit fs fuel dir with
          | .error e => .error e
          | .ok m =>
            m.foldl
              (fun acc d =>
                match acc with
                | .error e => .error e
                | .ok matches_ => glob fs d file matches_)
              (.ok [])

/-- The function filepath.Glob. -/
def Glob (fs : FS) (pattern : Str) : Except GoError (List Str) :=
  globWithLimit fs 10000 pattern

/-! ## internal/pipeline/merging.go -/

/-- The type incoming.ACHFile. -/
structure ACHFile (File : Type) where
  FileID : Str
  ShardKey : Str
  File : File

/-- The type incoming.CancelACHFile. -/
structure CancelACHFile where
  FileID : Str
  ShardKey : Str

/-- The fields of service.Shard the pipeline reads. -/
structure Shard where
  Name : Str

/-- The type service.Merging; `FlattenBatches` is a pointer, nil when not configured. -/
structure MergingConfig where
  Directory : Str
  FlattenBatches : Option Unit

/-- The fields of service.UploadAgents the merger reads. -/
structure UploadAgents where
  Merging : MergingConfig

/-- The collaborators of the merger that live outside this repository's pipeline package. -/
structure MergeDeps (File Agent W : Type) where
  /-- The call `ach.NewWriter(&buf).Write(file)`: the bytes of the file, or an error. -/
  achWrite : File → Except GoError Str
  /-- The call `ach.NewReader(fd).Read()` on the bytes of an opened file. -/
  achRead : Str → Except GoError (Option File)
  /-- The function ach.MergeFiles: the merged files and an error, both used by the caller. -/
  MergeFiles : List File → List File × Option GoError
  /-- The method `(*ach.File).FlattenBatches`. -/
  FlattenBatches : File → Except GoError File
  /-- The function upload.New for this shard's agent. -/
  uploadNew : W → Except GoError Agent × W
  /-- The method `(*consul.Client).AcquireLock`. -/
  AcquireLock : Str → W → Option GoError × W
  /-- The hexadecimal SHA-256 digest of some bytes. -/
  sha256hex : Str → Str
  /-- The text `time.Now().Format("20060102-150405")`. -/
  now : W → Str
  /-- The error of an `os.RemoveAll` that the operating system refuses, if it does. -/
  removeAllFault : W → Option GoError

/-- The type filesystemMerging (the logger is left out). -/
structure filesystemMerging (File Agent W : Type) where
  baseDir : Str
  cfg : UploadAgents
  shard : Shard
  deps : MergeDeps File Agent W

variable {File Agent W : Type}

/-- The method filesystemMerging.writeACHFile. -/
def writeACHFile (m : filesystemMerging File Agent W) (xfer : ACHFile File) (fs : FS) :
    Option GoError × FS :=
  match m.deps.achWrite xfer.File with
  | .error err => (some err, fs)
  | .ok buf =>
    let path := Join m.baseDir m.shard.Name
    let fs := match MkdirAll fs path with
      | .ok fs1 => fs1
      | .error _ => fs
    let path := Join path (xfer.FileID ++ ".ach".toList)
    match WriteFile fs path buf with
    | .error err => (some err, fs)
    | .ok fs1 => (none, fs1)

/-- The method filesystemMerging.HandleXfer. -/
def HandleXfer (m : filesystemMerging File Agent W) (xfer : ACHFile File) (fs : FS) :
    Option GoError × FS :=
  match writeACHFile m xfer fs with
  | (some err, fs1) => (some (errorf ("problem writing ACH file: ".toList ++ err.msg)), fs1)
  | (none, fs1) => (none, fs1)

/-- The method filesystemMerging.HandleCancel. -/
def HandleCancel (m : filesystemMerging File Agent W) (cancel : CancelACHFile) (fs : FS) :
    Option GoError × FS :=
  let path := Join m.baseDir m.shard.Name
  let fs := match MkdirAll fs path with
    | .ok fs1 => fs1
    | .error _ => fs
  let path := Join path (cancel.FileID ++ ".ach".toList)
  let notExist := match Stat fs path with
    | .error err => err.notExist
    | .ok _ => false
  if notExist then
    -- file doesn't exist, so write one
    match WriteFile fs (path ++ ".canceled".toList) [] with
    | .error err => (some err, fs)
    | .ok fs1 => (none, fs1)
  else
    -- move the existing file
    match Rename fs path (path ++ ".canceled".toList) with
    | .error err => (some err, fs)
    | .ok fs1 => (none, fs1)

/-- The method filesystemMerging.isolateMergableDir: the new directory, and the error and
filesystem left by renaming the shard directory to it (or by creating it). -/
def isolateMergableDir (m : filesystemMerging File Agent W) (fs : FS) (w : W) :
    Str × Option GoError × FS :=
  let olddir := Join m.baseDir m.shard.Name
  let newdir := Join (Dir m.baseDir) (m.shard.Name ++ '-' :: m.deps.now w)
  let notExist := match Stat fs olddir with
    | .error err => err.notExist
    | .ok _ => false
  if notExist then
    match MkdirAll fs newdir with
    | .error err => (newdir, some err, fs)
    | .ok fs1 => (newdir, none, fs1)
  else
    match Rename fs olddir newdir with
    | .error err => (newdir, some err, fs)
    | .ok fs1 => (newdir, none, fs1)

/-- The function getNonCanceledMatches. -/
def getNonCanceledMatches (fs : FS) (path : Str) : Except GoError (List Str) :=
  match Glob fs path with
  | .error err => .error err
  | .ok positiveMatches =>
    match Glob fs (path ++ "*.canceled".toList) with
    | .error err => .error err
    | .ok negativeMatches =>
      .ok (positiveMatches.filter (fun p => !(negativeMatches.any (fun n => HasPrefix n p))))

/-- The type processedFiles. -/
structure processedFiles where
  shardKey : Str
  fileIDs : List Str
deriving DecidableEq, Repr

/-- The function newProcessedFiles. -/
def newProcessedFiles (shardKey : Str) (matches_ : List Str) : processedFiles :=
  ⟨shardKey, matches_.map (fun m => TrimSuffix (Base m) ".ach".toList)⟩

/-- The function ach.ReadFile: opens the path and reads an ACH file from its bytes. -/
def ReadFile (d : MergeDeps File Agent W) (fs : FS) (path : Str) : Except GoError (Option File) :=
  match lookup fs path with
  | some (Node.file data) => d.achRead data
  | some Node.dir => .error EISDIR
  | none => .error ENOENT

/-- The function saveMergedFile. -/
def saveMergedFile (d : MergeDeps File Agent W) (dir : Str) (file : File) (fs : FS) :
    Option GoError × FS :=
  match d.achWrite file with
  | .error err => (some (errorf ("unable to buffer ACH file: ".toList ++ err.msg)), fs)
  | .ok buf =>
    let filename := Join dir (d.sha256hex buf ++ ".ach".toList)
    match WriteFile fs filename buf with
    | .error err => (some err, fs)
    | .ok fs1 => (none, fs1)

/-- The error a call of WithEachMerged returns: one built by `fmt.Errorf`, or the run's
`base.ErrorList`. -/
inductive MergedError where
  | wrapped (err : GoError)
  | errorList (el : List GoError)
deriving DecidableEq, Repr

/-- The variables of the loop over the merged files, with the filesystem and the world, and two
records of what happened so far: `locks`, the result of every AcquireLock call, and `calls`,
the callback invocations (index and file passed). -/
structure LoopState (File W : Type) where
  el : List GoError
  fs : FS
  world : W
  successfulRemoteWrites : Nat
  locks : List (Option GoError)
  calls : List (Nat × File)

/-- The callback type of WithEachMerged, `func(int, upload.Agent, *ach.File) error`. -/
abbrev Callback (File Agent W : Type) := Nat → Agent → File → W → Option GoError × W

/-- The first half of the loop body of WithEachMerged: optional flattening and the
content-addressed copy. Gives the file to upload, the error list and the filesystem. -/
def prepareMerged (m : filesystemMerging File Agent W) (dir : Str) (el : List GoError) (fs : FS)
    (file : File) : File × List GoError × FS :=
  -- Optionally Flatten Batches
  let flat : File × List GoError :=
    match m.cfg.Merging.FlattenBatches with
    | none => (file, el)
    | some _ =>
      match m.deps.FlattenBatches file with
      | .error err => (file, el ++ [err])
      | .ok file1 => (file1, el)
  -- Write our file to the mergable directory
  match saveMergedFile m.deps dir flat.1 fs with
  | (some err, fs1) => (flat.1, flat.2 ++ [errorf ("problem writing merged file: ".toList ++ err.msg)], fs1)
  | (none, fs1) => (flat.1, flat.2, fs1)

/-- The leader key of a shard. -/
def leaderKey (shardName : Str) : Str := "achgateway/outbound/".toList ++ shardName

/-- The loop body of WithEachMerged for merged file `i`. -/
def mergedFileStep (m : filesystemMerging File Agent W) (f : Callback File Agent W) (agent : Agent)
    (dir : Str) (st : LoopState File W) (i : Nat) (file : File) : LoopState File W :=
  match prepareMerged m dir st.el st.fs file with
  | (file1, el, fs) =>
    -- Acquire leadership for this shard
    match m.deps.AcquireLock (leaderKey m.shard.Name) st.world with
    | (some err, w) => ⟨el, fs, w, st.successfulRemoteWrites, st.locks ++ [some err], st.calls⟩
    | (none, w) =>
      match f i agent file1 w with
      | (some err, w1) =>
        ⟨el ++ [errorf ("problem from callback: ".toList ++ err.msg)], fs, w1,
          st.successfulRemoteWrites, st.locks ++ [none], st.calls ++ [(i, file1)]⟩
      | (none, w1) =>
        ⟨el, fs, w1, st.successfulRemoteWrites + 1, st.locks ++ [none], st.calls ++ [(i, file1)]⟩

/-- The loop `for i := range files` of WithEachMerged, from index `i` on. -/
def mergedFilesLoop (m : filesystemMerging File Agent W) (f : Callback File Agent W) (agent : Agent)
    (dir : Str) : Nat → List File → LoopState File W → LoopState File W
  | _, [], st => st
  | i, file :: rest, st => mergedFilesLoop m f agent dir (i + 1) rest (mergedFileStep m f agent dir st i file)

/-- The loop of WithEachMerged that reads every match: the files read and the errors recorded. -/
def readMatches (d : MergeDeps File Agent W) (fs : FS) :
    List Str → List File × List GoError → List File × List GoError
  | [], acc => acc
  | path :: rest, (files, el) =>
    match ReadFile d fs path with
    | .error err =>
      readMatches d fs rest
        (files, el ++ [errorf ("problem reading ".toList ++ path ++ ": ".toList ++ err.msg)])
    | .ok (some file) => readMatches d fs rest (files ++ [file], el)
    | .ok none => readMatches d fs rest (files, el)

/-- What a call of WithEachMerged leaves: its two results, the filesystem and the world after
it, and three records: the run's error list `el` as it stands when the call returns, the
result of every AcquireLock call, and the callback invocations. -/
structure MergedRun (File W : Type) where
  processed : Option processedFiles
  err : Option MergedError
  fs : FS
  world : W
  el : List GoError
  locks : List (Option GoError)
  calls : List (Nat × File)

/-- The variables of WithEachMerged when its loop over the merged files starts. -/
structure Merged (File : Type) where
  files : List File
  dir : Str
  el : List GoError
  fs : FS

/-- The middle of WithEachMerged, from the matches to the loop over the merged files: every
match is read, the files read are merged, and the isolated directory is removed when nothing
was merged, or given an `uploaded` directory. -/
def mergeMatches (m : filesystemMerging File Agent W) (fs1 : FS) (dir : Str) (matches_ : List Str)
    (w : W) : Merged File :=
  let read := readMatches m.deps fs1 matches_ ([], [])
  -- Combine Batches into one file
  let merged := m.deps.MergeFiles read.1
  let files := merged.1
  let el : List GoError :=
    match merged.2 with
    | some err => read.2 ++ [errorf ("unable to merge files: ".toList ++ err.msg)]
    | none => read.2
  -- Remove the directory if there are no files, otherwise setup an inner dir
  if files.length = 0 then
    -- delete the new directory as there's nothing to merge
    match RemoveAll (m.deps.removeAllFault w) fs1 dir with
    | (some err, fs2) => ⟨files, dir, el ++ [err], fs2⟩
    | (none, fs2) => ⟨files, dir, el, fs2⟩
  else
    let updir := Join dir "uploaded".toList
    match MkdirAll fs1 updir with
    | .ok fs2 => ⟨files, updir, el, fs2⟩
    | .error _ => ⟨files, updir, el, fs1⟩

/-- The method filesystemMerging.WithEachMerged. -/
def WithEachMerged (m : filesystemMerging File Agent W) (f : Callback File Agent W) (fs : FS) (w : W) :
    MergedRun File W :=
  let processed : processedFiles := ⟨[], []⟩
  -- move the current directory so it's isolated and easier to debug later on
  match isolateMergableDir m fs w with
  | (dir, some err, fs1) =>
    ⟨none, some (.wrapped (errorf ("problem isolating newdir=".toList ++ dir ++ " error=".toList ++ err.msg))),
      fs1, w, [], [], []⟩
  | (dir, none, fs1) =>
    match getNonCanceledMatches fs1 (Join dir "*.ach".toList) with
    | .error err =>
      ⟨none, some (.wrapped (errorf ("problem with ".toList ++ dir ++ " glob: ".toList ++ err.msg))),
        fs1, w, [], [], []⟩
    | .ok matches_ =>
      let pre := mergeMatches m fs1 dir matches_ w
      -- Grab our upload Agent
      match m.deps.uploadNew w with
      | (.error err, w1) =>
        ⟨some processed, some (.wrapped (errorf ("agent: ".toList ++ err.msg))), pre.fs, w1, pre.el, [], []⟩
      | (.ok agent, w1) =>
        -- Write each file to our remote agent
        let st := mergedFilesLoop m f agent pre.dir 0 pre.files ⟨pre.el, pre.fs, w1, 0, [], []⟩
        if !st.el.isEmpty then
          ⟨none, some (.errorList st.el), st.fs, st.world, st.el, st.locks, st.calls⟩
        else
          ⟨some (newProcessedFiles m.shard.Name matches_), none, st.fs, st.world, st.el, st.locks,
            st.calls⟩

/-! ## internal/notify/multi.go -/

/-- The type service.NotificationRetries: `Interval` is a `time.Duration` in nanoseconds. -/
structure NotificationRetries where
  Interval : Int
  MaxRetries : Nat

/-- The interface notify.Sender: each method acts on the world and returns its error. -/
structure Sender (Msg W : Type) where
  Info : Msg → W → Option GoError × W
  Critical : Msg → W → Option GoError × W

/-- The type MultiSender (the logger is left out). -/
structure MultiSender (Msg W : Type) where
  senders : List (Sender Msg W)
  retryConfig : Option NotificationRetries

/-- The error values `retry.Do` tells apart: a plain error, or one wrapped by
`retry.RetryableError`. -/
inductive RetryErr where
  | plain (err : GoError)
  | retryable (err : GoError)
deriving DecidableEq, Repr

/-- The function retry.RetryableError. -/
def RetryableError (err : GoError) : RetryErr := RetryErr.retryable err

/-- The function isRetryableError. -/
def isRetryableError (err : Option GoError) : Option RetryErr :=
  match err with
  | none => none
  | some e =>
    if e.timeout ∨ Contains e.msg "no such host".toList then some (RetryableError e)
    else none

/-- The function setupBackoff: the backoff is the number of retries it allows.
`retry.NewFibonacci` refuses a base that is not positive. -/
def setupBackoff (cfg : NotificationRetries) : Except GoError Nat :=
  if cfg.Interval ≤ 0 then
    .error (errorf ("problem creating fibonacci: ".toList ++ "base must be greater than 0".toList))
  else .ok cfg.MaxRetries

/-- What a retried call leaves: the error returned, the world, and two records: how many times
the call was made and what the last call itself returned. -/
structure Attempted (W : Type) where
  err : Option GoError
  world : W
  calls : Nat
  last : Option GoError

variable {Msg : Type}

/-- The function retry.Do over a backoff that allows `retries` more retries: `f` is called; a
nil result or a plain error ends the loop with that result; a retryable error is retried while
the backoff allows, and returned as it is, still wrapped, when it does not: its text is that of
the wrapped error after `retryable: `, and neither `os.IsTimeout` nor `os.IsNotExist` holds of
the wrapper. `seen` is what `f` itself returned. -/
def retryDo (f : W → (Option RetryErr × Option GoError) × W) :
    Nat → Nat → W → Attempted W
  | retries, calls, w =>
    match f w with
    | ((none, seen), w1) => ⟨none, w1, calls + 1, seen⟩
    | ((some (RetryErr.plain err), seen), w1) => ⟨some err, w1, calls + 1, seen⟩
    | ((some (RetryErr.retryable err), seen), w1) =>
      match retries with
      | 0 => ⟨some (errorf ("retryable: ".toList ++ err.msg)), w1, calls + 1, seen⟩
      | n + 1 => retryDo f n (calls + 1) w1

/-- The method MultiSender.retry. -/
def MultiSender.retry (ms : MultiSender Msg W) (f : W → Option GoError × W) (w : W) : Attempted W :=
  match ms.retryConfig with
  | some cfg =>
    match setupBackoff cfg with
    | .error err => ⟨some (errorf ("retry: ".toList ++ err.msg)), w, 0, none⟩
    | .ok backoff =>
      retryDo (fun w0 => let r := f w0; ((isRetryableError r.1, r.1), r.2)) backoff 0 w
  | none => ⟨(f w).1, (f w).2, 1, (f w).1⟩

/-- What `Info` or `Critical` leaves: the error returned, the world, and for every sender, in
order, how many times its method was called and what its last call returned. -/
structure Sent (W : Type) where
  err : Option GoError
  world : W
  calls : List Nat
  last : List (Option GoError)

/-- The loop of `Info` and `Critical` over the senders, `send` being the method called. -/
def MultiSender.each (ms : MultiSender Msg W) (send : Sender Msg W → W → Option GoError × W) :
    List (Sender Msg W) → Sent W → Sent W
  | [], acc => acc
  | s :: rest, acc =>
    let r := ms.retry (send s) acc.world
    let firstError := match acc.err with
      | none => r.err
      | some e => some e
    MultiSender.each ms send rest ⟨firstError, r.world, acc.calls ++ [r.calls], acc.last ++ [r.last]⟩

/-- The method MultiSender.Info. -/
def MultiSender.Info (ms : MultiSender Msg W) (msg : Msg) (w : W) : Sent W :=
  ms.each (fun s => s.Info msg) ms.senders ⟨none, w, [], []⟩

/-- The method MultiSender.Critical. -/
def MultiSender.Critical (ms : MultiSender Msg W) (msg : Msg) (w : W) : Sent W :=
  ms.each (fun s => s.Critical msg) ms.senders ⟨none, w, [], []⟩

/-! ## internal/pipeline/aggregate.go -/

/-- The type models.FileUploaded, as carried by a models.Event. -/
structure FileUploaded where
  FileID : Str
  ShardKey : Str
  UploadedAt : Nat
deriving DecidableEq, Repr

/-- The type transform.Result: `File` is a pointer, nil when absent. -/
structure Result (File : Type) where
  File : Option File
  Encrypted : Str

/-- The type upload.FilenameData. -/
structure FilenameData where
  RoutingNumber : Str
  GPG : Bool
  ShardName : Str
  Index : Nat
deriving DecidableEq, Repr

/-- The type notify.Message (the file itself is left out). -/
structure Message where
  Filename : Str
  Hostname : Str
deriving DecidableEq, Repr

/-- What the aggregator does to the outside, in the order it does it. -/
inductive Action where
  /-- A call of `auditStorage.SaveFile(path, data)` and its error. -/
  | saveFile (path data : Str) (err : Option GoError)
  /-- A call of `agent.UploadFile` with its filename and contents, and its error. -/
  | uploadFile (filename contents : Str) (err : Option GoError)
  /-- A call of the `Critical` (true) or `Info` (false) method of sender number `sender`. -/
  | notify (critical : Bool) (sender : Nat)
  /-- A call of `eventEmitter.Send` and its error. -/
  | send (event : FileUploaded) (err : Option GoError)
deriving DecidableEq, Repr

/-- The state the aggregator acts on: the world of its collaborators, the two package-level
counters, and the record of its actions. -/
structure AggState (W : Type) where
  world : W
  uploadedFilesCounter : Nat
  uploadFilesErrors : Nat
  trace : List Action

/-- The collaborators of the aggregator that live outside this repository's pipeline package. -/
structure AggDeps (File Agent W : Type) where
  /-- The field `Header.ImmediateDestination` of an ACH file. -/
  ImmediateDestination : File → Str
  /-- The value `xfagg.shard.FilenameTemplate()`. -/
  FilenameTemplate : Str
  /-- The function upload.RenderACHFilename. -/
  RenderACHFilename : Str → FilenameData → Except GoError Str
  /-- The method `outputFormatter.Format`: the bytes written to the buffer, or an error. -/
  Format : Result File → Except GoError Str
  /-- The method `auditStorage.SaveFile`. -/
  SaveFile : Str → Str → W → Option GoError × W
  /-- The method `agent.UploadFile`, given the filename and the contents. -/
  UploadFile : Agent → Str → Str → W → Option GoError × W
  /-- The method `agent.Hostname`. -/
  Hostname : Agent → Str
  /-- The method `agent.ID`. -/
  ID : Agent → Str
  /-- The call `notify.NewMultiSender` for the upload agent that
  `xfagg.uploadAgents.Find(id)` finds; none when no agent has this id. -/
  FindNotifier : Str → Option (Except GoError (MultiSender Message W))
  /-- The function transform.ForUpload with the aggregator's transformers. -/
  ForUpload : File → W → Except GoError (Option (Result File)) × W
  /-- The method `eventEmitter.Send`. -/
  Send : FileUploaded → W → Option GoError × W
  /-- The function strings.ToUpper. -/
  ToUpper : Str → Str
  /-- The text `time.Now().Format("2006-01-02")`. -/
  today : W → Str
  /-- The value `time.Now()`. -/
  now : W → Nat

/-- The type aggregator: the fields the cutoff reads. -/
structure aggregator (File Agent W : Type) where
  shard : Shard
  deps : AggDeps File Agent W

/-- The function prepareShardName; `ToUpper` is `strings.ToUpper`, which maps every Unicode
letter to its upper case. -/
def prepareShardName (ToUpper : Str → Str) (shardName : Str) : Str :=
  ToUpper (shardName.map (fun c => if c = ' ' then '-' else c))

/-- The calls of sender methods that a `Sent` records, as actions. -/
def notifyActions (critical : Bool) (calls : List Nat) : List Action :=
  (calls.enum.map (fun ic => List.replicate ic.2 (Action.notify critical ic.1))).flatten

/-- The method aggregator.notifyAfterUpload. -/
def notifyAfterUpload (xfagg : aggregator File Agent W) (filename : Str) (agent : Agent)
    (uploadErr : Option GoError) (st : AggState W) : Option GoError × AggState W :=
  let msg : Message := ⟨filename, xfagg.deps.Hostname agent⟩
  match xfagg.deps.FindNotifier (xfagg.deps.ID agent) with
  | none => (some (errorf ("no uploadAgent found for id=".toList ++ xfagg.deps.ID agent)), st)
  | some (.error err) =>
    (some (errorf ("notify: unable to create multi-sender: ".toList ++ err.msg)), st)
  | some (.ok notifier) =>
    match uploadErr with
    | some _ =>
      let r := notifier.Critical msg st.world
      let st1 : AggState W :=
        ⟨r.world, st.uploadedFilesCounter, st.uploadFilesErrors, st.trace ++ notifyActions true r.calls⟩
      match r.err with
      | some err =>
        (some (errorf ("problem sending critical notification for file=".toList ++ filename
          ++ ": ".toList ++ err.msg)), st1)
      | none => (none, st1)
    | none =>
      let r := notifier.Info msg st.world
      let st1 : AggState W :=
        ⟨r.world, st.uploadedFilesCounter, st.uploadFilesErrors, st.trace ++ notifyActions false r.calls⟩
      match r.err with
      | some err =>
        (some (errorf ("problem sending info notification for file=".toList ++ filename
          ++ ": ".toList ++ err.msg)), st1)
      | none => (none, st1)

/-- The text `fmt.Sprintf("outbound/%s/%s/%s", hostname, date, filename)`. -/
def auditPath (hostname date filename : Str) : Str :=
  "outbound/".toList ++ hostname ++ '/' :: date ++ '/' :: filename

/-- The method aggregator.uploadFile. -/
def uploadFile (xfagg : aggregator File Agent W) (index : Nat) (agent : Agent)
    (res : Option (Result File)) (st : AggState W) : Option GoError × AggState W :=
  match res with
  | none => (some (errorf "uploadFile: nil Result / File".toList), st)
  | some res =>
    match res.File with
    | none => (some (errorf "uploadFile: nil Result / File".toList), st)
    | some file =>
      let data : FilenameData :=
        ⟨xfagg.deps.ImmediateDestination file, decide (res.Encrypted.length > 0),
          prepareShardName xfagg.deps.ToUpper xfagg.shard.Name, index⟩
      match xfagg.deps.RenderACHFilename xfagg.deps.FilenameTemplate data with
      | .error err =>
        (some (errorf ("problem rendering filename template: ".toList ++ err.msg)),
          ⟨st.world, st.uploadedFilesCounter, st.uploadFilesErrors + 1, st.trace⟩)
      | .ok filename =>
        match xfagg.deps.Format res with
        | .error err =>
          (some (errorf ("problem formatting output: ".toList ++ err.msg)),
            ⟨st.world, st.uploadedFilesCounter, st.uploadFilesErrors + 1, st.trace⟩)
        | .ok buf =>
          -- Record the file in our audit trail
          let path := auditPath (xfagg.deps.Hostname agent) (xfagg.deps.today st.world) filename
          match xfagg.deps.SaveFile path buf st.world with
          | (some err, w1) =>
            (some (errorf ("problem saving file in audit record: ".toList ++ err.msg)),
              ⟨w1, st.uploadedFilesCounter, st.uploadFilesErrors + 1,
                st.trace ++ [Action.saveFile path buf (some err)]⟩)
          | (none, w1) =>
            -- Upload our file
            let up := xfagg.deps.UploadFile agent filename buf w1
            let st1 : AggState W :=
              ⟨up.2, st.uploadedFilesCounter, st.uploadFilesErrors,
                st.trace ++ [Action.saveFile path buf none, Action.uploadFile filename buf up.1]⟩
            -- Send Slack/PD or whatever notifications after the file is uploaded
            let st2 := (notifyAfterUpload xfagg filename agent up.1 st1).2
            -- record our upload metrics
            match up.1 with
            | some err =>
              (some err, ⟨st2.world, st2.uploadedFilesCounter, st2.uploadFilesErrors + 1, st2.trace⟩)
            | none =>
              (none, ⟨st2.world, st2.uploadedFilesCounter + 1, st2.uploadFilesErrors, st2.trace⟩)

/-- The method aggregator.runTransformers. -/
def runTransformers (xfagg : aggregator File Agent W) : Callback File Agent (AggState W) :=
  fun index agent outgoing st =>
    match xfagg.deps.ForUpload outgoing st.world with
    | (.error err, w1) =>
      (some err, ⟨w1, st.uploadedFilesCounter, st.uploadFilesErrors, st.trace⟩)
    | (.ok result, w1) =>
      uploadFile xfagg index agent result ⟨w1, st.uploadedFilesCounter, st.uploadFilesErrors, st.trace⟩

/-- The loop of emitFilesUploaded: the errors added to the list, and the state. -/
def emitLoop (xfagg : aggregator File Agent W) (shardKey : Str) :
    List Str → List GoError × AggState W → List GoError × AggState W
  | [], acc => acc
  | fileID :: rest, (el, st) =>
    let event : FileUploaded := ⟨fileID, shardKey, xfagg.deps.now st.world⟩
    let r := xfagg.deps.Send event st.world
    let st1 : AggState W :=
      ⟨r.2, st.uploadedFilesCounter, st.uploadFilesErrors, st.trace ++ [Action.send event r.1]⟩
    match r.1 with
    | some err => emitLoop xfagg shardKey rest (el ++ [err], st1)
    | none => emitLoop xfagg shardKey rest (el, st1)

/-- The method aggregator.emitFilesUploaded: nil, or the error list when it is not empty. -/
def emitFilesUploaded (xfagg : aggregator File Agent W) (proc : processedFiles) (st : AggState W) :
    Option (List GoError) × AggState W :=
  let r := emitLoop xfagg proc.shardKey proc.fileIDs ([], st)
  if r.1.isEmpty then (none, r.2) else (some r.1, r.2)

/-- The interface XferMerging as the aggregator uses it at a cutoff: the two results of
WithEachMerged and the state it leaves. -/
structure XferMerging (File Agent W : Type) where
  WithEachMerged : Callback File Agent W → W → (Option processedFiles × Option MergedError) × W

/-- The filesystem merger behind the interface, on a given filesystem. -/
def filesystemMerging.asXferMerging (m : filesystemMerging File Agent W) (fs : FS) :
    XferMerging File Agent W :=
  ⟨fun f w => let r := WithEachMerged m f fs w; ((r.processed, r.err), r.world)⟩

/-- The text of `MergedError` as `%v` prints it. -/
def MergedError.text (render : List GoError → Str) : MergedError → Str
  | .wrapped err => err.msg
  | .errorList el => render el

/-- The method aggregator.withEachFile (logging left out): the error returned and the state
left; none when the run panics, which a nil `processed` with a nil error would cause. `render`
is `base.ErrorList.Error`. -/
def withEachFile (xfagg : aggregator File Agent W) (merger : XferMerging File Agent (AggState W))
    (render : List GoError → Str) (st : AggState W) : Option (Option GoError × AggState W) :=
  match merger.WithEachMerged (runTransformers xfagg) st with
  | ((_, some err), st1) =>
    some (some (errorf ("merging ACH files: ".toList ++ err.text render)), st1)
  | ((none, none), _) => none
  | ((some processed, none), st1) =>
    some (none, (emitFilesUploaded xfagg processed st1).2)

/-! ## internal/consul: the leader lock -/

/-- The lock backend: the keys that are held, each with the client that holds it. -/
abbrev LockBackend := List (Str × Nat)

/-- The client that holds a key, if one does. -/
def holder : LockBackend → Str → Option Nat
  | [], _ => none
  | (k, c) :: rest, key => if k = key then some c else holder rest key

/-- Modelled from the spec: the method `(*consul.Client).AcquireLock`, whose source is missing
(only its test, TestAcquireLock, is present). The spec gives the contract
`AcquireLock(key) → ok | NotLeader(key)` with "non-blocking; a second caller for an
already-held key observes NotLeader"; the test gives the text of the error. The call returns at
once: a free key is taken by the caller, a key the caller holds stays held, a key that another
client holds gives the error and leaves the backend as it is. -/
def AcquireLock (client : Nat) (key : Str) (b : LockBackend) : Option GoError × LockBackend :=
  match holder b key with
  | none => (none, (key, client) :: b)
  | some c =>
    if c = client then (none, b)
    else (some (errorf ("we are not the leader of ".toList ++ key)), b)

/-- Several processes running the same shard against one lock backend, each inside the loop
of WithEachMerged over its own merged files: the backend they share and the loop variables
of each. -/
structure Cluster (File : Type) where
  backend : LockBackend
  sts : Nat → LoopState File LockBackend

/-- One pass of the loop body of WithEachMerged by process `ev.1`, for its merged file number
`ev.2.1`: the process sees the backend as it is now and leaves it to the others. -/
def clusterStep (ms : Nat → filesystemMerging File Agent LockBackend)
    (f : Callback File Agent LockBackend) (agents : Nat → Agent) (dirs : Nat → Str)
    (c : Cluster File) (ev : Nat × Nat × File) : Cluster File :=
  let st := c.sts ev.1
  let st1 := mergedFileStep (ms ev.1) f (agents ev.1) (dirs ev.1)
    ⟨st.el, st.fs, c.backend, st.successfulRemoteWrites, st.locks, st.calls⟩ ev.2.1 ev.2.2
  ⟨st1.world, Function.update c.sts ev.1 st1⟩

/-- The passes of a schedule, in order: any interleaving of the loops of the processes. -/
def clusterRun (ms : Nat → filesystemMerging File Agent LockBackend)
    (f : Callback File Agent LockBackend) (agents : Nat → Agent) (dirs : Nat → Str)
    (c : Cluster File) (schedule : List (Nat × Nat × File)) : Cluster File :=
  schedule.foldl (clusterStep ms f agents dirs) c

/-! ## Predicates used by the statements -/

/-- A path element that `filepath.Clean` keeps as it is. -/
def normalElem (e : Str) : Prop := e ≠ [] ∧ '/' ∉ e ∧ e ≠ ['.'] ∧ e ≠ ['.', '.']

/-- The shape of the directory part of a joined path: empty, or closed by a separator. -/
def dirPrefix (pre : Str) : Prop := pre = [] ∨ ∃ q, pre = q ++ ['/']

/-- The pattern holds no `[` and no backslash. -/
def noClass (pattern : Str) : Prop := pattern.any (fun c => c = '[' ∨ c = Char.ofNat 92) = false

/-- The entries of directory `dir` whose name matches a file pattern made of `*`, `?` and plain
characters, as paths. -/
def globDir (fs : FS) (file : Str) (dir : Str) : List Str :=
  if isDir fs dir then
    ((Readdirnames fs (dirSep dir)).filter (fun n => matchPat file n)).map (fun n => dirSep dir ++ n)
  else []

/-- The directories that `filepath.Glob` reads for a pattern with directory part `pre`: the
directory itself, or what the directory part expands to when it holds a metacharacter. -/
def globDirs (fs : FS) (pre : Str) : List Str :=
  if hasMeta (cleanGlobPath pre) then
    match globWithLimit fs 9999 (cleanGlobPath pre) with
    | .ok m => m
    | .error _ => []
  else [cleanGlobPath pre]

/-! ## Sample inputs -/

/-- A merger whose ACH files are their own bytes: writing never fails, the bytes `bad` do not
parse, merging concatenates everything into one file, every lock is acquired. -/
def sampleDeps : MergeDeps Str Unit Nat where
  achWrite := fun f => .ok f
  achRead := fun d => if d = "bad".toList then .error (errorf "parse".toList) else .ok (some d)
  MergeFiles := fun files => (if files = [] then [] else [files.flatten], none)
  FlattenBatches := fun f => .ok f
  uploadNew := fun w => (.ok (), w)
  AcquireLock := fun _ w => (none, w)
  sha256hex := fun d => 'h' :: d
  now := fun _ => "20200101-000000".toList
  removeAllFault := fun _ => none

def sampleMerger : filesystemMerging Str Unit Nat :=
  ⟨"/b/mergable".toList, ⟨⟨[], none⟩⟩, ⟨"sh".toList⟩, sampleDeps⟩

/-- The sample merger for a shard whose name holds a glob metacharacter. -/
def starMerger : filesystemMerging Str Unit Nat :=
  ⟨"/b/mergable".toList, ⟨⟨[], none⟩⟩, ⟨"s*".toList⟩, sampleDeps⟩

def sampleFS : FS :=
  [("/b".toList, Node.dir), ("/b/mergable".toList, Node.dir), ("/b/mergable/sh".toList, Node.dir),
   ("/b/mergable/sh/Y.ach".toList, Node.file "yy".toList)]

def sampleXfer : ACHFile Str := ⟨"X".toList, "sh".toList, "xx".toList⟩

def sampleCancel : CancelACHFile := ⟨"X".toList, "sh".toList⟩

/-- A sender whose every call is refused with a permanent error; the world counts its calls. -/
def rejectingSender : Sender Message Nat :=
  ⟨fun _ w => (some (errorf "401 unauthorized".toList), w + 1),
   fun _ w => (some (errorf "401 unauthorized".toList), w + 1)⟩

/-- A sender that times out on its first two calls and succeeds afterwards. -/
def flakySender : Sender Message Nat :=
  ⟨fun _ w => (if w < 2 then some ⟨"i/o timeout".toList, true, false⟩ else none, w + 1),
   fun _ w => (if w < 2 then some ⟨"i/o timeout".toList, true, false⟩ else none, w + 1)⟩

def sampleRetries : NotificationRetries := ⟨1000000, 3⟩

def sampleMessage : Message := ⟨"FILE.ach".toList, "sftp.bank.com".toList⟩

/-- The action is a call of `eventEmitter.Send`. -/
def Action.isSend : Action → Bool
  | Action.send _ _ => true
  | _ => false

/-- An aggregator whose collaborators all succeed, but for the event of FileID `F2`: one file
name, the file's bytes as output, one sender without retries; the world counts the events
sent. -/
def sampleAggDeps : AggDeps Str Unit Nat where
  ImmediateDestination := fun _ => "123456780".toList
  FilenameTemplate := []
  RenderACHFilename := fun _ _ => .ok "FILE.ach".toList
  Format := fun r => .ok (r.File.getD [])
  SaveFile := fun _ _ w => (none, w)
  UploadFile := fun _ _ _ w => (none, w)
  Hostname := fun _ => "sftp.bank.com".toList
  ID := fun _ => "agent1".toList
  FindNotifier := fun _ => some (.ok ⟨[⟨fun _ w => (none, w), fun _ w => (none, w)⟩], none⟩)
  ForUpload := fun f w => (.ok (some ⟨some f, []⟩), w)
  Send := fun e w => (if e.FileID = "F2".toList then some (errorf "broker down".toList) else none, w + 1)
  ToUpper := fun s => s.map Char.toUpper
  today := fun _ => "2020-01-01".toList
  now := fun w => w

def sampleAggregator : aggregator Str Unit Nat := ⟨⟨"sh".toList⟩, sampleAggDeps⟩

/-- The sample aggregator with collaborators that leave a mark on the world: the audit write
adds 10, the upload 100, the notification 1000. -/
def markingAggregator : aggregator Str Unit Nat :=
  ⟨⟨"sh".toList⟩,
    { sampleAggDeps with
      SaveFile := fun _ _ w => (none, w + 10)
      UploadFile := fun _ _ _ w => (none, w + 100)
      FindNotifier := fun _ =>
        some (.ok ⟨[⟨fun _ w => (none, w + 1000), fun _ w => (none, w + 1000)⟩], none⟩) }⟩

/-- The marking aggregator with an audit storage that refuses every write. -/
def auditDownAggregator : aggregator Str Unit Nat :=
  ⟨⟨"sh".toList⟩,
    { markingAggregator.deps with
      SaveFile := fun _ _ w => (some (errorf "disk full".toList), w + 10) }⟩

/-- The marking aggregator with a filename template that does not render. -/
def badTemplateAggregator : aggregator Str Unit Nat :=
  ⟨⟨"sh".toList⟩,
    { markingAggregator.deps with
      RenderACHFilename := fun _ _ => .error (errorf "bad template".toList) }⟩

/-- The marking aggregator with an output formatter that fails. -/
def badFormatAggregator : aggregator Str Unit Nat :=
  ⟨⟨"sh".toList⟩,
    { markingAggregator.deps with Format := fun _ => .error (errorf "bad output".toList) }⟩

/-- The marking aggregator with an agent whose upload is refused. -/
def uploadDownAggregator : aggregator Str Unit Nat :=
  ⟨⟨"sh".toList⟩,
    { markingAggregator.deps with
      UploadFile := fun _ _ _ w => (some (errorf "connection refused".toList), w + 100) }⟩

def sampleAggState : AggState Nat := ⟨0, 0, 0, []⟩

/-- The steps of the loop over the merged files that come before the lock, for every merged
file in order: the error list and the filesystem they leave. -/
def prepareAll (m : filesystemMerging File Agent W) (dir : Str) :
    List File → List GoError × FS → List GoError × FS
  | [], acc => acc
  | file :: rest, (el, fs) =>
    prepareAll m dir rest ((prepareMerged m dir el fs file).2.1, (prepareMerged m dir el fs file).2.2)

/-- A staging directory that holds one file whose bytes do not parse. -/
def corruptFS : FS :=
  [("/b".toList, Node.dir), ("/b/mergable".toList, Node.dir), ("/b/mergable/sh".toList, Node.dir),
   ("/b/mergable/sh/F1.ach".toList, Node.file "bad".toList)]

/-- The sample merger with a shard whose upload agent cannot be built. -/
def noAgentMerger : filesystemMerging Str Unit Nat :=
  ⟨"/b/mergable".toList, ⟨⟨[], none⟩⟩, ⟨"sh".toList⟩,
    ⟨sampleDeps.achWrite, sampleDeps.achRead, sampleDeps.MergeFiles, sampleDeps.FlattenBatches,
      fun w => (.error (errorf "unknown agent".toList), w), sampleDeps.AcquireLock,
      sampleDeps.sha256hex, sampleDeps.now, sampleDeps.removeAllFault⟩⟩

/-- The sample merger on a system that refuses to remove the isolated directory. -/
def noRemoveMerger : filesystemMerging Str Unit Nat :=
  ⟨"/b/mergable".toList, ⟨⟨[], none⟩⟩, ⟨"sh".toList⟩,
    ⟨sampleDeps.achWrite, sampleDeps.achRead, sampleDeps.MergeFiles, sampleDeps.FlattenBatches,
      sampleDeps.uploadNew, sampleDeps.AcquireLock, sampleDeps.sha256hex, sampleDeps.now,
      fun _ => some (errorf "permission denied".toList)⟩⟩

/-- The sample merger for a process that is never the leader. -/
def followerMerger : filesystemMerging Str Unit Nat :=
  ⟨"/b/mergable".toList, ⟨⟨[], none⟩⟩, ⟨"sh".toList⟩,
    ⟨sampleDeps.achWrite, sampleDeps.achRead, sampleDeps.MergeFiles, sampleDeps.FlattenBatches,
      sampleDeps.uploadNew,
      fun key w => (some (errorf ("we are not the leader of ".toList ++ key)), w),
      sampleDeps.sha256hex, sampleDeps.now, sampleDeps.removeAllFault⟩⟩

/-- The file that one pass of the loop of WithEachMerged writes and offers to the callback: the
flattened file when flattening is configured and succeeds, else the merged file. -/
def flattened (m : filesystemMerging File Agent W) (file : File) : File :=
  match m.cfg.Merging.FlattenBatches with
  | none => file
  | some _ =>
    match m.deps.FlattenBatches file with
    | .error _ => file
    | .ok file1 => file1

/-- A callback that always fails and counts its calls in the world. -/
def failingCallback : Callback Str Unit Nat :=
  fun _ _ _ w => (some (errorf "connection refused".toList), w + 1)

/-- A callback that always succeeds and counts its calls in the world. -/
def countingCallback : Callback Str Unit Nat := fun _ _ _ w => (none, w + 1)

/-- An empty staging area: only the base directory exists. -/
def emptyFS : FS := [("/b".toList, Node.dir), ("/b/mergable".toList, Node.dir)]

/-- The staging area after HandleCancel(X) and then HandleXfer(X) on an empty one. -/
def canceledFS : FS :=
  (HandleXfer sampleMerger sampleXfer (HandleCancel sampleMerger sampleCancel emptyFS).2).2

/-- The sample merger of the process whose lock client is `client`, on a shared backend. -/
def clientMerger (client : Nat) : filesystemMerging Str Unit LockBackend :=
  ⟨"/b/mergable".toList, ⟨⟨[], none⟩⟩, ⟨"sh".toList⟩,
    ⟨sampleDeps.achWrite, sampleDeps.achRead, sampleDeps.MergeFiles, sampleDeps.FlattenBatches,
      fun b => (.ok (), b), AcquireLock client, sampleDeps.sha256hex,
      fun _ => "20200101-000000".toList, fun _ => none⟩⟩

/-- A callback that always succeeds and leaves the lock backend alone. -/
def quietCallback : Callback Str Unit LockBackend := fun _ _ _ b => (none, b)

/-- The staging directory of a second process, holding one file Z. -/
def otherFS : FS :=
  [("/b".toList, Node.dir), ("/b/mergable".toList, Node.dir), ("/b/mergable/sh".toList, Node.dir),
   ("/b/mergable/sh/Z.ach".toList, Node.file "zz".toList)]

/-- Processes inside their cutoff loops, none having called its callback yet, on a backend
where no key is held. -/
def sampleCluster : Cluster Str := ⟨[], fun _ => ⟨[], emptyFS, [], 0, [], []⟩⟩

/-- What `filepath.Join(d, e)` writes before a kept element `e`: the cleaned `d` closed by a
separator (nothing when the cleaned `d` is the current directory). -/
def joinPrefix (d : Str) : Str :=
  if d = [] then []
  else
    let comps := ((splitSep d).foldl (cleanStep (d.head? = some '/')) []).reverse
    if d.head? = some '/' then (if comps = [] then ['/'] else '/' :: joinSep comps ++ ['/'])
    else (if comps = [] then [] else joinSep comps ++ ['/'])

/-- A staging directory that holds the staged files of FileIDs `a` and `c`. -/
def stagedFS : FS :=
  [("/b".toList, Node.dir), ("/b/mergable".toList, Node.dir), ("/b/mergable/sh".toList, Node.dir),
   ("/b/mergable/sh/a.ach".toList, Node.file "aa".toList),
   ("/b/mergable/sh/c.ach".toList, Node.file "cc".toList)]

/-! # Theorems -/

/-! ## Lemmas: paths -/

theorem splitSep_ne_nil (s : Str) : splitSep s ≠ [] := by
  cases s with
  | nil => simp [splitSep]
  | cons c cs =>
    simp only [splitSep]
    split
    · simp
    · split <;> simp

theorem splitSep_noSlash (e : Str) (h : '/' ∉ e) : splitSep e = [e] := by
  induction e with
  | nil => rfl
  | cons c cs ih =>
    have hc : c ≠ '/' := fun hc => h (by simp [hc])
    have hcs : '/' ∉ cs := fun hcs => h (by simp [hcs])
    simp [splitSep, hc, ih hcs]

theorem splitSep_append (a b : Str) : splitSep (a ++ '/' :: b) = splitSep a ++ splitSep b := by
  induction a with
  | nil => simp [splitSep]
  | cons c cs ih =>
    by_cases hc : c = '/'
    · simp [splitSep, hc, ih]
    · simp only [List.cons_append, splitSep, hc, if_false, List.append_eq]
      rw [ih]
      cases hs : splitSep cs with
      | nil => exact absurd hs (splitSep_ne_nil cs)
      | cons h t => simp

theorem joinSep_snoc (l : List Str) (e : Str) :
    joinSep (l ++ [e]) = if l = [] then e else joinSep l ++ '/' :: e := by
  induction l with
  | nil => simp [joinSep]
  | cons a t ih =>
    cases t with
    | nil => simp [joinSep]
    | cons b r =>
      simp only [List.cons_append, joinSep] at ih ⊢
      simp at ih
      simp [ih]

theorem Clean_snoc (d e : Str) (he : normalElem e) :
    ∃ pre, dirPrefix pre ∧ Clean (d ++ '/' :: e) = pre ++ e := by
  obtain ⟨he1, he2, he3, he4⟩ := he
  have hstep : ∀ r S, cleanStep r S e = e :: S := by
    intro r S; simp [cleanStep, he1, he3, he4]
  have hne : d ++ '/' :: e ≠ [] := by simp
  have hfold : ∀ r, ((splitSep (d ++ '/' :: e)).foldl (cleanStep r) []).reverse
      = ((splitSep d).foldl (cleanStep r) []).reverse ++ [e] := by
    intro r
    rw [splitSep_append, splitSep_noSlash e he2, List.foldl_append]
    simp [hstep]
  unfold Clean
  simp only [hne, if_false, hfold, joinSep_snoc]
  generalize ((splitSep d).foldl (cleanStep (decide ((d ++ '/' :: e).head? = some '/'))) []).reverse = L
  by_cases hr : (d ++ '/' :: e).head? = some '/'
  · simp only [hr, decide_True, if_true]
    by_cases hL : L = []
    · exact ⟨['/'], Or.inr ⟨[], rfl⟩, by simp [hL]⟩
    · exact ⟨'/' :: joinSep L ++ ['/'], Or.inr ⟨'/' :: joinSep L, rfl⟩, by simp [hL]⟩
  · simp only [hr, decide_False]
    by_cases hL : L = []
    · exact ⟨[], Or.inl rfl, by simp [hL, he1]⟩
    · refine ⟨joinSep L ++ ['/'], Or.inr ⟨joinSep L, rfl⟩, ?_⟩
      simp [hL]

theorem Clean_normal (e : Str) (he : normalElem e) : Clean e = e := by
  obtain ⟨he1, he2, he3, he4⟩ := he
  have hh : e.head? ≠ some '/' := by
    cases e with
    | nil => simp
    | cons c cs =>
      simp only [List.head?_cons, ne_eq, Option.some.injEq]
      intro hc; exact he2 (by simp [hc])
  simp [Clean, he1, hh, splitSep_noSlash e he2, cleanStep, he3, he4, joinSep]

theorem Join_normal (d e : Str) (he : normalElem e) :
    ∃ pre, dirPrefix pre ∧ Join d e = pre ++ e := by
  by_cases hd : d = []
  · refine ⟨[], Or.inl rfl, ?_⟩
    simp [Join, hd, he.1, Clean_normal e he]
  · simp only [Join, hd, ne_eq, not_false_eq_true, if_true]
    exact Clean_snoc d e he

theorem Split_noSlash (e : Str) (h : '/' ∉ e) : Split e = ([], e) := by
  induction e with
  | nil => rfl
  | cons c cs ih =>
    have hc : c ≠ '/' := fun hc => h (by simp [hc])
    have hcs : '/' ∉ cs := fun hcs => h (by simp [hcs])
    simp [Split, ih hcs, hc]

theorem Split_snoc (q e : Str) (h : '/' ∉ e) : Split (q ++ '/' :: e) = (q ++ ['/'], e) := by
  induction q with
  | nil => simp [Split, Split_noSlash e h]
  | cons c cs ih =>
    simp only [List.cons_append, Split, List.append_eq]
    rw [ih]
    cases cs <;> simp

theorem Split_dirPrefix (pre e : Str) (hp : dirPrefix pre) (h : '/' ∉ e) : Split (pre ++ e) = (pre, e) := by
  rcases hp with rfl | ⟨q, rfl⟩
  · simpa using Split_noSlash e h
  · simpa using Split_snoc q e h

/-! ## Lemmas: patterns -/

theorem matchStar_of_rest (g : Str → Bool) (x : Str) (h : g x = true) : matchStar g x = true := by
  cases x with
  | nil => simpa [matchStar] using h
  | cons c s => simp [matchStar, h]

theorem matchStar_append (f g : Str → Bool) (t : Str)
    (hfg : ∀ s, f s = true → g (s ++ t) = true) (s : Str) (h : matchStar f s = true) :
    matchStar g (s ++ t) = true := by
  induction s with
  | nil =>
    simp only [matchStar] at h
    exact matchStar_of_rest g _ (hfg [] h)
  | cons c s ih =>
    simp only [matchStar, Bool.or_eq_true, Bool.and_eq_true] at h
    simp only [List.cons_append, matchStar, Bool.or_eq_true, Bool.and_eq_true]
    rcases h with h | ⟨hc, h⟩
    · exact Or.inl (hfg _ h)
    · exact Or.inr ⟨hc, ih h⟩

theorem matchPat_append (P Q : Str) (t : Str) (hQ : matchPat Q t = true) :
    ∀ s, matchPat P s = true → matchPat (P ++ Q) (s ++ t) = true := by
  induction P with
  | nil =>
    intro s h
    simp only [matchPat, List.isEmpty_iff] at h
    simpa [h] using hQ
  | cons a p ih =>
    intro s h
    by_cases ha : a = '*'
    · simp only [matchPat, ha, if_true] at h
      simp only [List.cons_append, matchPat, ha, if_true]
      exact matchStar_append _ _ t ih s h
    · cases s with
      | nil => simp [matchPat, ha] at h
      | cons c s =>
        simp only [matchPat, ha, if_false] at h
        simp only [List.cons_append, matchPat, ha, if_false]
        by_cases hq : a = '?'
        · simp only [hq, if_true, Bool.and_eq_true] at h ⊢
          exact ⟨h.1, ih s h.2⟩
        · simp only [hq, if_false, Bool.and_eq_true] at h ⊢
          exact ⟨h.1, ih s h.2⟩

/-! ## Lemmas: the fuel of the pattern scanners is never used up -/

theorem getEsc_length (chunk : Str) (c : Char) (rest : Str) (h : getEsc chunk = some (c, rest)) :
    rest.length < chunk.length := by
  unfold getEsc at h
  cases chunk with
  | nil => cases h
  | cons a t =>
    simp only at h
    split at h
    · cases h
    · split at h
      · cases t with
        | nil => cases h
        | cons r n =>
          simp only at h
          split at h
          · cases h
          · simp only [Option.some.injEq, Prod.mk.injEq] at h
            rw [← h.2]
            simp only [List.length_cons]
            omega
      · split at h
        · cases h
        · simp only [Option.some.injEq, Prod.mk.injEq] at h
          rw [← h.2]
          simp

theorem scanRanges_length : ∀ (fuel : Nat) (b : Bool) (chunk : Str) (r : List (Char × Char))
    (rest : Str), scanRanges fuel b chunk = some (r, rest) → rest.length < chunk.length := by
  intro fuel
  induction fuel with
  | zero => intro b chunk r rest h; cases h
  | succ n ih =>
    intro b chunk r rest h
    unfold scanRanges at h
    split at h
    · rename_i hc
      simp only [Option.some.injEq, Prod.mk.injEq] at h
      rw [← h.2]
      cases chunk with
      | nil => simp at hc
      | cons a t => simp
    · cases hg : getEsc chunk with
      | none => simp [hg] at h
      | some p =>
        obtain ⟨lo, chunk1⟩ := p
        have hl1 := getEsc_length chunk lo chunk1 hg
        simp only [hg] at h
        split at h
        · cases hg2 : getEsc chunk1.tail with
          | none => simp [hg2] at h
          | some q =>
            obtain ⟨hi, chunk2⟩ := q
            have hl2 := getEsc_length chunk1.tail hi chunk2 hg2
            simp only [hg2] at h
            cases hr : scanRanges n true chunk2 with
            | none => simp [hr] at h
            | some z =>
              obtain ⟨ranges, rest2⟩ := z
              have hl3 := ih true chunk2 ranges rest2 hr
              simp only [hr, Option.some.injEq, Prod.mk.injEq] at h
              rw [← h.2]
              have : chunk1.tail.length ≤ chunk1.length := by simp
              omega
        · cases hr : scanRanges n true chunk1 with
          | none => simp [hr] at h
          | some z =>
            obtain ⟨ranges, rest2⟩ := z
            have hl3 := ih true chunk1 ranges rest2 hr
            simp only [hr, Option.some.injEq, Prod.mk.injEq] at h
            rw [← h.2]
            omega

/-- The ranges of a class do not depend on the fuel, once it exceeds the length of the chunk. -/
theorem scanRanges_fuel : ∀ (fuel1 fuel2 : Nat) (b : Bool) (chunk : Str),
    chunk.length < fuel1 → chunk.length < fuel2 →
    scanRanges fuel1 b chunk = scanRanges fuel2 b chunk := by
  intro fuel1
  induction fuel1 with
  | zero => intro fuel2 b chunk h; cases h
  | succ n ih =>
    intro fuel2 b chunk h1 h2
    cases fuel2 with
    | zero => cases h2
    | succ k =>
      unfold scanRanges
      split
      · rfl
      · cases hg : getEsc chunk with
        | none => rfl
        | some p =>
          obtain ⟨lo, chunk1⟩ := p
          have hl1 := getEsc_length chunk lo chunk1 hg
          simp only
          split
          · cases hg2 : getEsc chunk1.tail with
            | none => rfl
            | some q =>
              obtain ⟨hi, chunk2⟩ := q
              have hl2 := getEsc_length chunk1.tail hi chunk2 hg2
              have : chunk1.tail.length ≤ chunk1.length := by simp
              simp only
              rw [ih k true chunk2 (by omega) (by omega)]
          · rw [ih k true chunk1 (by omega) (by omega)]

/-- The elements of a pattern do not depend on the fuel, once it exceeds the length of the
pattern: the scan of a pattern never fails for lack of fuel. -/
theorem scanPattern_fuel : ∀ (fuel1 fuel2 : Nat) (pattern : Str),
    pattern.length < fuel1 → pattern.length < fuel2 →
    scanPattern fuel1 pattern = scanPattern fuel2 pattern := by
  intro fuel1
  induction fuel1 with
  | zero => intro fuel2 pattern h; cases h
  | succ n ih =>
    intro fuel2 pattern h1 h2
    cases fuel2 with
    | zero => cases h2
    | succ k =>
      cases pattern with
      | nil => rfl
      | cons c rest =>
        simp only [List.length_cons, Nat.add_lt_add_iff_right] at h1 h2
        unfold scanPattern
        split
        · rw [ih k rest h1 h2]
        · split
          · rw [ih k rest h1 h2]
          · split
            · simp only
              cases hr : scanRanges ((if (decide (rest.head? = some '^')) = true then rest.tail
                  else rest).length + 1) false
                  (if (decide (rest.head? = some '^')) = true then rest.tail else rest) with
              | none => rfl
              | some z =>
                obtain ⟨ranges, rest1⟩ := z
                have hl := scanRanges_length _ _ _ _ _ hr
                have hle : (if (decide (rest.head? = some '^')) = true then rest.tail
                    else rest).length ≤ rest.length := by
                  split
                  · simp
                  · exact Nat.le_refl _
                simp only
                rw [ih k rest1 (by omega) (by omega)]
            · split
              · cases rest with
                | nil => rfl
                | cons r rest1 =>
                  simp only [List.length_cons] at h1 h2
                  simp only
                  rw [ih k rest1 (by omega) (by omega)]
              · rw [ih k rest h1 h2]

theorem scanPattern_noClass (pattern : Str) : ∀ fuel : Nat, noClass pattern →
    pattern.length < fuel →
    scanPattern fuel pattern = some (pattern.map (fun c =>
      if c = '*' then PatElem.star else if c = '?' then PatElem.any else PatElem.lit c)) := by
  induction pattern with
  | nil =>
    intro fuel _ hf
    cases fuel with
    | zero => cases hf
    | succ n => rfl
  | cons c rest ih =>
    intro fuel h hf
    cases fuel with
    | zero => cases hf
    | succ n =>
      unfold noClass at h
      simp only [List.any_cons, Bool.or_eq_false_iff, decide_eq_false_iff_not, not_or] at h
      obtain ⟨⟨h1, h2⟩, h3⟩ := h
      have hrest := ih n h3 (by simpa using hf)
      simp only [scanPattern, h1, h2, if_false, hrest, List.map_cons, Option.map_some']
      by_cases hs : c = '*'
      · simp [hs]
      · by_cases hq : c = '?'
        · simp [hq]
        · simp [hs, hq]

theorem matchElems_plain (pattern : Str) : ∀ name : Str,
    matchElems (pattern.map (fun c =>
      if c = '*' then PatElem.star else if c = '?' then PatElem.any else PatElem.lit c)) name
      = matchPat pattern name := by
  induction pattern with
  | nil => intro name; simp [matchElems, matchPat]
  | cons c rest ih =>
    intro name
    have hfun : matchElems (rest.map (fun c =>
        if c = '*' then PatElem.star else if c = '?' then PatElem.any else PatElem.lit c))
        = matchPat rest := funext ih
    by_cases hs : c = '*'
    · simp only [List.map_cons, hs, if_true, matchElems, matchPat, hfun]
    · by_cases hq : c = '?'
      · cases name with
        | nil => simp [matchElems, matchPat, hq]
        | cons x s => simp [matchElems, matchPat, hq, ih]
      · cases name with
        | nil => simp [matchElems, matchPat, hs, hq]
        | cons x s => simp [matchElems, matchPat, hs, hq, ih]

/-- On a pattern without `[` and backslash, filepath.Match never fails and is the matching of
`*`, `?` and plain characters. -/
theorem Match_noClass (pattern name : Str) (h : noClass pattern) :
    Match pattern name = .ok (matchPat pattern name) := by
  unfold Match
  rw [scanPattern_noClass pattern _ h (Nat.lt_succ_self _)]
  simp only [matchElems_plain]

/-! ## Lemmas: the filesystem -/

theorem lookup_eq_none_iff (fs : FS) (p : Str) : lookup fs p = none ↔ ∀ e ∈ fs, e.1 ≠ p := by
  induction fs with
  | nil => simp [lookup]
  | cons a rest ih =>
    obtain ⟨k, n⟩ := a
    by_cases hk : k = p
    · simp only [lookup, hk, if_true, List.mem_cons, forall_eq_or_imp]
      constructor
      · intro h; cases h
      · intro h; exact absurd rfl h.1
    · simp only [lookup, hk, if_false, List.mem_cons, forall_eq_or_imp, ih]
      constructor
      · intro h; exact ⟨hk, h⟩
      · intro h; exact h.2

theorem lookup_isSome_iff (fs : FS) (p : Str) : (lookup fs p).isSome = true ↔ ∃ e ∈ fs, e.1 = p := by
  rw [← not_iff_not]
  simp only [Bool.not_eq_true, Option.not_isSome, Option.isNone_iff_eq_none, lookup_eq_none_iff]
  push_neg
  rfl

theorem Stat_error_lookup (fs : FS) (p : Str) (err : GoError) (h : Stat fs p = .error err) :
    lookup fs p = none := by
  unfold Stat at h
  cases hl : lookup fs p with
  | none => rfl
  | some n => simp [hl] at h

theorem mkdirStep_mono (acc : Except GoError FS) (q : Str) (fs1 : FS) (h : mkdirStep acc q = .ok fs1) :
    ∃ fs0, acc = .ok fs0 ∧ ∀ e ∈ fs0, e ∈ fs1 := by
  cases acc with
  | error e => simp [mkdirStep] at h
  | ok fs0 =>
    refine ⟨fs0, rfl, ?_⟩
    simp only [mkdirStep] at h
    split at h
    · cases h; exact fun e he => he
    · split at h
      · cases h
      · cases h; intro e he; simp [he]

theorem mkdirFold_mono (l : List Str) : ∀ (acc : Except GoError FS) (fs1 : FS),
    l.foldl mkdirStep acc = .ok fs1 → ∃ fs0, acc = .ok fs0 ∧ ∀ e ∈ fs0, e ∈ fs1 := by
  induction l with
  | nil => intro acc fs1 h; exact ⟨fs1, h, fun e he => he⟩
  | cons q rest ih =>
    intro acc fs1 h
    simp only [List.foldl_cons] at h
    obtain ⟨fsm, hm, hmono⟩ := ih _ _ h
    obtain ⟨fs0, h0, hmono0⟩ := mkdirStep_mono _ _ _ hm
    exact ⟨fs0, h0, fun e he => hmono e (hmono0 e he)⟩

theorem MkdirAll_mono (fs fs1 : FS) (path : Str) (h : MkdirAll fs path = .ok fs1) :
    ∀ e ∈ fs, e ∈ fs1 := by
  obtain ⟨fs0, h0, hmono⟩ := mkdirFold_mono _ _ _ h
  cases h0
  exact hmono

theorem WriteFile_ok (fs fs1 : FS) (name data : Str) (h : WriteFile fs name data = .ok fs1) :
    fs1 = (name, Node.file data) :: fs.filter (fun e => e.1 ≠ name) := by
  unfold WriteFile at h
  split at h
  · split at h
    · cases h
    · cases h; rfl
  · cases h

theorem append_ne_self (a suf : Str) (h : suf ≠ []) : a ++ suf ≠ a := by
  intro hEq
  have := congrArg List.length hEq
  simp only [List.length_append] at this
  have hl : suf.length = 0 := by omega
  exact h (List.length_eq_zero.mp hl)

theorem append_append_ne_self (a suf x : Str) (h : suf ≠ []) : a ++ suf ++ x ≠ a := by
  rw [List.append_assoc]
  exact append_ne_self a (suf ++ x) (by simp [h])

theorem Rename_ok (fs fs1 : FS) (old new : Str) (h : Rename fs old new = .ok fs1) (hne : old ≠ new) :
    (∃ n, lookup fs old = some n) ∧ fs1 = (fs.filter (fun e => e.1 ≠ new)).map (rekey old new) := by
  unfold Rename at h
  cases hl : lookup fs old with
  | none => simp [hl] at h
  | some node =>
    refine ⟨⟨node, rfl⟩, ?_⟩
    simp only [hl] at h
    split at h
    · cases h
    · split at h
      · cases h
      · split at h
        · cases h
        · cases h
        · split at h
          · cases h
          · cases h; rfl
        · cases h; rfl

theorem Rename_suffix_gone (fs fs1 : FS) (old suf : Str) (hs : suf ≠ [])
    (h : Rename fs old (old ++ suf) = .ok fs1) : lookup fs1 old = none := by
  have hne : old ≠ old ++ suf := fun hEq => append_ne_self old suf hs hEq.symm
  obtain ⟨_, rfl⟩ := Rename_ok _ _ _ _ h hne
  rw [lookup_eq_none_iff]
  intro e he
  simp only [List.mem_map, List.mem_filter] at he
  obtain ⟨e0, ⟨_, _⟩, rfl⟩ := he
  unfold rekey
  split
  · exact append_ne_self old suf hs
  · split
    · exact append_append_ne_self old suf _ hs
    · assumption

theorem Rename_new_exists (fs fs1 : FS) (old new : Str) (h : Rename fs old new = .ok fs1) :
    (lookup fs1 new).isSome = true := by
  by_cases hne : old = new
  · subst hne
    unfold Rename at h
    cases hl : lookup fs old with
    | none => simp [hl] at h
    | some node =>
      simp only [hl] at h
      split at h
      · cases h
      · cases h
        rw [hl]; rfl
  · obtain ⟨⟨n, hn⟩, rfl⟩ := Rename_ok _ _ _ _ h hne
    rw [lookup_isSome_iff]
    have : (lookup fs old).isSome = true := by simp [hn]
    rw [lookup_isSome_iff] at this
    obtain ⟨e, he, hk⟩ := this
    refine ⟨rekey old new e, ?_, ?_⟩
    · simp only [List.mem_map, List.mem_filter]
      exact ⟨e, ⟨he, by simp [hk, hne]⟩, rfl⟩
    · simp [rekey, hk]

/-! ## Lemmas: globbing -/

theorem isPrefixOf_drop_iff (pre k n : Str) :
    (pre.isPrefixOf k = true ∧ k.drop pre.length = n) ↔ k = pre ++ n := by
  constructor
  · rintro ⟨h1, h2⟩
    rw [ List.isPrefixOf_iff_prefix] at h1
    obtain ⟨t, rfl⟩ := h1
    simp at h2
    rw [h2]
  · rintro rfl
    constructor
    · rw [ List.isPrefixOf_iff_prefix]
      exact ⟨n, rfl⟩
    · simp

theorem mem_Readdirnames (fs : FS) (pre n : Str) :
    n ∈ Readdirnames fs pre ↔ (n ≠ [] ∧ '/' ∉ n ∧ ∃ e ∈ fs, e.1 = pre ++ n) := by
  unfold Readdirnames
  rw [(List.perm_insertionSort strLe _).mem_iff, List.mem_filterMap]
  constructor
  · rintro ⟨e, he, h⟩
    split at h
    · rename_i hc
      cases h
      exact ⟨hc.2.1, hc.2.2, e, he, (isPrefixOf_drop_iff pre e.1 _).mp ⟨hc.1, rfl⟩⟩
    · cases h
  · rintro ⟨h1, h2, e, he, hk⟩
    refine ⟨e, he, ?_⟩
    obtain ⟨hp, hd⟩ := (isPrefixOf_drop_iff pre e.1 n).mpr hk
    rw [if_pos ⟨hp, by rw [hd]; exact h1, by rw [hd]; exact h2⟩, hd]

theorem globFold_eq (pre pattern : Str) (h : noClass pattern) (names : List Str) :
    ∀ acc : List Str, names.foldl
      (fun acc n =>
        match acc with
        | .error e => .error e
        | .ok m =>
          match Match pattern n with
          | .error e => .error e
          | .ok matched => .ok (if matched then m ++ [pre ++ n] else m))
      (.ok acc : Except GoError (List Str))
      = .ok (acc ++ (names.filter (fun n => matchPat pattern n)).map (fun n => pre ++ n)) := by
  induction names with
  | nil => intro acc; simp
  | cons n rest ih =>
    intro acc
    simp only [List.foldl_cons, Match_noClass pattern n h]
    by_cases hm : matchPat pattern n = true
    · simp only [hm, if_true]
      rw [ih]
      simp [List.filter_cons, hm]
    · simp only [hm]
      rw [ih]
      simp [List.filter_cons, hm]

theorem glob_eq (fs : FS) (dir pattern : Str) (h : noClass pattern) (acc : List Str) :
    glob fs dir pattern acc = .ok (acc ++ globDir fs pattern dir) := by
  unfold glob globDir
  split
  · rw [globFold_eq (dirSep dir) pattern h]
  · simp

theorem globDirs_fold (fs : FS) (pattern : Str) (h : noClass pattern) (m : List Str) :
    ∀ acc : List Str, m.foldl
      (fun acc d =>
        match acc with
        | .error e => .error e
        | .ok matches_ => glob fs d pattern matches_)
      (.ok acc : Except GoError (List Str))
      = .ok (acc ++ m.flatMap (globDir fs pattern)) := by
  induction m with
  | nil => intro acc; simp
  | cons d rest ih =>
    intro acc
    simp only [List.foldl_cons, glob_eq fs d pattern h, ih, List.flatMap_cons, List.append_assoc]

theorem hasMeta_append_right (a b : Str) (h : hasMeta b = true) : hasMeta (a ++ b) = true := by
  unfold hasMeta at *
  rw [List.any_append, h, Bool.or_true]

/-- What filepath.Glob returns for a pattern whose file part is made of `*`, `?` and plain
characters: the entries, matching the file part, of every directory the directory part stands
for. -/
theorem Glob_dirPrefix (fs : FS) (pre file : Str) (hp : dirPrefix pre) (hs : '/' ∉ file)
    (hm : hasMeta file = true) (hc : noClass file) (out : List Str)
    (h : Glob fs (pre ++ file) = .ok out) :
    out = (globDirs fs pre).flatMap (globDir fs file) := by
  unfold Glob at h
  have h10 : globWithLimit fs 10000 (pre ++ file) = globWithLimit fs (9999 + 1) (pre ++ file) := rfl
  rw [h10] at h
  unfold globWithLimit at h
  unfold globDirs
  simp only [hasMeta_append_right pre file hm, Bool.not_true, Bool.false_eq_true, if_false,
    Split_dirPrefix pre file hp hs] at h
  split at h
  · cases h
  · by_cases hd : hasMeta (cleanGlobPath pre) = true
    · simp only [hd, Bool.not_true, Bool.false_eq_true, if_false, if_true] at h ⊢
      split at h
      · cases h
      · split at h
        · cases h
        · rename_i m hm2
          rw [globDirs_fold fs file hc m] at h
          simp only [List.nil_append, Except.ok.injEq] at h
          rw [hm2]
          exact h.symm
    · simp only [hd, Bool.not_false, if_true, glob_eq fs _ file hc, List.nil_append,
        Except.ok.injEq, Bool.false_eq_true, if_false] at h ⊢
      simp only [List.flatMap_cons, List.flatMap_nil, List.append_nil]
      exact h.symm

theorem hasMeta_cleanGlobPath (pre : Str) (hd : hasMeta pre = false) :
    hasMeta (cleanGlobPath pre) = false := by
  unfold cleanGlobPath
  split
  · decide
  · split
    · exact hd
    · unfold hasMeta at hd ⊢
      rw [List.any_eq_false] at hd ⊢
      exact fun c hcm => hd c (List.mem_of_mem_dropLast hcm)

/-- For a directory part without metacharacter, filepath.Glob reads that one directory. -/
theorem globDirs_plain (fs : FS) (pre : Str) (hd : hasMeta pre = false) :
    globDirs fs pre = [cleanGlobPath pre] := by
  unfold globDirs
  rw [hasMeta_cleanGlobPath pre hd]
  rfl

/-! ## C1: cancel precedence -/

theorem isPrefixOf_append_self (p suf : Str) : p.isPrefixOf (p ++ suf) = true := by
  rw [ List.isPrefixOf_iff_prefix]
  exact ⟨suf, rfl⟩

theorem normalElem_starAch : normalElem "*.ach".toList := by
  unfold normalElem; decide

theorem mem_globDir (fs : FS) (file dir p : Str) :
    p ∈ globDir fs file dir ↔ (isDir fs dir = true ∧
      ∃ n ∈ Readdirnames fs (dirSep dir), matchPat file n = true ∧ p = dirSep dir ++ n) := by
  unfold globDir
  by_cases hd : isDir fs dir = true
  · simp only [hd, if_true, List.mem_map, List.mem_filter, true_and]
    constructor
    · rintro ⟨n, ⟨hn, hm⟩, rfl⟩
      exact ⟨n, hn, hm, rfl⟩
    · rintro ⟨n, hn, hm, rfl⟩
      exact ⟨n, ⟨hn, hm⟩, rfl⟩
  · simp [hd]

/-- The paths getNonCanceledMatches returns for `<dir>/*.ach`, written out: of the entries
matching `*.ach` of every directory that `<dir>` stands for, those that are not a prefix of an
entry matching `*.ach*.canceled` of one of these directories. -/
theorem getNonCanceledMatches_globDirs (fs : FS) (pre : Str) (hp : dirPrefix pre) (out : List Str)
    (h : getNonCanceledMatches fs (pre ++ "*.ach".toList) = .ok out) :
    out = ((globDirs fs pre).flatMap (globDir fs "*.ach".toList)).filter
      (fun p => !(((globDirs fs pre).flatMap (globDir fs "*.ach*.canceled".toList)).any
        (fun n => HasPrefix n p))) := by
  unfold getNonCanceledMatches at h
  rw [List.append_assoc] at h
  have e1 : "*.ach".toList ++ "*.canceled".toList = "*.ach*.canceled".toList := by decide
  rw [e1] at h
  cases hpos : Glob fs (pre ++ "*.ach".toList) with
  | error err => rw [hpos] at h; cases h
  | ok positiveMatches =>
    cases hneg : Glob fs (pre ++ "*.ach*.canceled".toList) with
    | error err => rw [hpos, hneg] at h; cases h
    | ok negativeMatches =>
      rw [hpos, hneg] at h
      simp only [Except.ok.injEq] at h
      rw [Glob_dirPrefix fs pre _ hp (by decide) (by decide) (by unfold noClass; decide) _ hpos,
        Glob_dirPrefix fs pre _ hp (by decide) (by decide) (by unfold noClass; decide) _ hneg] at h
      exact h.symm

/-- Every path returned for `<dir>/*.ach` exists and has no sibling `<path>.canceled`. -/
theorem getNonCanceledMatches_sound (fs : FS) (pre : Str) (hp : dirPrefix pre) (out : List Str)
    (h : getNonCanceledMatches fs (pre ++ "*.ach".toList) = .ok out) :
    ∀ p ∈ out, (lookup fs p).isSome = true ∧ lookup fs (p ++ ".canceled".toList) = none := by
  have e1 : "*.ach".toList ++ "*.canceled".toList = "*.ach*.canceled".toList := by decide
  rw [getNonCanceledMatches_globDirs fs pre hp out h]
  intro p hpout
  rw [List.mem_filter] at hpout
  obtain ⟨hpos, hneg⟩ := hpout
  rw [List.mem_flatMap] at hpos
  obtain ⟨d, hd, hpd⟩ := hpos
  rw [mem_globDir] at hpd
  obtain ⟨hdir, n, hn, hmatch, rfl⟩ := hpd
  rw [mem_Readdirnames] at hn
  obtain ⟨hn1, hn2, hn3⟩ := hn
  refine ⟨(lookup_isSome_iff fs _).mpr hn3, ?_⟩
  by_contra hex
  have hex2 : (lookup fs (dirSep d ++ n ++ ".canceled".toList)).isSome = true := by
    cases hl : lookup fs (dirSep d ++ n ++ ".canceled".toList) with
    | none => exact absurd hl hex
    | some _ => rfl
  rw [lookup_isSome_iff] at hex2
  have hmem : n ++ ".canceled".toList ∈ Readdirnames fs (dirSep d) := by
    rw [mem_Readdirnames]
    refine ⟨by simp [hn1], ?_, ?_⟩
    · intro hmem
      rcases List.mem_append.mp hmem with hmem | hmem
      · exact hn2 hmem
      · revert hmem; decide
    · simpa [List.append_assoc] using hex2
  have hm2 : matchPat "*.ach*.canceled".toList (n ++ ".canceled".toList) = true := by
    have := matchPat_append "*.ach".toList "*.canceled".toList ".canceled".toList (by decide) n
      hmatch
    rw [e1] at this
    exact this
  have hin : dirSep d ++ (n ++ ".canceled".toList) ∈
      (globDirs fs pre).flatMap (globDir fs "*.ach*.canceled".toList) := by
    rw [List.mem_flatMap]
    exact ⟨d, hd, (mem_globDir fs _ d _).mpr ⟨hdir, _, hmem, hm2, rfl⟩⟩
  simp only [Bool.not_eq_true', List.any_eq_false] at hneg
  have := hneg _ hin
  simp only [HasPrefix, ← List.append_assoc, isPrefixOf_append_self] at this
  exact this trivial

theorem HandleCancel_ok (m : filesystemMerging File Agent W) (cancel : CancelACHFile) (fs fs2 : FS)
    (h : HandleCancel m cancel fs = (none, fs2)) :
    lookup fs2 (Join (Join m.baseDir m.shard.Name) (cancel.FileID ++ ".ach".toList)) = none ∧
    (lookup fs2 (Join (Join m.baseDir m.shard.Name) (cancel.FileID ++ ".ach".toList)
      ++ ".canceled".toList)).isSome = true := by
  unfold HandleCancel at h
  simp only at h
  generalize Join (Join m.baseDir m.shard.Name) (cancel.FileID ++ ".ach".toList) = p at h ⊢
  generalize (match MkdirAll fs (Join m.baseDir m.shard.Name) with
    | .ok fs1 => fs1
    | .error _ => fs) = fs1 at h
  have hsuf : ".canceled".toList ≠ [] := by decide
  split at h
  · rename_i hne
    have hnone : lookup fs1 p = none := by
      cases hs : Stat fs1 p with
      | error err => exact Stat_error_lookup fs1 p err hs
      | ok n => simp [hs] at hne
    split at h
    · simp at h
    · rename_i fs3 hw0
      have hw : WriteFile fs1 (p ++ ".canceled".toList) [] = .ok fs3 := hw0
      simp only [Prod.mk.injEq, true_and] at h
      subst h
      rw [WriteFile_ok _ _ _ _ hw]
      constructor
      · rw [lookup_eq_none_iff]
        intro e he
        rcases List.mem_cons.mp he with rfl | he
        · exact append_ne_self p _ hsuf
        · exact (lookup_eq_none_iff fs1 p).mp hnone e (List.mem_filter.mp he).1
      · simp [lookup]
  · split at h
    · simp at h
    · rename_i fs3 hr0
      have hr : Rename fs1 p (p ++ ".canceled".toList) = .ok fs3 := hr0
      simp only [Prod.mk.injEq, true_and] at h
      subst h
      exact ⟨Rename_suffix_gone fs1 fs3 p _ hsuf hr, Rename_new_exists fs1 fs3 p _ hr⟩

theorem HandleXfer_ok (m : filesystemMerging File Agent W) (xfer : ACHFile File) (fs fs2 : FS)
    (h : HandleXfer m xfer fs = (none, fs2)) :
    (lookup fs2 (Join (Join m.baseDir m.shard.Name) (xfer.FileID ++ ".ach".toList))).isSome = true ∧
    ∀ q, q ≠ Join (Join m.baseDir m.shard.Name) (xfer.FileID ++ ".ach".toList) →
      (lookup fs q).isSome = true → (lookup fs2 q).isSome = true := by
  unfold HandleXfer writeACHFile at h
  cases hb : m.deps.achWrite xfer.File with
  | error err => simp [hb] at h
  | ok buf =>
    simp only [hb] at h
    generalize Join (Join m.baseDir m.shard.Name) (xfer.FileID ++ ".ach".toList) = p at h ⊢
    have hmono : ∀ e ∈ fs, e ∈ (match MkdirAll fs (Join m.baseDir m.shard.Name) with
        | .ok fs1 => fs1
        | .error _ => fs) := by
      cases hmk : MkdirAll fs (Join m.baseDir m.shard.Name) with
      | error _ => exact fun e he => he
      | ok fs1 => exact MkdirAll_mono fs fs1 _ hmk
    generalize (match MkdirAll fs (Join m.baseDir m.shard.Name) with
      | .ok fs1 => fs1
      | .error _ => fs) = fs1 at h hmono
    cases hw : WriteFile fs1 p buf with
    | error err => simp [hw] at h
    | ok fs3 =>
      simp only [hw, Prod.mk.injEq, true_and] at h
      subst h
      rw [WriteFile_ok _ _ _ _ hw]
      constructor
      · simp [lookup]
      · intro q hq hex
        rw [lookup_isSome_iff] at hex ⊢
        obtain ⟨e, he, hk⟩ := hex
        refine ⟨e, List.mem_cons_of_mem _ (List.mem_filter.mpr ⟨hmono e he, ?_⟩), hk⟩
        simp only [decide_eq_true_eq, hk]
        exact hq

/-- C1. Cancel precedence: once HandleXfer(X) and HandleCancel(X) have both succeeded, in
either order, the staged path of X is not among the paths getNonCanceledMatches returns for
the staging directory. -/
theorem cancel_precedence (m : filesystemMerging File Agent W) (xfer : ACHFile File)
    (cancel : CancelACHFile) (hid : cancel.FileID = xfer.FileID) (fs fs1 fs2 : FS) (out : List Str)
    (hsteps : (HandleXfer m xfer fs = (none, fs1) ∧ HandleCancel m cancel fs1 = (none, fs2)) ∨
      (HandleCancel m cancel fs = (none, fs1) ∧ HandleXfer m xfer fs1 = (none, fs2)))
    (hout : getNonCanceledMatches fs2 (Join (Join m.baseDir m.shard.Name) "*.ach".toList) = .ok out) :
    Join (Join m.baseDir m.shard.Name) (xfer.FileID ++ ".ach".toList) ∉ out := by
  obtain ⟨pre, hpre, hjoin⟩ := Join_normal (Join m.baseDir m.shard.Name) _ normalElem_starAch
  rw [hjoin] at hout
  intro hmem
  obtain ⟨hex, hnc⟩ := getNonCanceledMatches_sound fs2 pre hpre out hout _ hmem
  rcases hsteps with ⟨_, hc⟩ | ⟨hc, hx⟩
  · have := (HandleCancel_ok m cancel fs1 fs2 hc).1
    rw [hid] at this
    rw [this] at hex
    cases hex
  · have h1 := (HandleCancel_ok m cancel fs fs1 hc).2
    rw [hid] at h1
    have h2 := (HandleXfer_ok m xfer fs1 fs2 hx).2 _ (append_ne_self _ _ (by decide)) h1
    rw [hnc] at h2
    cases h2

set_option maxRecDepth 100000 in
theorem cancel_precedence_witness :
    ((HandleCancel sampleMerger sampleCancel sampleFS
          = (none, (HandleCancel sampleMerger sampleCancel sampleFS).2) ∧
        HandleXfer sampleMerger sampleXfer (HandleCancel sampleMerger sampleCancel sampleFS).2
          = (none, (HandleXfer sampleMerger sampleXfer
              (HandleCancel sampleMerger sampleCancel sampleFS).2).2)) ∧
      getNonCanceledMatches
        (HandleXfer sampleMerger sampleXfer (HandleCancel sampleMerger sampleCancel sampleFS).2).2
        "/b/mergable/sh/*.ach".toList = .ok ["/b/mergable/sh/Y.ach".toList] ∧
      "/b/mergable/sh/X.ach".toList ∉ ["/b/mergable/sh/Y.ach".toList]) ∧
    ((HandleXfer starMerger sampleXfer sampleFS
          = (none, (HandleXfer starMerger sampleXfer sampleFS).2) ∧
        HandleCancel starMerger sampleCancel (HandleXfer starMerger sampleXfer sampleFS).2
          = (none, (HandleCancel starMerger sampleCancel
              (HandleXfer starMerger sampleXfer sampleFS).2).2)) ∧
      lookup (HandleCancel starMerger sampleCancel (HandleXfer starMerger sampleXfer sampleFS).2).2
        "/b/mergable/s*/X.ach.canceled".toList = some (Node.file "xx".toList) ∧
      getNonCanceledMatches
        (HandleCancel starMerger sampleCancel (HandleXfer starMerger sampleXfer sampleFS).2).2
        "/b/mergable/s*/*.ach".toList = .ok ["/b/mergable/sh/Y.ach".toList] ∧
      "/b/mergable/s*/X.ach".toList ∉ ["/b/mergable/sh/Y.ach".toList]) :=
  have h1 : HandleCancel sampleMerger sampleCancel sampleFS
        = (none, (HandleCancel sampleMerger sampleCancel sampleFS).2) ∧
      HandleXfer sampleMerger sampleXfer (HandleCancel sampleMerger sampleCancel sampleFS).2
        = (none, (HandleXfer sampleMerger sampleXfer
            (HandleCancel sampleMerger sampleCancel sampleFS).2).2) := by decide
  have h2 : getNonCanceledMatches
      (HandleXfer sampleMerger sampleXfer (HandleCancel sampleMerger sampleCancel sampleFS).2).2
      "/b/mergable/sh/*.ach".toList = .ok ["/b/mergable/sh/Y.ach".toList] := by decide
  have g1 : HandleXfer starMerger sampleXfer sampleFS
        = (none, (HandleXfer starMerger sampleXfer sampleFS).2) ∧
      HandleCancel starMerger sampleCancel (HandleXfer starMerger sampleXfer sampleFS).2
        = (none, (HandleCancel starMerger sampleCancel
            (HandleXfer starMerger sampleXfer sampleFS).2).2) := by decide
  have g2 : getNonCanceledMatches
      (HandleCancel starMerger sampleCancel (HandleXfer starMerger sampleXfer sampleFS).2).2
      "/b/mergable/s*/*.ach".toList = .ok ["/b/mergable/sh/Y.ach".toList] := by decide
  ⟨⟨h1, h2, cancel_precedence sampleMerger sampleXfer sampleCancel rfl sampleFS _ _ _ (Or.inr h1) h2⟩,
    ⟨g1, by decide, g2,
      cancel_precedence starMerger sampleXfer sampleCancel rfl sampleFS _ _ _ (Or.inl g1) g2⟩⟩

/-! ## C2, C3: notification fan-out -/

theorem isPrefixOf_iff_append (sub s : Str) : sub.isPrefixOf s = true ↔ ∃ b, s = sub ++ b := by
  rw [ List.isPrefixOf_iff_prefix]
  constructor
  · rintro ⟨b, rfl⟩; exact ⟨b, rfl⟩
  · rintro ⟨b, rfl⟩; exact ⟨b, rfl⟩

theorem Contains_iff (s sub : Str) : Contains s sub = true ↔ ∃ a b, s = a ++ sub ++ b := by
  induction s with
  | nil =>
    simp only [Contains, isPrefixOf_iff_append]
    constructor
    · rintro ⟨b, hb⟩; exact ⟨[], b, by simpa using hb⟩
    · rintro ⟨a, b, hab⟩
      have h1 : a = [] := by
        cases a with
        | nil => rfl
        | cons x xs => simp at hab
      subst h1
      exact ⟨b, by simpa using hab⟩
  | cons c rest ih =>
    simp only [Contains, Bool.or_eq_true, isPrefixOf_iff_append, ih]
    constructor
    · rintro (⟨b, hb⟩ | ⟨a, b, hab⟩)
      · exact ⟨[], b, by simpa using hb⟩
      · exact ⟨c :: a, b, by simp [hab]⟩
    · rintro ⟨a, b, hab⟩
      cases a with
      | nil => exact Or.inl ⟨b, by simpa using hab⟩
      | cons x xs =>
        simp only [List.cons_append, List.cons.injEq] at hab
        exact Or.inr ⟨xs, b, hab.2⟩

theorem retryDo_calls_ge (f : W → (Option RetryErr × Option GoError) × W) :
    ∀ (retries calls : Nat) (w : W), calls + 1 ≤ (retryDo f retries calls w).calls := by
  intro retries
  induction retries with
  | zero =>
    intro calls w
    unfold retryDo
    split
    · simp
    · simp
    · simp
  | succ n ih =>
    intro calls w
    unfold retryDo
    split
    · simp
    · simp
    · simp only
      have := ih (calls + 1) (by assumption)
      omega

theorem isRetryableError_pos (e : GoError)
    (h : e.timeout = true ∨ Contains e.msg "no such host".toList = true) :
    isRetryableError (some e) = some (RetryableError e) := by
  show (if _ then _ else _) = _
  rw [if_pos h]

theorem isRetryableError_neg (e : GoError)
    (h : ¬ (e.timeout = true ∨ Contains e.msg "no such host".toList = true)) :
    isRetryableError (some e) = none := by
  show (if _ then _ else _) = _
  rw [if_neg h]

/-- C3. Retry predicate: isRetryableError gives nil for a nil error, and for a non-nil error
`e` it gives `retry.RetryableError(e)` exactly when `e` is a timeout or its message contains
"no such host", and nil otherwise; under a retry configuration that allows at least one
retry, the send is attempted again exactly in that case. -/
theorem isRetryableError_iff :
    isRetryableError none = none ∧
    (∀ e : GoError,
      (isRetryableError (some e) = some (RetryableError e) ↔
        (e.timeout = true ∨ ∃ a b, e.msg = a ++ "no such host".toList ++ b)) ∧
      (isRetryableError (some e) = none ↔
        ¬ (e.timeout = true ∨ ∃ a b, e.msg = a ++ "no such host".toList ++ b))) ∧
    (∀ (W Msg : Type) (ms : MultiSender Msg W) (cfg : NotificationRetries)
      (f : W → Option GoError × W) (w : W),
      ms.retryConfig = some cfg → 0 < cfg.Interval → 0 < cfg.MaxRetries →
      (1 < (ms.retry f w).calls ↔
        ∃ e, (f w).1 = some e ∧
          (e.timeout = true ∨ ∃ a b, e.msg = a ++ "no such host".toList ++ b))) := by
  have key : ∀ e : GoError, (e.timeout = true ∨ Contains e.msg "no such host".toList = true) ↔
      (e.timeout = true ∨ ∃ a b, e.msg = a ++ "no such host".toList ++ b) := by
    intro e; rw [Contains_iff]
  refine ⟨rfl, ?_, ?_⟩
  · intro e
    rw [← key e]
    by_cases h : e.timeout = true ∨ Contains e.msg "no such host".toList = true
    · rw [isRetryableError_pos e h]
      exact ⟨⟨fun _ => h, fun _ => rfl⟩, ⟨fun hc => (by cases hc), fun hc => absurd h hc⟩⟩
    · rw [isRetryableError_neg e h]
      exact ⟨⟨fun hc => (by cases hc), fun hc => absurd hc h⟩, ⟨fun _ => h, fun _ => rfl⟩⟩
  · intro W Msg ms cfg f w hcfg hint hmax
    unfold MultiSender.retry
    have hb : setupBackoff cfg = .ok cfg.MaxRetries := by
      unfold setupBackoff
      rw [if_neg (by omega)]
    simp only [hcfg, hb]
    obtain ⟨n, hn⟩ : ∃ n, cfg.MaxRetries = n + 1 := ⟨cfg.MaxRetries - 1, by omega⟩
    rw [hn]
    unfold retryDo
    cases hf : (f w).1 with
    | none =>
      simp only [isRetryableError]
      constructor
      · intro hc; simp at hc
      · rintro ⟨e, he, _⟩; cases he
    | some e =>
      by_cases h : e.timeout = true ∨ Contains e.msg "no such host".toList = true
      · simp only [isRetryableError_pos e h, RetryableError]
        have := retryDo_calls_ge
          (fun w0 => ((isRetryableError (f w0).1, (f w0).1), (f w0).2)) n (0 + 1) (f w).2
        constructor
        · intro _; exact ⟨e, rfl, (key e).mp h⟩
        · intro _; omega
      · simp only [isRetryableError_neg e h]
        constructor
        · intro hc; simp at hc
        · rintro ⟨e1, he1, h1⟩
          cases he1
          exact absurd ((key e).mpr h1) h

theorem isRetryableError_iff_witness :
    ((0 : Int) < sampleRetries.Interval ∧ 0 < sampleRetries.MaxRetries) ∧
    (MultiSender.retry (⟨[flakySender], some sampleRetries⟩ : MultiSender Message Nat)
      (flakySender.Info sampleMessage) 0).calls = 3 ∧
    (1 < (MultiSender.retry (⟨[flakySender], some sampleRetries⟩ : MultiSender Message Nat)
        (flakySender.Info sampleMessage) 0).calls ↔
      ∃ e, (flakySender.Info sampleMessage 0).1 = some e ∧
        (e.timeout = true ∨ ∃ a b, e.msg = a ++ "no such host".toList ++ b)) :=
  ⟨by decide, by decide,
    isRetryableError_iff.2.2 Nat Message ⟨[flakySender], some sampleRetries⟩ sampleRetries
      (flakySender.Info sampleMessage) 0 rfl (by decide) (by decide)⟩

/-- C2 (failing input). With a retry configuration, a sender whose send fails with a permanent
error is called once and `Info` and `Critical` return nil: the error is dropped, although the
sender's send failed. Without a retry configuration the same sender's error is returned. -/
theorem MultiSender_drops_permanent_error :
    (rejectingSender.Info sampleMessage 0).1 = some (errorf "401 unauthorized".toList) ∧
    (MultiSender.Info ⟨[rejectingSender], some sampleRetries⟩ sampleMessage 0).calls = [1] ∧
    (MultiSender.Info ⟨[rejectingSender], some sampleRetries⟩ sampleMessage 0).last
      = [some (errorf "401 unauthorized".toList)] ∧
    (MultiSender.Info ⟨[rejectingSender], some sampleRetries⟩ sampleMessage 0).err = none ∧
    (MultiSender.Critical ⟨[rejectingSender], some sampleRetries⟩ sampleMessage 0).err = none ∧
    (MultiSender.Info ⟨[rejectingSender], none⟩ sampleMessage 0).err
      = some (errorf "401 unauthorized".toList) := by
  decide

/-- Without a retry configuration every sender is called exactly once, whatever the earlier
ones returned, and the error returned is the first error, in the order of the senders, that a
sender's call returned; it is nil only when every call succeeded. -/
theorem MultiSender_each_noRetry (ms : MultiSender Msg W) (h : ms.retryConfig = none)
    (send : Sender Msg W → W → Option GoError × W) (l : List (Sender Msg W)) :
    ∀ acc : Sent W, ∃ L : List (Option GoError),
      (ms.each send l acc).last = acc.last ++ L ∧ L.length = l.length ∧
      (ms.each send l acc).calls = acc.calls ++ List.replicate l.length 1 ∧
      (ms.each send l acc).err = (acc.err :: L).findSome? id := by
  induction l with
  | nil =>
    intro acc
    refine ⟨[], by simp [MultiSender.each], rfl, by simp [MultiSender.each], ?_⟩
    cases h0 : acc.err <;> simp [MultiSender.each, List.findSome?, h0]
  | cons s rest ih =>
    intro acc
    have hr : ms.retry (send s) acc.world
        = ⟨(send s acc.world).1, (send s acc.world).2, 1, (send s acc.world).1⟩ := by
      simp only [MultiSender.retry, h]
    obtain ⟨L, h1, h2, h3, h4⟩ := ih
      ⟨(match acc.err with
          | none => (send s acc.world).1
          | some e => some e),
        (send s acc.world).2, acc.calls ++ [1], acc.last ++ [(send s acc.world).1]⟩
    refine ⟨(send s acc.world).1 :: L, ?_, ?_, ?_, ?_⟩
    · simp only [MultiSender.each, hr, h1]; simp
    · simp [h2]
    · simp only [MultiSender.each, hr, h3]; simp [List.replicate_succ]
    · simp only [MultiSender.each, hr, h4]
      cases acc.err with
      | none => cases (send s acc.world).1 <;> simp [List.findSome?]
      | some e => simp [List.findSome?]

/-! ## C5, C6, C9: the aggregator -/

theorem mem_notifyActions (critical : Bool) (calls : List Nat) (a : Action)
    (h : a ∈ notifyActions critical calls) : ∃ i, a = Action.notify critical i := by
  unfold notifyActions at h
  simp only [List.mem_flatten, List.mem_map] at h
  obtain ⟨l, ⟨ic, _, rfl⟩, ha⟩ := h
  exact ⟨ic.1, (List.mem_replicate.mp ha).2⟩

theorem notifyAfterUpload_state (xfagg : aggregator File Agent W) (filename : Str) (agent : Agent)
    (uploadErr : Option GoError) (st : AggState W) :
    ∃ w1 critical calls, (notifyAfterUpload xfagg filename agent uploadErr st).2
      = ⟨w1, st.uploadedFilesCounter, st.uploadFilesErrors, st.trace ++ notifyActions critical calls⟩ := by
  have hself : st = ⟨st.world, st.uploadedFilesCounter, st.uploadFilesErrors,
      st.trace ++ notifyActions true []⟩ := by
    cases st; simp [notifyActions]
  unfold notifyAfterUpload
  simp only
  split
  · exact ⟨st.world, true, [], hself⟩
  · exact ⟨st.world, true, [], hself⟩
  · split
    · split
      · exact ⟨_, true, _, rfl⟩
      · exact ⟨_, true, _, rfl⟩
    · split
      · exact ⟨_, false, _, rfl⟩
      · exact ⟨_, false, _, rfl⟩

/-- The three ways a call of uploadFile can go, with what each does to the state. -/
theorem uploadFile_cases (xfagg : aggregator File Agent W) (index : Nat) (agent : Agent)
    (res : Option (Result File)) (st : AggState W) :
    ((uploadFile xfagg index agent res st).1 ≠ none ∧
      (uploadFile xfagg index agent res st).2.trace = st.trace ∧
      (uploadFile xfagg index agent res st).2.uploadedFilesCounter = st.uploadedFilesCounter ∧
      ((uploadFile xfagg index agent res st).2.uploadFilesErrors = st.uploadFilesErrors + 1 ∨
        res = none ∨ ∃ r, res = some r ∧ r.File = none)) ∨
    (∃ path data err,
      (uploadFile xfagg index agent res st).1 ≠ none ∧
      (uploadFile xfagg index agent res st).2.trace = st.trace ++ [Action.saveFile path data (some err)] ∧
      (uploadFile xfagg index agent res st).2.uploadedFilesCounter = st.uploadedFilesCounter ∧
      (uploadFile xfagg index agent res st).2.uploadFilesErrors = st.uploadFilesErrors + 1) ∨
    (∃ path filename data upErr critical calls,
      (uploadFile xfagg index agent res st).1 = upErr ∧
      (uploadFile xfagg index agent res st).2.trace = st.trace ++
        (Action.saveFile path data none :: Action.uploadFile filename data upErr
          :: notifyActions critical calls) ∧
      (uploadFile xfagg index agent res st).2.uploadedFilesCounter
        = st.uploadedFilesCounter + (if upErr = none then 1 else 0) ∧
      (uploadFile xfagg index agent res st).2.uploadFilesErrors
        = st.uploadFilesErrors + (if upErr = none then 0 else 1)) := by
  cases res with
  | none => exact Or.inl ⟨by simp [uploadFile], rfl, rfl, Or.inr (Or.inl rfl)⟩
  | some r =>
    cases hfile : r.File with
    | none =>
      exact Or.inl ⟨by simp [uploadFile, hfile], by simp [uploadFile, hfile],
        by simp [uploadFile, hfile], Or.inr (Or.inr ⟨r, rfl, hfile⟩)⟩
    | some file =>
      cases hrender : xfagg.deps.RenderACHFilename xfagg.deps.FilenameTemplate
          ⟨xfagg.deps.ImmediateDestination file, decide (r.Encrypted.length > 0),
            prepareShardName xfagg.deps.ToUpper xfagg.shard.Name, index⟩ with
      | error err =>
        exact Or.inl ⟨by simp [uploadFile, hfile, hrender], by simp [uploadFile, hfile, hrender],
          by simp [uploadFile, hfile, hrender], Or.inl (by simp [uploadFile, hfile, hrender])⟩
      | ok filename =>
        cases hformat : xfagg.deps.Format r with
        | error err =>
          exact Or.inl ⟨by simp [uploadFile, hfile, hrender, hformat],
            by simp [uploadFile, hfile, hrender, hformat],
            by simp [uploadFile, hfile, hrender, hformat],
            Or.inl (by simp [uploadFile, hfile, hrender, hformat])⟩
        | ok buf =>
          cases hsave : xfagg.deps.SaveFile
              (auditPath (xfagg.deps.Hostname agent) (xfagg.deps.today st.world) filename)
              buf st.world with
          | mk saveErr w1 =>
            cases saveErr with
            | some err =>
              refine Or.inr (Or.inl
                ⟨auditPath (xfagg.deps.Hostname agent) (xfagg.deps.today st.world) filename,
                  buf, err, ?_, ?_, ?_, ?_⟩)
              · simp [uploadFile, hfile, hrender, hformat, hsave]
              · simp only [uploadFile, hfile, hrender, hformat, hsave]
              · simp only [uploadFile, hfile, hrender, hformat, hsave]
              · simp only [uploadFile, hfile, hrender, hformat, hsave]
            | none =>
              obtain ⟨w2, critical, calls, hn⟩ := notifyAfterUpload_state xfagg filename agent
                (xfagg.deps.UploadFile agent filename buf w1).1
                ⟨(xfagg.deps.UploadFile agent filename buf w1).2, st.uploadedFilesCounter,
                  st.uploadFilesErrors,
                  st.trace ++ [Action.saveFile
                    (auditPath (xfagg.deps.Hostname agent) (xfagg.deps.today st.world) filename)
                    buf none,
                    Action.uploadFile filename buf (xfagg.deps.UploadFile agent filename buf w1).1]⟩
              refine Or.inr (Or.inr
                ⟨auditPath (xfagg.deps.Hostname agent) (xfagg.deps.today st.world) filename,
                  filename, buf, (xfagg.deps.UploadFile agent filename buf w1).1,
                critical, calls, ?_, ?_, ?_, ?_⟩)
              all_goals
                simp only [uploadFile, hfile, hrender, hformat, hsave, hn]
                cases (xfagg.deps.UploadFile agent filename buf w1).1 <;> simp

/-- A call of uploadFile whose filename cannot be rendered: the error returned and the state
left. -/
theorem uploadFile_render_error (xfagg : aggregator File Agent W) (index : Nat) (agent : Agent)
    (r : Result File) (file : File) (st : AggState W) (err : GoError) (hfile : r.File = some file)
    (hrender : xfagg.deps.RenderACHFilename xfagg.deps.FilenameTemplate
      ⟨xfagg.deps.ImmediateDestination file, decide (r.Encrypted.length > 0),
        prepareShardName xfagg.deps.ToUpper xfagg.shard.Name, index⟩ = .error err) :
    uploadFile xfagg index agent (some r) st
      = (some (errorf ("problem rendering filename template: ".toList ++ err.msg)),
          ⟨st.world, st.uploadedFilesCounter, st.uploadFilesErrors + 1, st.trace⟩) := by
  simp only [uploadFile, hfile, hrender]

/-- A call of uploadFile whose output cannot be formatted. -/
theorem uploadFile_format_error (xfagg : aggregator File Agent W) (index : Nat) (agent : Agent)
    (r : Result File) (file : File) (st : AggState W) (filename : Str) (err : GoError)
    (hfile : r.File = some file)
    (hrender : xfagg.deps.RenderACHFilename xfagg.deps.FilenameTemplate
      ⟨xfagg.deps.ImmediateDestination file, decide (r.Encrypted.length > 0),
        prepareShardName xfagg.deps.ToUpper xfagg.shard.Name, index⟩ = .ok filename)
    (hformat : xfagg.deps.Format r = .error err) :
    uploadFile xfagg index agent (some r) st
      = (some (errorf ("problem formatting output: ".toList ++ err.msg)),
          ⟨st.world, st.uploadedFilesCounter, st.uploadFilesErrors + 1, st.trace⟩) := by
  simp only [uploadFile, hfile, hrender, hformat]

/-- A call of uploadFile whose audit write fails. -/
theorem uploadFile_save_error (xfagg : aggregator File Agent W) (index : Nat) (agent : Agent)
    (r : Result File) (file : File) (st : AggState W) (filename buf : Str) (err : GoError) (w1 : W)
    (hfile : r.File = some file)
    (hrender : xfagg.deps.RenderACHFilename xfagg.deps.FilenameTemplate
      ⟨xfagg.deps.ImmediateDestination file, decide (r.Encrypted.length > 0),
        prepareShardName xfagg.deps.ToUpper xfagg.shard.Name, index⟩ = .ok filename)
    (hformat : xfagg.deps.Format r = .ok buf)
    (hsave : xfagg.deps.SaveFile
      (auditPath (xfagg.deps.Hostname agent) (xfagg.deps.today st.world) filename) buf st.world
        = (some err, w1)) :
    uploadFile xfagg index agent (some r) st
      = (some (errorf ("problem saving file in audit record: ".toList ++ err.msg)),
          ⟨w1, st.uploadedFilesCounter, st.uploadFilesErrors + 1,
            st.trace ++ [Action.saveFile
              (auditPath (xfagg.deps.Hostname agent) (xfagg.deps.today st.world) filename) buf
              (some err)]⟩) := by
  simp only [uploadFile, hfile, hrender, hformat, hsave]

/-- A call of uploadFile whose audit write succeeds: the agent's UploadFile is called in the
world SaveFile left, with the bytes SaveFile got; the notification follows in the world
UploadFile left; the error of UploadFile is returned and decides the counter. -/
theorem uploadFile_saved (xfagg : aggregator File Agent W) (index : Nat) (agent : Agent)
    (r : Result File) (file : File) (st : AggState W) (filename buf : Str) (w1 : W)
    (hfile : r.File = some file)
    (hrender : xfagg.deps.RenderACHFilename xfagg.deps.FilenameTemplate
      ⟨xfagg.deps.ImmediateDestination file, decide (r.Encrypted.length > 0),
        prepareShardName xfagg.deps.ToUpper xfagg.shard.Name, index⟩ = .ok filename)
    (hformat : xfagg.deps.Format r = .ok buf)
    (hsave : xfagg.deps.SaveFile
      (auditPath (xfagg.deps.Hostname agent) (xfagg.deps.today st.world) filename) buf st.world
        = (none, w1)) :
    (uploadFile xfagg index agent (some r) st).1 = (xfagg.deps.UploadFile agent filename buf w1).1 ∧
    (uploadFile xfagg index agent (some r) st).2.world
      = (notifyAfterUpload xfagg filename agent (xfagg.deps.UploadFile agent filename buf w1).1
          ⟨(xfagg.deps.UploadFile agent filename buf w1).2, st.uploadedFilesCounter,
            st.uploadFilesErrors,
            st.trace ++ [Action.saveFile
              (auditPath (xfagg.deps.Hostname agent) (xfagg.deps.today st.world) filename) buf none,
              Action.uploadFile filename buf (xfagg.deps.UploadFile agent filename buf w1).1]⟩).2.world ∧
    (uploadFile xfagg index agent (some r) st).2.uploadedFilesCounter
      = st.uploadedFilesCounter
        + (if (xfagg.deps.UploadFile agent filename buf w1).1 = none then 1 else 0) ∧
    (uploadFile xfagg index agent (some r) st).2.uploadFilesErrors
      = st.uploadFilesErrors
        + (if (xfagg.deps.UploadFile agent filename buf w1).1 = none then 0 else 1) ∧
    ∃ critical calls, (uploadFile xfagg index agent (some r) st).2.trace
      = st.trace ++ (Action.saveFile
          (auditPath (xfagg.deps.Hostname agent) (xfagg.deps.today st.world) filename) buf none
        :: Action.uploadFile filename buf (xfagg.deps.UploadFile agent filename buf w1).1
        :: notifyActions critical calls) := by
  obtain ⟨w2, critical, calls, hn⟩ := notifyAfterUpload_state xfagg filename agent
    (xfagg.deps.UploadFile agent filename buf w1).1
    ⟨(xfagg.deps.UploadFile agent filename buf w1).2, st.uploadedFilesCounter,
      st.uploadFilesErrors,
      st.trace ++ [Action.saveFile
        (auditPath (xfagg.deps.Hostname agent) (xfagg.deps.today st.world) filename)
        buf none,
        Action.uploadFile filename buf (xfagg.deps.UploadFile agent filename buf w1).1]⟩
  refine ⟨?_, ?_, ?_, ?_, critical, calls, ?_⟩
  all_goals
    simp only [uploadFile, hfile, hrender, hformat, hsave, hn]
    cases (xfagg.deps.UploadFile agent filename buf w1).1 <;> simp

/-- The notification of notifyAfterUpload is sent in the world it is given: with a notifier for
the agent, the world left is the one `Critical` leaves after a failed upload and the one
`Info` leaves after a successful one. -/
theorem notifyAfterUpload_world (xfagg : aggregator File Agent W) (filename : Str) (agent : Agent)
    (uploadErr : Option GoError) (st : AggState W) (notifier : MultiSender Message W)
    (hfind : xfagg.deps.FindNotifier (xfagg.deps.ID agent) = some (.ok notifier)) :
    (notifyAfterUpload xfagg filename agent uploadErr st).2.world
      = if uploadErr = none then
          (notifier.Info ⟨filename, xfagg.deps.Hostname agent⟩ st.world).world
        else (notifier.Critical ⟨filename, xfagg.deps.Hostname agent⟩ st.world).world := by
  unfold notifyAfterUpload
  simp only [hfind]
  cases uploadErr with
  | none =>
    simp only [if_true]
    split <;> rfl
  | some e =>
    simp only [reduceCtorEq, if_false]
    split <;> rfl

/-- C6. Audit before upload. When SaveFile fails, uploadFile returns an error and the world it
leaves is the one SaveFile left: neither UploadFile nor a notification was run on it. When
SaveFile succeeds, UploadFile is called in the world SaveFile left, with the filename and the
very bytes SaveFile was given, and the notification is sent in the world UploadFile left. When
the filename or the output cannot be produced, the world is untouched: nothing is saved,
uploaded or notified. On the record of actions of the call: every UploadFile comes after a
successful SaveFile of the same bytes; a failed SaveFile is followed by no upload and no
notification; every notification comes after the call of UploadFile. -/
theorem audit_before_upload (xfagg : aggregator File Agent W) (index : Nat) (agent : Agent)
    (res : Option (Result File)) (st : AggState W) :
    (∀ r file filename buf err w1, res = some r → r.File = some file →
      xfagg.deps.RenderACHFilename xfagg.deps.FilenameTemplate
        ⟨xfagg.deps.ImmediateDestination file, decide (r.Encrypted.length > 0),
          prepareShardName xfagg.deps.ToUpper xfagg.shard.Name, index⟩ = .ok filename →
      xfagg.deps.Format r = .ok buf →
      xfagg.deps.SaveFile (auditPath (xfagg.deps.Hostname agent) (xfagg.deps.today st.world) filename)
        buf st.world = (some err, w1) →
      (uploadFile xfagg index agent res st).1
        = some (errorf ("problem saving file in audit record: ".toList ++ err.msg)) ∧
      (uploadFile xfagg index agent res st).2.world = w1 ∧
      (uploadFile xfagg index agent res st).2.trace
        = st.trace ++ [Action.saveFile
            (auditPath (xfagg.deps.Hostname agent) (xfagg.deps.today st.world) filename) buf
            (some err)]) ∧
    (∀ r file filename buf w1, res = some r → r.File = some file →
      xfagg.deps.RenderACHFilename xfagg.deps.FilenameTemplate
        ⟨xfagg.deps.ImmediateDestination file, decide (r.Encrypted.length > 0),
          prepareShardName xfagg.deps.ToUpper xfagg.shard.Name, index⟩ = .ok filename →
      xfagg.deps.Format r = .ok buf →
      xfagg.deps.SaveFile (auditPath (xfagg.deps.Hostname agent) (xfagg.deps.today st.world) filename)
        buf st.world = (none, w1) →
      (uploadFile xfagg index agent res st).1 = (xfagg.deps.UploadFile agent filename buf w1).1 ∧
      (∃ critical calls, (uploadFile xfagg index agent res st).2.trace
        = st.trace ++ (Action.saveFile
            (auditPath (xfagg.deps.Hostname agent) (xfagg.deps.today st.world) filename) buf none
          :: Action.uploadFile filename buf (xfagg.deps.UploadFile agent filename buf w1).1
          :: notifyActions critical calls)) ∧
      (∀ notifier, xfagg.deps.FindNotifier (xfagg.deps.ID agent) = some (.ok notifier) →
        (uploadFile xfagg index agent res st).2.world
          = if (xfagg.deps.UploadFile agent filename buf w1).1 = none then
              (notifier.Info ⟨filename, xfagg.deps.Hostname agent⟩
                (xfagg.deps.UploadFile agent filename buf w1).2).world
            else
              (notifier.Critical ⟨filename, xfagg.deps.Hostname agent⟩
                (xfagg.deps.UploadFile agent filename buf w1).2).world) ∧
      ((∀ notifier, xfagg.deps.FindNotifier (xfagg.deps.ID agent) ≠ some (.ok notifier)) →
        (uploadFile xfagg index agent res st).2.world
          = (xfagg.deps.UploadFile agent filename buf w1).2)) ∧
    (∀ r file, res = some r → r.File = some file →
      ((∃ err, xfagg.deps.RenderACHFilename xfagg.deps.FilenameTemplate
          ⟨xfagg.deps.ImmediateDestination file, decide (r.Encrypted.length > 0),
            prepareShardName xfagg.deps.ToUpper xfagg.shard.Name, index⟩ = .error err) ∨
        (∃ err, xfagg.deps.Format r = .error err)) →
      (uploadFile xfagg index agent res st).1 ≠ none ∧
      (uploadFile xfagg index agent res st).2.world = st.world ∧
      (uploadFile xfagg index agent res st).2.trace = st.trace) ∧
    (∀ pre post filename data upErr,
      (uploadFile xfagg index agent res st).2.trace
        = st.trace ++ (pre ++ Action.uploadFile filename data upErr :: post) →
      ∃ path, Action.saveFile path data none ∈ pre) ∧
    (∀ suffix path data err,
      (uploadFile xfagg index agent res st).2.trace = st.trace ++ suffix →
      Action.saveFile path data (some err) ∈ suffix →
      (uploadFile xfagg index agent res st).1 ≠ none ∧
      ∀ a ∈ suffix, (∀ fn d e, a ≠ Action.uploadFile fn d e) ∧ (∀ c i, a ≠ Action.notify c i)) ∧
    (∀ pre post critical i,
      (uploadFile xfagg index agent res st).2.trace
        = st.trace ++ (pre ++ Action.notify critical i :: post) →
      ∃ filename data upErr, Action.uploadFile filename data upErr ∈ pre) := by
  refine ⟨?_, ?_, ?_, ?_⟩
  · intro r file filename buf err w1 hres hfile hrender hformat hsave
    subst hres
    rw [uploadFile_save_error xfagg index agent r file st filename buf err w1 hfile hrender hformat
      hsave]
    exact ⟨rfl, rfl, rfl⟩
  · intro r file filename buf w1 hres hfile hrender hformat hsave
    subst hres
    obtain ⟨h1, h2, _, _, h5⟩ :=
      uploadFile_saved xfagg index agent r file st filename buf w1 hfile hrender hformat hsave
    refine ⟨h1, h5, ?_, ?_⟩
    · intro notifier hfind
      rw [h2, notifyAfterUpload_world xfagg filename agent _ _ notifier hfind]
    · intro hnone
      rw [h2]
      unfold notifyAfterUpload
      simp only
      split
      · rfl
      · rfl
      · rename_i notifier hfind
        exact absurd hfind (hnone notifier)
  · intro r file hres hfile hfail
    subst hres
    cases hrender : xfagg.deps.RenderACHFilename xfagg.deps.FilenameTemplate
        ⟨xfagg.deps.ImmediateDestination file, decide (r.Encrypted.length > 0),
          prepareShardName xfagg.deps.ToUpper xfagg.shard.Name, index⟩ with
    | error err =>
      rw [uploadFile_render_error xfagg index agent r file st err hfile hrender]
      exact ⟨by simp, rfl, rfl⟩
    | ok filename =>
      rcases hfail with ⟨err, he⟩ | ⟨err, he⟩
      · rw [hrender] at he
        cases he
      · rw [uploadFile_format_error xfagg index agent r file st filename err hfile hrender he]
        exact ⟨by simp, rfl, rfl⟩
  · rcases uploadFile_cases xfagg index agent res st with
      ⟨_, htr, _, _⟩ | ⟨path, data, err, hne, htr, _, _⟩ |
      ⟨path, filename, data, upErr, critical, calls, _, htr, _, _⟩
    · refine ⟨?_, ?_, ?_⟩
      · intro pre post fn d e h
        rw [htr] at h
        simp at h
      · intro suffix p d e h hmem
        rw [htr] at h
        simp only [List.self_eq_append_right] at h
        subst h
        cases hmem
      · intro pre post c i h
        rw [htr] at h
        simp at h
    · refine ⟨?_, ?_, ?_⟩
      · intro pre post fn d e h
        rw [htr] at h
        have := List.append_cancel_left h
        cases pre with
        | nil => simp at this
        | cons a t => simp at this
      · intro suffix p d e h hmem
        rw [htr] at h
        have := List.append_cancel_left h
        subst this
        refine ⟨hne, ?_⟩
        intro a ha
        simp only [List.mem_singleton] at ha
        subst ha
        exact ⟨fun _ _ _ hc => (by cases hc), fun _ _ hc => (by cases hc)⟩
      · intro pre post c i h
        rw [htr] at h
        have := List.append_cancel_left h
        cases pre with
        | nil => simp at this
        | cons a t => simp at this
    · have hnot : ∀ a ∈ notifyActions critical calls, ∃ i, a = Action.notify critical i :=
        fun a ha => mem_notifyActions critical calls a ha
      refine ⟨?_, ?_, ?_⟩
      · intro pre post fn d e h
        rw [htr] at h
        have h2 := List.append_cancel_left h
        cases pre with
        | nil => simp at h2
        | cons a t =>
          cases t with
          | nil =>
            simp only [List.cons_append, List.nil_append, List.cons.injEq, Action.uploadFile.injEq] at h2
            obtain ⟨ha, ⟨_, hd, _⟩, _⟩ := h2
            exact ⟨path, by rw [← ha, hd]; simp⟩
          | cons b t2 =>
            simp only [List.cons_append, List.cons.injEq] at h2
            obtain ⟨_, _, h3⟩ := h2
            have hm : Action.uploadFile fn d e ∈ notifyActions critical calls := by
              rw [h3]; simp
            obtain ⟨i, hi⟩ := hnot _ hm
            cases hi
      · intro suffix p d e h hmem
        rw [htr] at h
        have h2 := List.append_cancel_left h
        subst h2
        simp only [List.mem_cons, Action.saveFile.injEq] at hmem
        rcases hmem with ⟨_, _, hc⟩ | hc | hmem
        · cases hc
        · cases hc
        · obtain ⟨i, hi⟩ := hnot _ hmem
          cases hi
      · intro pre post c i h
        rw [htr] at h
        have h2 := List.append_cancel_left h
        cases pre with
        | nil => simp at h2
        | cons a t =>
          cases t with
          | nil => simp at h2
          | cons b t2 =>
            simp only [List.cons_append, List.cons.injEq] at h2
            obtain ⟨_, hb, _⟩ := h2
            exact ⟨filename, data, upErr, by rw [← hb]; simp⟩

set_option maxRecDepth 100000 in
theorem audit_before_upload_witness :
    (auditDownAggregator.deps.SaveFile "outbound/sftp.bank.com/2020-01-01/FILE.ach".toList
        "bytes".toList 0 = (some (errorf "disk full".toList), 10) ∧
      (uploadFile auditDownAggregator 0 () (some ⟨some "bytes".toList, []⟩) sampleAggState).1
        = some (errorf "problem saving file in audit record: disk full".toList) ∧
      (uploadFile auditDownAggregator 0 () (some ⟨some "bytes".toList, []⟩) sampleAggState).2.world
        = 10 ∧
      (uploadFile auditDownAggregator 0 () (some ⟨some "bytes".toList, []⟩) sampleAggState).2.trace
        = [Action.saveFile "outbound/sftp.bank.com/2020-01-01/FILE.ach".toList "bytes".toList
            (some (errorf "disk full".toList))]) ∧
    ((uploadFile markingAggregator 0 () (some ⟨some "bytes".toList, []⟩) sampleAggState).1 = none ∧
      (uploadFile markingAggregator 0 () (some ⟨some "bytes".toList, []⟩) sampleAggState).2.world
        = 1110) ∧
    ((uploadFile sampleAggregator 0 () (some ⟨some "bytes".toList, []⟩) sampleAggState).2.trace
      = [] ++ ([Action.saveFile "outbound/sftp.bank.com/2020-01-01/FILE.ach".toList "bytes".toList none]
        ++ Action.uploadFile "FILE.ach".toList "bytes".toList none :: [Action.notify false 0]) ∧
    ∃ path, Action.saveFile path "bytes".toList none
      ∈ [Action.saveFile "outbound/sftp.bank.com/2020-01-01/FILE.ach".toList "bytes".toList none]) :=
  have hfail := (audit_before_upload auditDownAggregator 0 () (some ⟨some "bytes".toList, []⟩)
    sampleAggState).1 ⟨some "bytes".toList, []⟩ "bytes".toList "FILE.ach".toList "bytes".toList
    (errorf "disk full".toList) 10 rfl rfl rfl rfl rfl
  have hok := (audit_before_upload markingAggregator 0 () (some ⟨some "bytes".toList, []⟩)
    sampleAggState).2.1 ⟨some "bytes".toList, []⟩ "bytes".toList "FILE.ach".toList "bytes".toList
    10 rfl rfl rfl rfl rfl
  ⟨⟨rfl, hfail.1, hfail.2.1, hfail.2.2⟩,
    ⟨hok.1, (hok.2.2.1 ⟨[⟨fun _ w => (none, w + 1000), fun _ w => (none, w + 1000)⟩], none⟩ rfl)⟩,
    ⟨by decide,
      (audit_before_upload sampleAggregator 0 () (some ⟨some "bytes".toList, []⟩)
        sampleAggState).2.2.2.1
        [Action.saveFile "outbound/sftp.bank.com/2020-01-01/FILE.ach".toList "bytes".toList none]
        [Action.notify false 0] "FILE.ach".toList "bytes".toList none (by decide)⟩⟩

/-- C9. Upload metrics: a call of uploadFile with a non-nil Result and File adds one to exactly
one counter, the successful-uploads counter when it returns nil and the upload-errors counter
when it returns an error. A failure of the filename rendering, of the formatting or of the
audit write each returns an error naming the step and counts an upload error; once the audit
write has succeeded, the value returned is the error of the agent's UploadFile, whatever the
notification does: a failed upload returns its error and counts an upload error, a successful
one returns nil and counts a successful upload. -/
theorem uploadFile_metrics (xfagg : aggregator File Agent W) (index : Nat) (agent : Agent)
    (r : Result File) (file : File) (st : AggState W) (hfile : r.File = some file) :
    ((uploadFile xfagg index agent (some r) st).1 = none →
      (uploadFile xfagg index agent (some r) st).2.uploadedFilesCounter = st.uploadedFilesCounter + 1 ∧
      (uploadFile xfagg index agent (some r) st).2.uploadFilesErrors = st.uploadFilesErrors) ∧
    ((uploadFile xfagg index agent (some r) st).1 ≠ none →
      (uploadFile xfagg index agent (some r) st).2.uploadedFilesCounter = st.uploadedFilesCounter ∧
      (uploadFile xfagg index agent (some r) st).2.uploadFilesErrors = st.uploadFilesErrors + 1) ∧
    (∀ filename buf w1,
      xfagg.deps.RenderACHFilename xfagg.deps.FilenameTemplate
        ⟨xfagg.deps.ImmediateDestination file, decide (r.Encrypted.length > 0),
          prepareShardName xfagg.deps.ToUpper xfagg.shard.Name, index⟩ = .ok filename →
      xfagg.deps.Format r = .ok buf →
      xfagg.deps.SaveFile (auditPath (xfagg.deps.Hostname agent) (xfagg.deps.today st.world) filename)
        buf st.world = (none, w1) →
      (uploadFile xfagg index agent (some r) st).1 = (xfagg.deps.UploadFile agent filename buf w1).1) ∧
    (∀ err,
      xfagg.deps.RenderACHFilename xfagg.deps.FilenameTemplate
        ⟨xfagg.deps.ImmediateDestination file, decide (r.Encrypted.length > 0),
          prepareShardName xfagg.deps.ToUpper xfagg.shard.Name, index⟩ = .error err →
      (uploadFile xfagg index agent (some r) st).1
        = some (errorf ("problem rendering filename template: ".toList ++ err.msg)) ∧
      (uploadFile xfagg index agent (some r) st).2.uploadedFilesCounter = st.uploadedFilesCounter ∧
      (uploadFile xfagg index agent (some r) st).2.uploadFilesErrors = st.uploadFilesErrors + 1) ∧
    (∀ filename err,
      xfagg.deps.RenderACHFilename xfagg.deps.FilenameTemplate
        ⟨xfagg.deps.ImmediateDestination file, decide (r.Encrypted.length > 0),
          prepareShardName xfagg.deps.ToUpper xfagg.shard.Name, index⟩ = .ok filename →
      xfagg.deps.Format r = .error err →
      (uploadFile xfagg index agent (some r) st).1
        = some (errorf ("problem formatting output: ".toList ++ err.msg)) ∧
      (uploadFile xfagg index agent (some r) st).2.uploadedFilesCounter = st.uploadedFilesCounter ∧
      (uploadFile xfagg index agent (some r) st).2.uploadFilesErrors = st.uploadFilesErrors + 1) ∧
    (∀ filename buf err w1,
      xfagg.deps.RenderACHFilename xfagg.deps.FilenameTemplate
        ⟨xfagg.deps.ImmediateDestination file, decide (r.Encrypted.length > 0),
          prepareShardName xfagg.deps.ToUpper xfagg.shard.Name, index⟩ = .ok filename →
      xfagg.deps.Format r = .ok buf →
      xfagg.deps.SaveFile (auditPath (xfagg.deps.Hostname agent) (xfagg.deps.today st.world) filename)
        buf st.world = (some err, w1) →
      (uploadFile xfagg index agent (some r) st).1
        = some (errorf ("problem saving file in audit record: ".toList ++ err.msg)) ∧
      (uploadFile xfagg index agent (some r) st).2.uploadedFilesCounter = st.uploadedFilesCounter ∧
      (uploadFile xfagg index agent (some r) st).2.uploadFilesErrors = st.uploadFilesErrors + 1) ∧
    (∀ filename buf w1,
      xfagg.deps.RenderACHFilename xfagg.deps.FilenameTemplate
        ⟨xfagg.deps.ImmediateDestination file, decide (r.Encrypted.length > 0),
          prepareShardName xfagg.deps.ToUpper xfagg.shard.Name, index⟩ = .ok filename →
      xfagg.deps.Format r = .ok buf →
      xfagg.deps.SaveFile (auditPath (xfagg.deps.Hostname agent) (xfagg.deps.today st.world) filename)
        buf st.world = (none, w1) →
      (∀ err, (xfagg.deps.UploadFile agent filename buf w1).1 = some err →
        (uploadFile xfagg index agent (some r) st).1 = some err ∧
        (uploadFile xfagg index agent (some r) st).2.uploadedFilesCounter = st.uploadedFilesCounter ∧
        (uploadFile xfagg index agent (some r) st).2.uploadFilesErrors = st.uploadFilesErrors + 1) ∧
      ((xfagg.deps.UploadFile agent filename buf w1).1 = none →
        (uploadFile xfagg index agent (some r) st).1 = none ∧
        (uploadFile xfagg index agent (some r) st).2.uploadedFilesCounter
          = st.uploadedFilesCounter + 1 ∧
        (uploadFile xfagg index agent (some r) st).2.uploadFilesErrors = st.uploadFilesErrors)) := by
  refine ⟨?_, ?_, ?_, ?_, ?_, ?_, ?_⟩
  · intro hnil
    rcases uploadFile_cases xfagg index agent (some r) st with
      ⟨hne, _⟩ | ⟨_, _, _, hne, _⟩ | ⟨_, _, _, upErr, _, _, hret, _, hup, herr⟩
    · exact absurd hnil hne
    · exact absurd hnil hne
    · rw [hret] at hnil
      subst hnil
      simpa using ⟨hup, herr⟩
  · intro hnn
    rcases uploadFile_cases xfagg index agent (some r) st with
      ⟨_, _, hup, herr⟩ | ⟨_, _, _, _, _, hup, herr⟩ | ⟨_, _, _, upErr, _, _, hret, _, hup, herr⟩
    · refine ⟨hup, ?_⟩
      rcases herr with herr | hc | ⟨r1, hr1, hnone⟩
      · exact herr
      · cases hc
      · cases hr1
        rw [hfile] at hnone
        cases hnone
    · exact ⟨hup, herr⟩
    · rw [hret] at hnn
      rw [if_neg hnn] at hup herr
      exact ⟨hup, herr⟩
  · intro filename buf w1 hrender hformat hsave
    exact (uploadFile_saved xfagg index agent r file st filename buf w1 hfile hrender hformat hsave).1
  · intro err hrender
    rw [uploadFile_render_error xfagg index agent r file st err hfile hrender]
    exact ⟨rfl, rfl, rfl⟩
  · intro filename err hrender hformat
    rw [uploadFile_format_error xfagg index agent r file st filename err hfile hrender hformat]
    exact ⟨rfl, rfl, rfl⟩
  · intro filename buf err w1 hrender hformat hsave
    rw [uploadFile_save_error xfagg index agent r file st filename buf err w1 hfile hrender hformat
      hsave]
    exact ⟨rfl, rfl, rfl⟩
  · intro filename buf w1 hrender hformat hsave
    obtain ⟨h1, _, h3, h4, _⟩ :=
      uploadFile_saved xfagg index agent r file st filename buf w1 hfile hrender hformat hsave
    constructor
    · intro err herr
      rw [h1, h3, h4, herr]
      simp
    · intro hnone
      rw [h1, h3, h4, hnone]
      simp

set_option maxRecDepth 100000 in
theorem uploadFile_metrics_witness :
    ((some "bytes".toList : Option Str) = some "bytes".toList ∧
      (uploadFile sampleAggregator 0 () (some ⟨some "bytes".toList, []⟩) sampleAggState).1 = none ∧
      (uploadFile sampleAggregator 0 () (some ⟨some "bytes".toList, []⟩) sampleAggState).2.uploadedFilesCounter
        = sampleAggState.uploadedFilesCounter + 1 ∧
      (uploadFile sampleAggregator 0 () (some ⟨some "bytes".toList, []⟩) sampleAggState).2.uploadFilesErrors
        = sampleAggState.uploadFilesErrors) ∧
    ((uploadFile badTemplateAggregator 0 () (some ⟨some "bytes".toList, []⟩) sampleAggState).1
        = some (errorf "problem rendering filename template: bad template".toList) ∧
      (uploadFile badTemplateAggregator 0 () (some ⟨some "bytes".toList, []⟩)
        sampleAggState).2.uploadedFilesCounter = 0 ∧
      (uploadFile badTemplateAggregator 0 () (some ⟨some "bytes".toList, []⟩)
        sampleAggState).2.uploadFilesErrors = 1) ∧
    ((uploadFile badFormatAggregator 0 () (some ⟨some "bytes".toList, []⟩) sampleAggState).1
        = some (errorf "problem formatting output: bad output".toList) ∧
      (uploadFile badFormatAggregator 0 () (some ⟨some "bytes".toList, []⟩)
        sampleAggState).2.uploadedFilesCounter = 0 ∧
      (uploadFile badFormatAggregator 0 () (some ⟨some "bytes".toList, []⟩)
        sampleAggState).2.uploadFilesErrors = 1) ∧
    ((uploadFile auditDownAggregator 0 () (some ⟨some "bytes".toList, []⟩) sampleAggState).1
        = some (errorf "problem saving file in audit record: disk full".toList) ∧
      (uploadFile auditDownAggregator 0 () (some ⟨some "bytes".toList, []⟩)
        sampleAggState).2.uploadedFilesCounter = 0 ∧
      (uploadFile auditDownAggregator 0 () (some ⟨some "bytes".toList, []⟩)
        sampleAggState).2.uploadFilesErrors = 1) ∧
    ((uploadFile uploadDownAggregator 0 () (some ⟨some "bytes".toList, []⟩) sampleAggState).1
        = some (errorf "connection refused".toList) ∧
      (uploadFile uploadDownAggregator 0 () (some ⟨some "bytes".toList, []⟩)
        sampleAggState).2.uploadedFilesCounter = 0 ∧
      (uploadFile uploadDownAggregator 0 () (some ⟨some "bytes".toList, []⟩)
        sampleAggState).2.uploadFilesErrors = 1) :=
  ⟨⟨rfl, by decide,
      (uploadFile_metrics sampleAggregator 0 () ⟨some "bytes".toList, []⟩ "bytes".toList
        sampleAggState rfl).1 (by decide)⟩,
    (uploadFile_metrics badTemplateAggregator 0 () ⟨some "bytes".toList, []⟩ "bytes".toList
      sampleAggState rfl).2.2.2.1 (errorf "bad template".toList) rfl,
    (uploadFile_metrics badFormatAggregator 0 () ⟨some "bytes".toList, []⟩ "bytes".toList
      sampleAggState rfl).2.2.2.2.1 "FILE.ach".toList (errorf "bad output".toList) rfl rfl,
    (uploadFile_metrics auditDownAggregator 0 () ⟨some "bytes".toList, []⟩ "bytes".toList
      sampleAggState rfl).2.2.2.2.2.1 "FILE.ach".toList "bytes".toList (errorf "disk full".toList)
      10 rfl rfl rfl,
    ((uploadFile_metrics uploadDownAggregator 0 () ⟨some "bytes".toList, []⟩ "bytes".toList
      sampleAggState rfl).2.2.2.2.2.2 "FILE.ach".toList "bytes".toList 10 rfl rfl rfl).1
      (errorf "connection refused".toList) rfl⟩

theorem emitLoop_spec (xfagg : aggregator File Agent W) (shardKey : Str) (ids : List Str) :
    ∀ acc : List GoError × AggState W,
    ∃ sends : List (FileUploaded × Option GoError),
      (emitLoop xfagg shardKey ids acc).2.trace
        = acc.2.trace ++ sends.map (fun s => Action.send s.1 s.2) ∧
      sends.map (fun s => (s.1.FileID, s.1.ShardKey)) = ids.map (fun id => (id, shardKey)) ∧
      (emitLoop xfagg shardKey ids acc).1 = acc.1 ++ sends.filterMap (fun s => s.2) := by
  induction ids with
  | nil => intro acc; exact ⟨[], by simp [emitLoop], rfl, by simp [emitLoop]⟩
  | cons id rest ih =>
    intro acc
    obtain ⟨el, st⟩ := acc
    cases hs : (xfagg.deps.Send ⟨id, shardKey, xfagg.deps.now st.world⟩ st.world).1 with
    | none =>
      obtain ⟨sends, h1, h2, h3⟩ := ih (el, ⟨(xfagg.deps.Send ⟨id, shardKey, xfagg.deps.now st.world⟩ st.world).2,
        st.uploadedFilesCounter, st.uploadFilesErrors,
        st.trace ++ [Action.send ⟨id, shardKey, xfagg.deps.now st.world⟩ none]⟩)
      refine ⟨(⟨id, shardKey, xfagg.deps.now st.world⟩, none) :: sends, ?_, ?_, ?_⟩
      · simp only [emitLoop, hs, h1]; simp
      · simp [h2]
      · simp only [emitLoop, hs, h3]; simp
    | some err =>
      obtain ⟨sends, h1, h2, h3⟩ := ih (el ++ [err],
        ⟨(xfagg.deps.Send ⟨id, shardKey, xfagg.deps.now st.world⟩ st.world).2,
        st.uploadedFilesCounter, st.uploadFilesErrors,
        st.trace ++ [Action.send ⟨id, shardKey, xfagg.deps.now st.world⟩ (some err)]⟩)
      refine ⟨(⟨id, shardKey, xfagg.deps.now st.world⟩, some err) :: sends, ?_, ?_, ?_⟩
      · simp only [emitLoop, hs, h1]; simp
      · simp [h2]
      · simp only [emitLoop, hs, h3]; simp

theorem runTransformers_noSend (xfagg : aggregator File Agent W) (index : Nat) (agent : Agent)
    (outgoing : File) (st : AggState W) :
    (runTransformers xfagg index agent outgoing st).2.trace.filter Action.isSend
      = st.trace.filter Action.isSend := by
  unfold runTransformers
  split
  · rfl
  · rename_i result w1 _
    rcases uploadFile_cases xfagg index agent result
        ⟨w1, st.uploadedFilesCounter, st.uploadFilesErrors, st.trace⟩ with
      ⟨_, htr, _, _⟩ | ⟨path, data, err, _, htr, _, _⟩ |
      ⟨path, filename, data, upErr, critical, calls, _, htr, _, _⟩
    · rw [htr]
    · rw [htr]; simp [Action.isSend]
    · rw [htr]
      have : (notifyActions critical calls).filter Action.isSend = [] := by
        rw [List.filter_eq_nil_iff]
        intro a ha
        obtain ⟨i, rfl⟩ := mem_notifyActions critical calls a ha
        simp [Action.isSend]
      simp [Action.isSend, this]

theorem emitLoop_counters (xfagg : aggregator File Agent W) (shardKey : Str) (ids : List Str) :
    ∀ acc : List GoError × AggState W,
      (emitLoop xfagg shardKey ids acc).2.uploadedFilesCounter = acc.2.uploadedFilesCounter ∧
      (emitLoop xfagg shardKey ids acc).2.uploadFilesErrors = acc.2.uploadFilesErrors ∧
      (emitLoop xfagg shardKey ids acc).2.world
        = ids.foldl (fun w id => (xfagg.deps.Send ⟨id, shardKey, xfagg.deps.now w⟩ w).2)
            acc.2.world := by
  induction ids with
  | nil => intro acc; exact ⟨rfl, rfl, rfl⟩
  | cons id rest ih =>
    intro acc
    obtain ⟨el, st⟩ := acc
    cases hs : (xfagg.deps.Send ⟨id, shardKey, xfagg.deps.now st.world⟩ st.world).1 with
    | none =>
      simp only [emitLoop, hs, List.foldl_cons]
      exact ih _
    | some err =>
      simp only [emitLoop, hs, List.foldl_cons]
      exact ih _

/-- The call of Send for the FileID that follows `sent`: it is made in the world the earlier
calls left, it carries that FileID and the shard key, and it is the next entry of the record
together with what Send returned. -/
theorem emitLoop_at (xfagg : aggregator File Agent W) (shardKey : Str) (ids : List Str) :
    ∀ (acc : List GoError × AggState W) (sent : List Str) (id : Str) (rest : List Str),
      ids = sent ++ id :: rest →
      (emitLoop xfagg shardKey ids acc).2.trace[acc.2.trace.length + sent.length]?
        = some (Action.send
            ⟨id, shardKey, xfagg.deps.now (sent.foldl
              (fun w id => (xfagg.deps.Send ⟨id, shardKey, xfagg.deps.now w⟩ w).2) acc.2.world)⟩
            (xfagg.deps.Send
              ⟨id, shardKey, xfagg.deps.now (sent.foldl
                (fun w id => (xfagg.deps.Send ⟨id, shardKey, xfagg.deps.now w⟩ w).2) acc.2.world)⟩
              (sent.foldl
                (fun w id => (xfagg.deps.Send ⟨id, shardKey, xfagg.deps.now w⟩ w).2)
                acc.2.world)).1) := by
  induction ids with
  | nil =>
    intro acc sent id rest h
    cases sent <;> cases h
  | cons id0 ids ih =>
    intro acc sent id rest h
    obtain ⟨el, st⟩ := acc
    have hstep : ∃ el1, emitLoop xfagg shardKey (id0 :: ids) (el, st)
        = emitLoop xfagg shardKey ids (el1,
          ⟨(xfagg.deps.Send ⟨id0, shardKey, xfagg.deps.now st.world⟩ st.world).2,
            st.uploadedFilesCounter, st.uploadFilesErrors,
            st.trace ++ [Action.send ⟨id0, shardKey, xfagg.deps.now st.world⟩
              (xfagg.deps.Send ⟨id0, shardKey, xfagg.deps.now st.world⟩ st.world).1]⟩) := by
      cases hs : (xfagg.deps.Send ⟨id0, shardKey, xfagg.deps.now st.world⟩ st.world).1 with
      | none => exact ⟨el, by simp only [emitLoop, hs]⟩
      | some err => exact ⟨el ++ [err], by simp only [emitLoop, hs]⟩
    obtain ⟨el1, hel1⟩ := hstep
    rw [hel1]
    cases sent with
    | nil =>
      simp only [List.nil_append, List.cons.injEq] at h
      obtain ⟨hid, _⟩ := h
      obtain ⟨sends, htr, _, _⟩ := emitLoop_spec xfagg shardKey ids (el1,
        ⟨(xfagg.deps.Send ⟨id0, shardKey, xfagg.deps.now st.world⟩ st.world).2,
          st.uploadedFilesCounter, st.uploadFilesErrors,
          st.trace ++ [Action.send ⟨id0, shardKey, xfagg.deps.now st.world⟩
            (xfagg.deps.Send ⟨id0, shardKey, xfagg.deps.now st.world⟩ st.world).1]⟩)
      rw [htr]
      simp only [List.length_nil, Nat.add_zero, List.foldl_nil, List.append_assoc]
      rw [List.getElem?_append_right (Nat.le_refl _)]
      simp [hid]
    | cons s0 sent1 =>
      simp only [List.cons_append, List.cons.injEq] at h
      obtain ⟨hs0, hrest⟩ := h
      have := ih (el1,
        ⟨(xfagg.deps.Send ⟨id0, shardKey, xfagg.deps.now st.world⟩ st.world).2,
          st.uploadedFilesCounter, st.uploadFilesErrors,
          st.trace ++ [Action.send ⟨id0, shardKey, xfagg.deps.now st.world⟩
            (xfagg.deps.Send ⟨id0, shardKey, xfagg.deps.now st.world⟩ st.world).1]⟩)
        sent1 id rest hrest
      simp only [List.length_append, List.length_singleton] at this
      simp only [List.length_cons, List.foldl_cons, ← hs0]
      rw [show st.trace.length + (sent1.length + 1) = st.trace.length + 1 + sent1.length by omega]
      exact this

/-- The loop adds an error exactly when a call of Send returns one. -/
theorem emitLoop_nil_iff (xfagg : aggregator File Agent W) (shardKey : Str) (ids : List Str) :
    ∀ (acc : List GoError × AggState W),
      (emitLoop xfagg shardKey ids acc).1 = [] ↔
        (acc.1 = [] ∧ ∀ (sent : List Str) (id : Str) (rest : List Str), ids = sent ++ id :: rest →
          (xfagg.deps.Send
            ⟨id, shardKey, xfagg.deps.now (sent.foldl
              (fun w id => (xfagg.deps.Send ⟨id, shardKey, xfagg.deps.now w⟩ w).2) acc.2.world)⟩
            (sent.foldl
              (fun w id => (xfagg.deps.Send ⟨id, shardKey, xfagg.deps.now w⟩ w).2)
              acc.2.world)).1 = none) := by
  induction ids with
  | nil =>
    intro acc
    simp only [emitLoop]
    constructor
    · intro h
      exact ⟨h, fun sent id rest hc => by cases sent <;> cases hc⟩
    · exact fun h => h.1
  | cons id0 ids ih =>
    intro acc
    obtain ⟨el, st⟩ := acc
    cases hs : (xfagg.deps.Send ⟨id0, shardKey, xfagg.deps.now st.world⟩ st.world).1 with
    | none =>
      simp only [emitLoop, hs]
      rw [ih]
      simp only
      constructor
      · rintro ⟨hel, hall⟩
        refine ⟨hel, ?_⟩
        intro sent id rest h
        cases sent with
        | nil =>
          simp only [List.nil_append, List.cons.injEq] at h
          rw [← h.1]
          exact hs
        | cons s0 sent1 =>
          simp only [List.cons_append, List.cons.injEq] at h
          rw [← h.1]
          exact hall sent1 id rest h.2
      · rintro ⟨hel, hall⟩
        refine ⟨hel, ?_⟩
        intro sent id rest h
        exact hall (id0 :: sent) id rest (by rw [h]; rfl)
    | some err =>
      simp only [emitLoop, hs]
      rw [ih]
      simp only
      constructor
      · rintro ⟨hel, _⟩
        simp at hel
      · rintro ⟨_, hall⟩
        have := hall [] id0 ids rfl
        simp only [List.foldl_nil] at this
        rw [hs] at this
        cases this

/-- C5. Event fidelity: emitFilesUploaded calls the event emitter's Send once per FileID of the
ProcessedFiles, in order: the call for a FileID is made in the world the calls for the earlier
FileIDs left, whatever they returned, and carries that FileID and the shard key; the world it
leaves is the one the last call left, and the counters are untouched; it returns nil exactly
when every one of these calls of Send returned nil. After a successful WithEachMerged,
withEachFile makes exactly these calls; when WithEachMerged returns an error, withEachFile
returns an error and leaves the state, its world included, as WithEachMerged left it; the
callback it passes never calls the emitter: it records no Send and does not depend on what
Send is. -/
theorem event_fidelity (xfagg : aggregator File Agent W) :
    (∀ (p : processedFiles) (st : AggState W),
      (emitFilesUploaded xfagg p st).2.world
        = p.fileIDs.foldl (fun w id => (xfagg.deps.Send ⟨id, p.shardKey, xfagg.deps.now w⟩ w).2)
            st.world ∧
      (emitFilesUploaded xfagg p st).2.uploadedFilesCounter = st.uploadedFilesCounter ∧
      (emitFilesUploaded xfagg p st).2.uploadFilesErrors = st.uploadFilesErrors ∧
      (emitFilesUploaded xfagg p st).2.trace.length = st.trace.length + p.fileIDs.length ∧
      (∀ (sent : List Str) (id : Str) (rest : List Str), p.fileIDs = sent ++ id :: rest →
        (emitFilesUploaded xfagg p st).2.trace[st.trace.length + sent.length]?
          = some (Action.send
              ⟨id, p.shardKey, xfagg.deps.now (sent.foldl
                (fun w id => (xfagg.deps.Send ⟨id, p.shardKey, xfagg.deps.now w⟩ w).2) st.world)⟩
              (xfagg.deps.Send
                ⟨id, p.shardKey, xfagg.deps.now (sent.foldl
                  (fun w id => (xfagg.deps.Send ⟨id, p.shardKey, xfagg.deps.now w⟩ w).2) st.world)⟩
                (sent.foldl
                  (fun w id => (xfagg.deps.Send ⟨id, p.shardKey, xfagg.deps.now w⟩ w).2)
                  st.world)).1)) ∧
      ((emitFilesUploaded xfagg p st).1 = none ↔
        ∀ (sent : List Str) (id : Str) (rest : List Str), p.fileIDs = sent ++ id :: rest →
          (xfagg.deps.Send
            ⟨id, p.shardKey, xfagg.deps.now (sent.foldl
              (fun w id => (xfagg.deps.Send ⟨id, p.shardKey, xfagg.deps.now w⟩ w).2) st.world)⟩
            (sent.foldl
              (fun w id => (xfagg.deps.Send ⟨id, p.shardKey, xfagg.deps.now w⟩ w).2)
              st.world)).1 = none)) ∧
    (∀ (p : processedFiles) (st : AggState W),
      ∃ sends : List (FileUploaded × Option GoError),
        (emitFilesUploaded xfagg p st).2.trace = st.trace ++ sends.map (fun s => Action.send s.1 s.2) ∧
        sends.length = p.fileIDs.length ∧
        sends.map (fun s => (s.1.FileID, s.1.ShardKey)) = p.fileIDs.map (fun id => (id, p.shardKey)) ∧
        ((emitFilesUploaded xfagg p st).1 = none ↔ ∀ s ∈ sends, s.2 = none)) ∧
    (∀ (merger : XferMerging File Agent (AggState W)) (render : List GoError → Str)
      (st st1 : AggState W) (p : processedFiles),
      merger.WithEachMerged (runTransformers xfagg) st = ((some p, none), st1) →
      withEachFile xfagg merger render st = some (none, (emitFilesUploaded xfagg p st1).2)) ∧
    (∀ (merger : XferMerging File Agent (AggState W)) (render : List GoError → Str)
      (st st1 : AggState W) (res : Option processedFiles) (err : MergedError),
      merger.WithEachMerged (runTransformers xfagg) st = ((res, some err), st1) →
      ∃ e, withEachFile xfagg merger render st = some (some e, st1)) ∧
    (∀ (index : Nat) (agent : Agent) (outgoing : File) (st : AggState W),
      (runTransformers xfagg index agent outgoing st).2.trace.filter Action.isSend
        = st.trace.filter Action.isSend ∧
      ∀ send2 : FileUploaded → W → Option GoError × W,
        runTransformers ⟨xfagg.shard, { xfagg.deps with Send := send2 }⟩ index agent outgoing st
          = runTransformers xfagg index agent outgoing st) := by
  refine ⟨?_, ?_, ?_, ?_, ?_⟩
  · intro p st
    have hc := emitLoop_counters xfagg p.shardKey p.fileIDs ([], st)
    have hat := emitLoop_at xfagg p.shardKey p.fileIDs ([], st)
    have hnil := emitLoop_nil_iff xfagg p.shardKey p.fileIDs ([], st)
    obtain ⟨sends, h1, h2, _⟩ := emitLoop_spec xfagg p.shardKey p.fileIDs ([], st)
    have hst : (emitFilesUploaded xfagg p st).2 = (emitLoop xfagg p.shardKey p.fileIDs ([], st)).2 := by
      unfold emitFilesUploaded
      simp only
      split <;> rfl
    rw [hst]
    refine ⟨hc.2.2, hc.1, hc.2.1, ?_, hat, ?_⟩
    · rw [h1]
      have := congrArg List.length h2
      simp only [List.length_map] at this
      simp [this]
    · simp only [true_and] at hnil
      rw [← hnil]
      unfold emitFilesUploaded
      simp only
      constructor
      · intro h
        split at h
        · rename_i hemp
          exact List.isEmpty_iff.mp hemp
        · cases h
      · intro h
        simp [h]
  · intro p st
    obtain ⟨sends, h1, h2, h3⟩ := emitLoop_spec xfagg p.shardKey p.fileIDs ([], st)
    refine ⟨sends, ?_, ?_, h2, ?_⟩
    · unfold emitFilesUploaded
      simp only
      split <;> exact h1
    · have := congrArg List.length h2
      simpa using this
    · unfold emitFilesUploaded
      simp only [h3, List.nil_append]
      constructor
      · intro h s hs
        split at h
        · rename_i hemp
          rw [List.isEmpty_iff, List.filterMap_eq_nil_iff] at hemp
          exact hemp s hs
        · cases h
      · intro h
        have : sends.filterMap (fun s => s.2) = [] := by
          rw [List.filterMap_eq_nil_iff]
          exact h
        simp [this]
  · intro merger render st st1 p h
    simp only [withEachFile, h]
  · intro merger render st st1 res err h
    simp only [withEachFile, h]
    exact ⟨_, rfl⟩
  · intro index agent outgoing st
    exact ⟨runTransformers_noSend xfagg index agent outgoing st, fun _ => rfl⟩

set_option maxRecDepth 100000 in
theorem event_fidelity_witness :
    withEachFile sampleAggregator
        ⟨fun _ st => ((some ⟨"sh".toList, ["F1".toList, "F2".toList, "F3".toList]⟩, none), st)⟩
        (fun _ => []) sampleAggState
      = some (none, (emitFilesUploaded sampleAggregator
          ⟨"sh".toList, ["F1".toList, "F2".toList, "F3".toList]⟩ sampleAggState).2) ∧
    (emitFilesUploaded sampleAggregator
        ⟨"sh".toList, ["F1".toList, "F2".toList, "F3".toList]⟩ sampleAggState).2.trace
      = [Action.send ⟨"F1".toList, "sh".toList, 0⟩ none,
         Action.send ⟨"F2".toList, "sh".toList, 1⟩ (some (errorf "broker down".toList)),
         Action.send ⟨"F3".toList, "sh".toList, 2⟩ none] ∧
    (emitFilesUploaded sampleAggregator
        ⟨"sh".toList, ["F1".toList, "F2".toList, "F3".toList]⟩ sampleAggState).2.world = 3 ∧
    (emitFilesUploaded sampleAggregator
        ⟨"sh".toList, ["F1".toList, "F2".toList, "F3".toList]⟩ sampleAggState).1
      = some [errorf "broker down".toList] ∧
    (sampleAggDeps.Send ⟨"F2".toList, "sh".toList, 1⟩ 1).1 = some (errorf "broker down".toList) ∧
    (withEachFile sampleAggregator
        ⟨fun _ st => ((none, some (.wrapped (errorf "agent: unknown agent".toList))), st)⟩
        (fun _ => []) sampleAggState).map (fun r => r.2.world) = some 0 :=
  ⟨(event_fidelity sampleAggregator).2.2.1
      ⟨fun _ st => ((some ⟨"sh".toList, ["F1".toList, "F2".toList, "F3".toList]⟩, none), st)⟩
      (fun _ => []) sampleAggState sampleAggState _ rfl,
    by decide, by decide, by decide, by decide, by decide⟩

/-! ## C4, C7, C8: WithEachMerged -/

/-- What one pass of the loop body does to the two records, and what it leaves when the lock
is not acquired. -/
theorem mergedFileStep_spec (m : filesystemMerging File Agent W) (f : Callback File Agent W)
    (agent : Agent) (dir : Str) (st : LoopState File W) (i : Nat) (file : File) :
    ∃ r, (mergedFileStep m f agent dir st i file).locks = st.locks ++ [r] ∧
      r = (m.deps.AcquireLock (leaderKey m.shard.Name) st.world).1 ∧
      (r ≠ none →
        (mergedFileStep m f agent dir st i file).calls = st.calls ∧
        (mergedFileStep m f agent dir st i file).el = (prepareMerged m dir st.el st.fs file).2.1 ∧
        (mergedFileStep m f agent dir st i file).fs = (prepareMerged m dir st.el st.fs file).2.2 ∧
        (mergedFileStep m f agent dir st i file).successfulRemoteWrites = st.successfulRemoteWrites) ∧
      (r = none →
        (mergedFileStep m f agent dir st i file).calls
          = st.calls ++ [(i, (prepareMerged m dir st.el st.fs file).1)]) := by
  unfold mergedFileStep
  obtain ⟨file1, el, fs⟩ := prepareMerged m dir st.el st.fs file
  simp only
  cases hl : m.deps.AcquireLock (leaderKey m.shard.Name) st.world with
  | mk r w =>
    cases r with
    | some err =>
      exact ⟨some err, rfl, rfl, fun _ => ⟨rfl, rfl, rfl, rfl⟩, fun h => by cases h⟩
    | none =>
      simp only
      cases hf : f i agent file1 w with
      | mk e w1 =>
        cases e with
        | some err => exact ⟨none, rfl, rfl, fun h => absurd rfl h, fun _ => rfl⟩
        | none => exact ⟨none, rfl, rfl, fun h => absurd rfl h, fun _ => rfl⟩

theorem mergedFilesLoop_locks (m : filesystemMerging File Agent W) (f : Callback File Agent W)
    (agent : Agent) (dir : Str) (files : List File) :
    ∀ (i : Nat) (st : LoopState File W),
      ∃ X, (mergedFilesLoop m f agent dir i files st).locks = st.locks ++ X := by
  induction files with
  | nil => intro i st; exact ⟨[], by simp [mergedFilesLoop]⟩
  | cons file rest ih =>
    intro i st
    obtain ⟨X, hX⟩ := ih (i + 1) (mergedFileStep m f agent dir st i file)
    obtain ⟨r, hr, _⟩ := mergedFileStep_spec m f agent dir st i file
    exact ⟨r :: X, by simp only [mergedFilesLoop, hX, hr]; simp⟩

/-- When every lock acquisition of the loop fails, the loop invokes no callback and its error
list is the one the flatten and write steps leave. -/
theorem mergedFilesLoop_allFail (m : filesystemMerging File Agent W) (f : Callback File Agent W)
    (agent : Agent) (dir : Str) (files : List File) :
    ∀ (i : Nat) (st : LoopState File W),
      (∀ r ∈ (mergedFilesLoop m f agent dir i files st).locks, r ≠ none) →
      (mergedFilesLoop m f agent dir i files st).calls = st.calls ∧
      (mergedFilesLoop m f agent dir i files st).el = (prepareAll m dir files (st.el, st.fs)).1 ∧
      (mergedFilesLoop m f agent dir i files st).fs = (prepareAll m dir files (st.el, st.fs)).2 := by
  induction files with
  | nil => intro i st _; exact ⟨rfl, rfl, rfl⟩
  | cons file rest ih =>
    intro i st hall
    simp only [mergedFilesLoop] at hall ⊢
    obtain ⟨X, hX⟩ := mergedFilesLoop_locks m f agent dir rest (i + 1) (mergedFileStep m f agent dir st i file)
    obtain ⟨r, hr, _, hfail, _⟩ := mergedFileStep_spec m f agent dir st i file
    have hrne : r ≠ none := by
      apply hall
      rw [hX, hr]
      simp
    obtain ⟨h1, h2, h3, _⟩ := hfail hrne
    obtain ⟨g1, g2, g3⟩ := ih (i + 1) (mergedFileStep m f agent dir st i file) hall
    refine ⟨g1.trans h1, ?_, ?_⟩
    · rw [g2, h2, h3]; rfl
    · rw [g3, h2, h3]; rfl

/-- The loop invokes the callback for exactly the merged files whose lock acquisition
succeeded. -/
theorem mergedFilesLoop_calls (m : filesystemMerging File Agent W) (f : Callback File Agent W)
    (agent : Agent) (dir : Str) (files : List File) :
    ∀ (i : Nat) (st : LoopState File W),
      ∃ X, (mergedFilesLoop m f agent dir i files st).locks = st.locks ++ X ∧
        (mergedFilesLoop m f agent dir i files st).calls.map Prod.fst
          = st.calls.map Prod.fst
            ++ ((List.enumFrom i X).filter (fun e => e.2 = none)).map Prod.fst := by
  induction files with
  | nil => intro i st; exact ⟨[], by simp [mergedFilesLoop], by simp [mergedFilesLoop]⟩
  | cons file rest ih =>
    intro i st
    obtain ⟨X, hX, hcalls⟩ := ih (i + 1) (mergedFileStep m f agent dir st i file)
    obtain ⟨r, hr, _, hfail, hsucc⟩ := mergedFileStep_spec m f agent dir st i file
    refine ⟨r :: X, by simp only [mergedFilesLoop, hX, hr]; simp, ?_⟩
    simp only [mergedFilesLoop, hcalls, List.enumFrom_cons, List.filter_cons]
    by_cases hrn : r = none
    · rw [hsucc hrn]
      simp [hrn]
    · rw [(hfail hrn).1]
      simp [hrn]

theorem mergedFilesLoop_calls_zero (m : filesystemMerging File Agent W) (f : Callback File Agent W)
    (agent : Agent) (dir : Str) (files : List File) (el : List GoError) (fs : FS) (w : W) :
    (mergedFilesLoop m f agent dir 0 files ⟨el, fs, w, 0, [], []⟩).calls.map Prod.fst
      = ((List.enumFrom 0 (mergedFilesLoop m f agent dir 0 files ⟨el, fs, w, 0, [], []⟩).locks).filter
          (fun e => e.2 = none)).map Prod.fst := by
  obtain ⟨X, hX, hcalls⟩ := mergedFilesLoop_calls m f agent dir files 0 ⟨el, fs, w, 0, [], []⟩
  simp only [List.nil_append, List.map_nil] at hX hcalls
  rw [hcalls, hX]

/-- C7. Not-leader is not an error: when AcquireLock fails for a merged file, the loop body
does not invoke the callback and leaves the error list as the flatten and write steps left it;
in every run the callback is invoked for exactly the merged files whose lock acquisition
succeeded; a run in which every lock acquisition fails invokes the callback zero times, its
error list holds only what the other steps recorded, and when they recorded nothing it returns
a nil error and the ProcessedFiles of every input match. -/
theorem not_leader_is_not_an_error (m : filesystemMerging File Agent W) (f : Callback File Agent W) :
    (∀ (agent : Agent) (dir : Str) (st : LoopState File W) (i : Nat) (file : File) (err : GoError)
      (w1 : W),
      m.deps.AcquireLock ("achgateway/outbound/".toList ++ m.shard.Name) st.world = (some err, w1) →
      (mergedFileStep m f agent dir st i file).calls = st.calls ∧
      (mergedFileStep m f agent dir st i file).el = (prepareMerged m dir st.el st.fs file).2.1 ∧
      (mergedFileStep m f agent dir st i file).successfulRemoteWrites = st.successfulRemoteWrites) ∧
    (∀ (fs : FS) (w : W),
      (WithEachMerged m f fs w).calls.map Prod.fst
        = ((List.enumFrom 0 (WithEachMerged m f fs w).locks).filter (fun e => e.2 = none)).map
            Prod.fst) ∧
    (∀ (fs : FS) (w : W) (dir : Str) (fs1 : FS) (matches_ : List Str) (agent : Agent) (w1 : W),
      isolateMergableDir m fs w = (dir, none, fs1) →
      getNonCanceledMatches fs1 (Join dir "*.ach".toList) = .ok matches_ →
      m.deps.uploadNew w = (.ok agent, w1) →
      (∀ r ∈ (WithEachMerged m f fs w).locks, r ≠ none) →
      (WithEachMerged m f fs w).calls = [] ∧
      (WithEachMerged m f fs w).el
        = (prepareAll m (mergeMatches m fs1 dir matches_ w).dir (mergeMatches m fs1 dir matches_ w).files
            ((mergeMatches m fs1 dir matches_ w).el, (mergeMatches m fs1 dir matches_ w).fs)).1 ∧
      ((prepareAll m (mergeMatches m fs1 dir matches_ w).dir (mergeMatches m fs1 dir matches_ w).files
            ((mergeMatches m fs1 dir matches_ w).el, (mergeMatches m fs1 dir matches_ w).fs)).1 = [] →
        (WithEachMerged m f fs w).err = none ∧
        (WithEachMerged m f fs w).processed
          = some ⟨m.shard.Name, matches_.map (fun p => TrimSuffix (Base p) ".ach".toList)⟩)) := by
  refine ⟨?_, ?_, ?_⟩
  · intro agent dir st i file err w1 hlock
    obtain ⟨r, _, hr, hfail, _⟩ := mergedFileStep_spec m f agent dir st i file
    have hrne : r ≠ none := by
      rw [hr]
      show (m.deps.AcquireLock ("achgateway/outbound/".toList ++ m.shard.Name) st.world).1 ≠ none
      rw [hlock]
      simp
    obtain ⟨h1, h2, _, h4⟩ := hfail hrne
    exact ⟨h1, h2, h4⟩
  · intro fs w
    unfold WithEachMerged
    simp only
    split
    · rfl
    · split
      · rfl
      · split
        · rfl
        · split
          · exact mergedFilesLoop_calls_zero m f _ _ _ _ _ _
          · exact mergedFilesLoop_calls_zero m f _ _ _ _ _ _
  · intro fs w dir fs1 matches_ agent w1 hiso hglob hagent hall
    have hrun : WithEachMerged m f fs w =
        (let st := mergedFilesLoop m f agent (mergeMatches m fs1 dir matches_ w).dir 0
            (mergeMatches m fs1 dir matches_ w).files
            ⟨(mergeMatches m fs1 dir matches_ w).el, (mergeMatches m fs1 dir matches_ w).fs, w1, 0, [], []⟩
         if !st.el.isEmpty then
           ⟨none, some (.errorList st.el), st.fs, st.world, st.el, st.locks, st.calls⟩
         else
           ⟨some (newProcessedFiles m.shard.Name matches_), none, st.fs, st.world, st.el, st.locks,
             st.calls⟩) := by
      simp only [WithEachMerged, hiso, hglob, hagent]
    have hlocks : (WithEachMerged m f fs w).locks =
        (mergedFilesLoop m f agent (mergeMatches m fs1 dir matches_ w).dir 0
            (mergeMatches m fs1 dir matches_ w).files
            ⟨(mergeMatches m fs1 dir matches_ w).el, (mergeMatches m fs1 dir matches_ w).fs, w1, 0, [], []⟩).locks := by
      rw [hrun]; simp only; split <;> rfl
    rw [hlocks] at hall
    obtain ⟨g1, g2, _⟩ := mergedFilesLoop_allFail m f agent _ _ 0 _ hall
    simp only at g1 g2
    refine ⟨?_, ?_, ?_⟩
    · rw [hrun]; simp only; split <;> exact g1
    · rw [hrun]; simp only; split <;> exact g2
    · intro hnil
      rw [hnil] at g2
      rw [hrun]
      simp only [g2, List.isEmpty_nil, Bool.not_true, Bool.false_eq_true, if_false]
      exact ⟨trivial, rfl⟩

set_option maxRecDepth 100000 in
theorem not_leader_is_not_an_error_witness :
    (∀ r ∈ (WithEachMerged followerMerger countingCallback sampleFS 0).locks, r ≠ none) ∧
    (WithEachMerged followerMerger countingCallback sampleFS 0).calls = [] ∧
    (WithEachMerged followerMerger countingCallback sampleFS 0).err = none ∧
    (WithEachMerged followerMerger countingCallback sampleFS 0).processed
      = some ⟨"sh".toList, ["Y".toList]⟩ :=
  have h := (not_leader_is_not_an_error followerMerger countingCallback).2.2 sampleFS 0
    (isolateMergableDir followerMerger sampleFS 0).1 (isolateMergableDir followerMerger sampleFS 0).2.2
    ["/b/sh-20200101-000000/Y.ach".toList] () 0 (by decide) (by decide) rfl (by decide)
  ⟨by decide, h.1, h.2.2 (by decide)⟩

theorem prepareMerged_el (m : filesystemMerging File Agent W) (dir : Str) (el : List GoError)
    (fs : FS) (file : File) : ∃ X, (prepareMerged m dir el fs file).2.1 = el ++ X := by
  unfold prepareMerged
  have hflat : ∃ X0, (match m.cfg.Merging.FlattenBatches with
      | none => (file, el)
      | some _ =>
        match m.deps.FlattenBatches file with
        | .error err => (file, el ++ [err])
        | .ok file1 => (file1, el)).2 = el ++ X0 := by
    cases m.cfg.Merging.FlattenBatches with
    | none => exact ⟨[], by simp⟩
    | some _ =>
      cases m.deps.FlattenBatches file with
      | error err => exact ⟨[err], rfl⟩
      | ok file1 => exact ⟨[], by simp⟩
  obtain ⟨X0, hX0⟩ := hflat
  simp only
  split
  · exact ⟨X0 ++ [_], by rw [hX0, List.append_assoc]⟩
  · exact ⟨X0, hX0⟩

theorem mergedFilesLoop_el (m : filesystemMerging File Agent W) (f : Callback File Agent W)
    (agent : Agent) (dir : Str) (files : List File) :
    ∀ (i : Nat) (st : LoopState File W),
      ∃ X, (mergedFilesLoop m f agent dir i files st).el = st.el ++ X := by
  induction files with
  | nil => intro i st; exact ⟨[], by simp [mergedFilesLoop]⟩
  | cons file rest ih =>
    intro i st
    obtain ⟨X, hX⟩ := ih (i + 1) (mergedFileStep m f agent dir st i file)
    have hstep : ∃ Y, (mergedFileStep m f agent dir st i file).el = st.el ++ Y := by
      obtain ⟨Y, hY⟩ := prepareMerged_el m dir st.el st.fs file
      unfold mergedFileStep
      revert hY
      generalize prepareMerged m dir st.el st.fs file = pm
      obtain ⟨file1, el, fs⟩ := pm
      intro hY
      simp only at hY ⊢
      split
      · exact ⟨Y, hY⟩
      · split
        · exact ⟨Y ++ [_], by rw [hY, List.append_assoc]⟩
        · exact ⟨Y, hY⟩
    obtain ⟨Y, hY⟩ := hstep
    exact ⟨Y ++ X, by simp only [mergedFilesLoop, hX, hY, List.append_assoc]⟩

theorem readMatches_el (d : MergeDeps File Agent W) (fs : FS) (l : List Str) :
    ∀ acc : List File × List GoError,
      ∃ X, (readMatches d fs l acc).2 = acc.2 ++ X ∧
        ((∃ p ∈ l, ∃ e, ReadFile d fs p = .error e) → X ≠ []) := by
  induction l with
  | nil =>
    intro acc
    exact ⟨[], by simp [readMatches], fun ⟨p, hp, _⟩ => by cases hp⟩
  | cons path rest ih =>
    intro acc
    obtain ⟨files, el⟩ := acc
    cases hr : ReadFile d fs path with
    | error err =>
      obtain ⟨X, hX, _⟩ := ih (files, el ++ [errorf ("problem reading ".toList ++ path ++ ": ".toList ++ err.msg)])
      refine ⟨errorf ("problem reading ".toList ++ path ++ ": ".toList ++ err.msg) :: X, ?_,
        fun _ => by simp⟩
      simp only [readMatches, hr]
      rw [hX]
      simp
    | ok r =>
      cases r with
      | some file =>
        obtain ⟨X, hX, hne⟩ := ih (files ++ [file], el)
        refine ⟨X, by simp only [readMatches, hr, hX], ?_⟩
        rintro ⟨p, hp, e, he⟩
        rcases List.mem_cons.mp hp with rfl | hp
        · rw [hr] at he; cases he
        · exact hne ⟨p, hp, e, he⟩
      | none =>
        obtain ⟨X, hX, hne⟩ := ih (files, el)
        refine ⟨X, by simp only [readMatches, hr, hX], ?_⟩
        rintro ⟨p, hp, e, he⟩
        rcases List.mem_cons.mp hp with rfl | hp
        · rw [hr] at he; cases he
        · exact hne ⟨p, hp, e, he⟩

/-- A match that cannot be read, or an error of the merge, leaves the error list not empty
when the loop over the merged files starts. -/
theorem mergeMatches_el (m : filesystemMerging File Agent W) (fs1 : FS) (dir : Str)
    (matches_ : List Str) (w : W)
    (h : (∃ p ∈ matches_, ∃ e, ReadFile m.deps fs1 p = .error e) ∨
      (∃ e, (m.deps.MergeFiles (readMatches m.deps fs1 matches_ ([], [])).1).2 = some e)) :
    (mergeMatches m fs1 dir matches_ w).el ≠ [] := by
  obtain ⟨X, hX, hne⟩ := readMatches_el m.deps fs1 matches_ ([], [])
  simp only [List.nil_append] at hX
  have hel : (match (m.deps.MergeFiles (readMatches m.deps fs1 matches_ ([], [])).1).2 with
      | some err => (readMatches m.deps fs1 matches_ ([], [])).2
          ++ [errorf ("unable to merge files: ".toList ++ err.msg)]
      | none => (readMatches m.deps fs1 matches_ ([], [])).2) ≠ [] := by
    rcases h with h | ⟨e, he⟩
    · have := hne h
      rw [← hX] at this
      split
      · simp
      · exact this
    · rw [he]; simp
  unfold mergeMatches
  simp only
  split
  · split
    · simp
    · exact hel
  · split
    · exact hel
    · exact hel

/-- C4 (as stated, refuted). Three runs. A match fails to parse, so the error list is not
empty, and the upload agent cannot be built: the call returns an empty, non-nil ProcessedFiles
and the agent error, not nil with the error list. Nothing is staged and the removal of the
isolated directory is refused: no per-file step erred, isolation and agent construction
succeeded, yet the call returns nil with an error list. The shard name makes the glob pattern
malformed: the call returns an error although isolation and agent construction succeeded. -/
theorem result_policy_counterexample :
    ((WithEachMerged noAgentMerger countingCallback corruptFS 0).el ≠ [] ∧
      ¬ ((WithEachMerged noAgentMerger countingCallback corruptFS 0).processed = none ∧
        (WithEachMerged noAgentMerger countingCallback corruptFS 0).err
          = some (.errorList (WithEachMerged noAgentMerger countingCallback corruptFS 0).el))) ∧
    ((isolateMergableDir noRemoveMerger emptyFS 0).2.1 = none ∧
      (noRemoveMerger.deps.uploadNew 0).1 = .ok () ∧
      (WithEachMerged noRemoveMerger countingCallback emptyFS 0).calls = [] ∧
      (WithEachMerged noRemoveMerger countingCallback emptyFS 0).processed = none ∧
      (WithEachMerged noRemoveMerger countingCallback emptyFS 0).err
        = some (.errorList [errorf "permission denied".toList])) ∧
    ((isolateMergableDir (⟨"/b/mergable".toList, ⟨⟨[], none⟩⟩, ⟨"a[".toList⟩, sampleDeps⟩ :
          filesystemMerging Str Unit Nat) emptyFS 0).2.1 = none ∧
      (WithEachMerged (⟨"/b/mergable".toList, ⟨⟨[], none⟩⟩, ⟨"a[".toList⟩, sampleDeps⟩ :
          filesystemMerging Str Unit Nat) countingCallback emptyFS 0).processed = none ∧
      (WithEachMerged (⟨"/b/mergable".toList, ⟨⟨[], none⟩⟩, ⟨"a[".toList⟩, sampleDeps⟩ :
          filesystemMerging Str Unit Nat) countingCallback emptyFS 0).err
        = some (.wrapped (errorf
            "problem with /b/a[-20200101-000000 glob: syntax error in pattern".toList))) := by
  decide

theorem mergedFilesLoop_append (m : filesystemMerging File Agent W) (f : Callback File Agent W)
    (agent : Agent) (dir : Str) (pre : List File) :
    ∀ (post : List File) (i : Nat) (st : LoopState File W),
      mergedFilesLoop m f agent dir i (pre ++ post) st
        = mergedFilesLoop m f agent dir (i + pre.length) post (mergedFilesLoop m f agent dir i pre st) := by
  induction pre with
  | nil => intro post i st; simp [mergedFilesLoop]
  | cons file rest ih =>
    intro post i st
    show mergedFilesLoop m f agent dir (i + 1) (rest ++ post) (mergedFileStep m f agent dir st i file)
      = mergedFilesLoop m f agent dir (i + (rest.length + 1)) post
          (mergedFilesLoop m f agent dir (i + 1) rest (mergedFileStep m f agent dir st i file))
    rw [ih, show i + 1 + rest.length = i + (rest.length + 1) by omega]

/-- The flattened file that one pass of the loop writes and offers to the callback. -/
theorem prepareMerged_file (m : filesystemMerging File Agent W) (dir : Str) (el : List GoError)
    (fs : FS) (file : File) : (prepareMerged m dir el fs file).1 = flattened m file := by
  unfold prepareMerged flattened
  simp only
  cases m.cfg.Merging.FlattenBatches with
  | none => simp only; split <;> rfl
  | some u =>
    cases m.deps.FlattenBatches file with
    | error e => simp only; split <;> rfl
    | ok f1 => simp only; split <;> rfl

/-- What the flatten and write steps of one pass add to the error list. -/
theorem prepareMerged_errors (m : filesystemMerging File Agent W) (dir : Str) (el : List GoError)
    (fs : FS) (file : File) :
    (prepareMerged m dir el fs file).2.1
      = el
        ++ (match m.cfg.Merging.FlattenBatches with
            | none => []
            | some _ =>
              match m.deps.FlattenBatches file with
              | .error err => [err]
              | .ok _ => [])
        ++ (match (saveMergedFile m.deps dir (flattened m file) fs).1 with
            | some err => [errorf ("problem writing merged file: ".toList ++ err.msg)]
            | none => []) := by
  unfold prepareMerged flattened
  simp only
  cases m.cfg.Merging.FlattenBatches with
  | none =>
    simp only [List.append_nil]
    cases hs : saveMergedFile m.deps dir file fs with
    | mk e fs1 => cases e <;> simp
  | some u =>
    cases m.deps.FlattenBatches file with
    | error e =>
      simp only
      cases hs : saveMergedFile m.deps dir file fs with
      | mk e1 fs1 => cases e1 <;> simp
    | ok f1 =>
      simp only [List.append_nil]
      cases hs : saveMergedFile m.deps dir f1 fs with
      | mk e1 fs1 => cases e1 <;> simp

/-- What one pass of the loop adds to the error list: the errors of the flatten and write
steps, then the error of the callback when the lock was acquired and the callback failed. -/
theorem mergedFileStep_errors (m : filesystemMerging File Agent W) (f : Callback File Agent W)
    (agent : Agent) (dir : Str) (st : LoopState File W) (i : Nat) (file : File) :
    (mergedFileStep m f agent dir st i file).el
      = (prepareMerged m dir st.el st.fs file).2.1
        ++ (match m.deps.AcquireLock (leaderKey m.shard.Name) st.world with
            | (some _, _) => []
            | (none, w) =>
              match (f i agent (flattened m file) w).1 with
              | some err => [errorf ("problem from callback: ".toList ++ err.msg)]
              | none => []) := by
  rw [← prepareMerged_file m dir st.el st.fs file]
  unfold mergedFileStep
  obtain ⟨file1, el, fs⟩ := prepareMerged m dir st.el st.fs file
  simp only
  cases hl : m.deps.AcquireLock (leaderKey m.shard.Name) st.world with
  | mk r w =>
    cases r with
    | some err => simp
    | none =>
      simp only
      cases hf : f i agent file1 w with
      | mk e w1 => cases e <;> simp

theorem readMatches_mem (d : MergeDeps File Agent W) (fs : FS) (l : List Str) :
    ∀ acc : List File × List GoError,
      (∀ x ∈ acc.2, x ∈ (readMatches d fs l acc).2) ∧
      (∀ p ∈ l, ∀ e, ReadFile d fs p = .error e →
        errorf ("problem reading ".toList ++ p ++ ": ".toList ++ e.msg)
          ∈ (readMatches d fs l acc).2) ∧
      ((∀ p ∈ l, ∀ e, ReadFile d fs p ≠ .error e) → (readMatches d fs l acc).2 = acc.2) := by
  induction l with
  | nil =>
    intro acc
    exact ⟨fun x hx => hx, fun p hp => (by cases hp), fun _ => rfl⟩
  | cons path rest ih =>
    intro acc
    obtain ⟨files, el⟩ := acc
    cases hr : ReadFile d fs path with
    | error err =>
      obtain ⟨h1, h2, _⟩ := ih (files, el ++ [errorf ("problem reading ".toList ++ path ++ ": ".toList ++ err.msg)])
      simp only [readMatches, hr]
      refine ⟨fun x hx => h1 x (List.mem_append_left _ hx), ?_, ?_⟩
      · intro p hp e he
        rcases List.mem_cons.mp hp with rfl | hp
        · rw [hr] at he
          cases he
          exact h1 _ (by simp)
        · exact h2 p hp e he
      · intro hall
        exact absurd hr (hall path (List.mem_cons_self _ _) err)
    | ok r =>
      cases r with
      | some file =>
        obtain ⟨h1, h2, h3⟩ := ih (files ++ [file], el)
        simp only [readMatches, hr]
        refine ⟨h1, ?_, fun hall => h3 (fun p hp => hall p (List.mem_cons_of_mem _ hp))⟩
        intro p hp e he
        rcases List.mem_cons.mp hp with rfl | hp
        · rw [hr] at he; cases he
        · exact h2 p hp e he
      | none =>
        obtain ⟨h1, h2, h3⟩ := ih (files, el)
        simp only [readMatches, hr]
        refine ⟨h1, ?_, fun hall => h3 (fun p hp => hall p (List.mem_cons_of_mem _ hp))⟩
        intro p hp e he
        rcases List.mem_cons.mp hp with rfl | hp
        · rw [hr] at he; cases he
        · exact h2 p hp e he

/-- The error list when the loop over the merged files starts: the errors of the reads, then
the error of the merge, then the error of the removal when nothing was merged. -/
theorem mergeMatches_errors (m : filesystemMerging File Agent W) (fs1 : FS) (dir : Str)
    (matches_ : List Str) (w : W) :
    (mergeMatches m fs1 dir matches_ w).files
      = (m.deps.MergeFiles (readMatches m.deps fs1 matches_ ([], [])).1).1 ∧
    (mergeMatches m fs1 dir matches_ w).el
      = (readMatches m.deps fs1 matches_ ([], [])).2
        ++ (match (m.deps.MergeFiles (readMatches m.deps fs1 matches_ ([], [])).1).2 with
            | some err => [errorf ("unable to merge files: ".toList ++ err.msg)]
            | none => [])
        ++ (if (m.deps.MergeFiles (readMatches m.deps fs1 matches_ ([], [])).1).1.length = 0 then
              match m.deps.removeAllFault w with
              | some err => [err]
              | none => []
            else []) := by
  unfold mergeMatches
  simp only
  by_cases hz : (m.deps.MergeFiles (readMatches m.deps fs1 matches_ ([], [])).1).1.length = 0
  · simp only [hz, if_true, RemoveAll]
    cases m.deps.removeAllFault w with
    | none =>
      simp only [List.append_nil, true_and]
      cases (m.deps.MergeFiles (readMatches m.deps fs1 matches_ ([], [])).1).2 <;> simp
    | some e =>
      simp only [true_and]
      cases (m.deps.MergeFiles (readMatches m.deps fs1 matches_ ([], [])).1).2 <;> simp
  · simp only [hz, if_false, List.append_nil]
    cases MkdirAll fs1 (Join dir "uploaded".toList) with
    | ok fs2 =>
      simp only [true_and]
      cases (m.deps.MergeFiles (readMatches m.deps fs1 matches_ ([], [])).1).2 <;> simp
    | error e =>
      simp only [true_and]
      cases (m.deps.MergeFiles (readMatches m.deps fs1 matches_ ([], [])).1).2 <;> simp

/-- The loop over the merged files leaves the error list empty when it started empty and no
pass added an error. -/
theorem mergedFilesLoop_nil (m : filesystemMerging File Agent W) (f : Callback File Agent W)
    (agent : Agent) (dir : Str) (files : List File) :
    ∀ (i : Nat) (st : LoopState File W), st.el = [] →
      (∀ pre file post, files = pre ++ file :: post →
        (mergedFilesLoop m f agent dir i pre st).el = [] →
        (mergedFileStep m f agent dir (mergedFilesLoop m f agent dir i pre st) (i + pre.length)
          file).el = []) →
      (mergedFilesLoop m f agent dir i files st).el = [] := by
  induction files with
  | nil => intro i st h _; exact h
  | cons file0 rest ih =>
    intro i st h hall
    simp only [mergedFilesLoop]
    have h0 := hall [] file0 rest rfl h
    simp only [mergedFilesLoop, List.length_nil, Nat.add_zero] at h0
    refine ih (i + 1) _ h0 ?_
    intro pre file post hrest hpre
    have := hall (file0 :: pre) file post (by rw [hrest]; rfl)
    simp only [mergedFilesLoop, List.length_cons] at this
    rw [show i + (pre.length + 1) = i + 1 + pre.length by omega] at this
    exact this hpre

/-- Every error a pass of the loop adds is in the error list the loop leaves. -/
theorem mergedFilesLoop_mem (m : filesystemMerging File Agent W) (f : Callback File Agent W)
    (agent : Agent) (dir : Str) (files pre post : List File) (file : File) (i : Nat)
    (st : LoopState File W) (h : files = pre ++ file :: post) :
    ∀ x ∈ (mergedFileStep m f agent dir (mergedFilesLoop m f agent dir i pre st) (i + pre.length)
      file).el, x ∈ (mergedFilesLoop m f agent dir i files st).el := by
  intro x hx
  rw [h, mergedFilesLoop_append]
  simp only [mergedFilesLoop]
  obtain ⟨X, hX⟩ := mergedFilesLoop_el m f agent dir post (i + pre.length + 1)
    (mergedFileStep m f agent dir (mergedFilesLoop m f agent dir i pre st) (i + pre.length) file)
  rw [hX]
  exact List.mem_append_left _ hx

/-- The error list of a run that got its upload agent: the one the loop over the merged files
leaves, started from the one the reads, the merge and the removal left. -/
theorem WithEachMerged_el (m : filesystemMerging File Agent W) (f : Callback File Agent W)
    (fs : FS) (w : W) (dir : Str) (fs1 : FS) (matches_ : List Str) (agent : Agent) (w1 : W)
    (hiso : isolateMergableDir m fs w = (dir, none, fs1))
    (hglob : getNonCanceledMatches fs1 (Join dir "*.ach".toList) = .ok matches_)
    (hagent : m.deps.uploadNew w = (.ok agent, w1)) :
    (WithEachMerged m f fs w).el
      = (mergedFilesLoop m f agent (mergeMatches m fs1 dir matches_ w).dir 0
          (mergeMatches m fs1 dir matches_ w).files
          ⟨(mergeMatches m fs1 dir matches_ w).el, (mergeMatches m fs1 dir matches_ w).fs, w1, 0,
            [], []⟩).el := by
  simp only [WithEachMerged, hiso, hglob, hagent]
  split <;> rfl

/-- C4 (amended). WithEachMerged result policy: when isolation fails, or the glob fails, the
call returns a nil ProcessedFiles and an error; when the upload agent cannot be built it
returns an empty, non-nil ProcessedFiles and the agent error, whatever was recorded before;
otherwise, when the run's error list is not empty it returns a nil ProcessedFiles and that
list, and when it is empty it returns a nil error and ProcessedFiles whose ShardKey is the shard
name and whose FileIDs are, in glob order, the FileID of every non-canceled input match. The
error list holds the error of every step that failed: a match that cannot be read, the merge,
the removal of an isolated directory with nothing to merge, and for every merged file the
flattening, the writing of the merged copy and the callback, each taken in the state the
earlier merged files left; and it is empty when none of these steps failed. -/
theorem result_policy (m : filesystemMerging File Agent W) (f : Callback File Agent W) (fs : FS)
    (w : W) :
    (∀ dir err fs1, isolateMergableDir m fs w = (dir, some err, fs1) →
      (WithEachMerged m f fs w).processed = none ∧
      ∃ e, (WithEachMerged m f fs w).err = some (.wrapped e)) ∧
    (∀ dir fs1, isolateMergableDir m fs w = (dir, none, fs1) →
      (∀ err, getNonCanceledMatches fs1 (Join dir "*.ach".toList) = .error err →
        (WithEachMerged m f fs w).processed = none ∧
        ∃ e, (WithEachMerged m f fs w).err = some (.wrapped e)) ∧
      (∀ matches_, getNonCanceledMatches fs1 (Join dir "*.ach".toList) = .ok matches_ →
        (∀ err w1, m.deps.uploadNew w = (.error err, w1) →
          (WithEachMerged m f fs w).processed = some ⟨[], []⟩ ∧
          (WithEachMerged m f fs w).err = some (.wrapped (errorf ("agent: ".toList ++ err.msg)))) ∧
        (∀ agent w1, m.deps.uploadNew w = (.ok agent, w1) →
          ((WithEachMerged m f fs w).el ≠ [] →
            (WithEachMerged m f fs w).processed = none ∧
            (WithEachMerged m f fs w).err = some (.errorList (WithEachMerged m f fs w).el)) ∧
          ((WithEachMerged m f fs w).el = [] →
            (WithEachMerged m f fs w).err = none ∧
            (WithEachMerged m f fs w).processed
              = some ⟨m.shard.Name, matches_.map (fun p => TrimSuffix (Base p) ".ach".toList)⟩) ∧
          (((∃ p ∈ matches_, ∃ e, ReadFile m.deps fs1 p = .error e) ∨
              (∃ e, (m.deps.MergeFiles (readMatches m.deps fs1 matches_ ([], [])).1).2 = some e)) →
            (WithEachMerged m f fs w).el ≠ []) ∧
          -- a match that cannot be read
          (∀ p ∈ matches_, ∀ e, ReadFile m.deps fs1 p = .error e →
            errorf ("problem reading ".toList ++ p ++ ": ".toList ++ e.msg)
              ∈ (WithEachMerged m f fs w).el) ∧
          -- the merge
          (∀ e, (m.deps.MergeFiles (readMatches m.deps fs1 matches_ ([], [])).1).2 = some e →
            errorf ("unable to merge files: ".toList ++ e.msg) ∈ (WithEachMerged m f fs w).el) ∧
          -- the removal of the isolated directory
          ((m.deps.MergeFiles (readMatches m.deps fs1 matches_ ([], [])).1).1 = [] →
            ∀ e, m.deps.removeAllFault w = some e → e ∈ (WithEachMerged m f fs w).el) ∧
          -- the steps of the loop, for the merged file that follows `pre`
          (∀ pre file post,
            (m.deps.MergeFiles (readMatches m.deps fs1 matches_ ([], [])).1).1
              = pre ++ file :: post →
            -- flattening
            (m.cfg.Merging.FlattenBatches ≠ none → ∀ e, m.deps.FlattenBatches file = .error e →
              e ∈ (WithEachMerged m f fs w).el) ∧
            -- writing the merged copy
            (∀ e, (saveMergedFile m.deps (mergeMatches m fs1 dir matches_ w).dir
                (flattened m file)
                (mergedFilesLoop m f agent (mergeMatches m fs1 dir matches_ w).dir 0 pre
                  ⟨(mergeMatches m fs1 dir matches_ w).el, (mergeMatches m fs1 dir matches_ w).fs,
                    w1, 0, [], []⟩).fs).1 = some e →
              errorf ("problem writing merged file: ".toList ++ e.msg)
                ∈ (WithEachMerged m f fs w).el) ∧
            -- the callback
            (∀ w2 e w3,
              m.deps.AcquireLock (leaderKey m.shard.Name)
                (mergedFilesLoop m f agent (mergeMatches m fs1 dir matches_ w).dir 0 pre
                  ⟨(mergeMatches m fs1 dir matches_ w).el, (mergeMatches m fs1 dir matches_ w).fs,
                    w1, 0, [], []⟩).world = (none, w2) →
              f pre.length agent
                (flattened m file) w2
                = (some e, w3) →
              errorf ("problem from callback: ".toList ++ e.msg)
                ∈ (WithEachMerged m f fs w).el)) ∧
          -- no step failed
          ((∀ p ∈ matches_, ∀ e, ReadFile m.deps fs1 p ≠ .error e) →
            (m.deps.MergeFiles (readMatches m.deps fs1 matches_ ([], [])).1).2 = none →
            ((m.deps.MergeFiles (readMatches m.deps fs1 matches_ ([], [])).1).1 = [] →
              m.deps.removeAllFault w = none) →
            (∀ pre file post,
              (m.deps.MergeFiles (readMatches m.deps fs1 matches_ ([], [])).1).1
                = pre ++ file :: post →
              (m.cfg.Merging.FlattenBatches ≠ none →
                ∀ e, m.deps.FlattenBatches file ≠ .error e) ∧
              (saveMergedFile m.deps (mergeMatches m fs1 dir matches_ w).dir
                (flattened m file)
                (mergedFilesLoop m f agent (mergeMatches m fs1 dir matches_ w).dir 0 pre
                  ⟨(mergeMatches m fs1 dir matches_ w).el, (mergeMatches m fs1 dir matches_ w).fs,
                    w1, 0, [], []⟩).fs).1 = none ∧
              (∀ w2,
                m.deps.AcquireLock (leaderKey m.shard.Name)
                  (mergedFilesLoop m f agent (mergeMatches m fs1 dir matches_ w).dir 0 pre
                    ⟨(mergeMatches m fs1 dir matches_ w).el, (mergeMatches m fs1 dir matches_ w).fs,
                      w1, 0, [], []⟩).world = (none, w2) →
                (f pre.length agent
                  (flattened m file) w2).1
                  = none)) →
            (WithEachMerged m f fs w).err = none ∧
            (WithEachMerged m f fs w).processed
              = some ⟨m.shard.Name, matches_.map (fun p => TrimSuffix (Base p) ".ach".toList)⟩)))) := by
  refine ⟨?_, ?_⟩
  · intro dir err fs1 hiso
    simp only [WithEachMerged, hiso]
    exact ⟨trivial, _, rfl⟩
  · intro dir fs1 hiso
    refine ⟨?_, ?_⟩
    · intro err hglob
      simp only [WithEachMerged, hiso, hglob]
      exact ⟨trivial, _, rfl⟩
    · intro matches_ hglob
      refine ⟨?_, ?_⟩
      · intro err w1 hagent
        simp only [WithEachMerged, hiso, hglob, hagent]
        exact ⟨trivial, trivial⟩
      · intro agent w1 hagent
        have hWel := WithEachMerged_el m f fs w dir fs1 matches_ agent w1 hiso hglob hagent
        obtain ⟨hfiles, hmel⟩ := mergeMatches_errors m fs1 dir matches_ w
        obtain ⟨hr1, hr2, hr3⟩ := readMatches_mem m.deps fs1 matches_ ([], [])
        obtain ⟨X, hX⟩ := mergedFilesLoop_el m f agent (mergeMatches m fs1 dir matches_ w).dir
          (mergeMatches m fs1 dir matches_ w).files 0
          ⟨(mergeMatches m fs1 dir matches_ w).el, (mergeMatches m fs1 dir matches_ w).fs, w1, 0, [], []⟩
        simp only at hX
        have hstart : ∀ x ∈ (mergeMatches m fs1 dir matches_ w).el, x ∈ (WithEachMerged m f fs w).el := by
          intro x hx
          rw [hWel, hX]
          exact List.mem_append_left _ hx
        have hpolicy : ((WithEachMerged m f fs w).el ≠ [] →
            (WithEachMerged m f fs w).processed = none ∧
            (WithEachMerged m f fs w).err = some (.errorList (WithEachMerged m f fs w).el)) ∧
          ((WithEachMerged m f fs w).el = [] →
            (WithEachMerged m f fs w).err = none ∧
            (WithEachMerged m f fs w).processed
              = some ⟨m.shard.Name, matches_.map (fun p => TrimSuffix (Base p) ".ach".toList)⟩) := by
          simp only [WithEachMerged, hiso, hglob, hagent]
          generalize mergedFilesLoop m f agent (mergeMatches m fs1 dir matches_ w).dir 0
            (mergeMatches m fs1 dir matches_ w).files
            ⟨(mergeMatches m fs1 dir matches_ w).el, (mergeMatches m fs1 dir matches_ w).fs, w1, 0, [], []⟩ = st
          by_cases hel : st.el = []
          · simp only [hel, List.isEmpty_nil, Bool.not_true, Bool.false_eq_true, if_false,
              newProcessedFiles]
            exact ⟨fun h => absurd rfl h, fun _ => ⟨trivial, trivial⟩⟩
          · have : st.el.isEmpty = false := by
              cases h : st.el with
              | nil => exact absurd h hel
              | cons a t => rfl
            simp only [this, Bool.not_false, if_true]
            exact ⟨fun _ => ⟨trivial, trivial⟩, fun h => absurd h hel⟩
        have hread : ∀ p ∈ matches_, ∀ e, ReadFile m.deps fs1 p = .error e →
            errorf ("problem reading ".toList ++ p ++ ": ".toList ++ e.msg)
              ∈ (WithEachMerged m f fs w).el := by
          intro p hp e he
          apply hstart
          rw [hmel]
          exact List.mem_append_left _ (List.mem_append_left _ (hr2 p hp e he))
        have hmerge : ∀ e,
            (m.deps.MergeFiles (readMatches m.deps fs1 matches_ ([], [])).1).2 = some e →
            errorf ("unable to merge files: ".toList ++ e.msg) ∈ (WithEachMerged m f fs w).el := by
          intro e he
          apply hstart
          rw [hmel, he]
          exact List.mem_append_left _ (List.mem_append_right _ (List.mem_singleton.mpr rfl))
        -- the errors one pass adds are in the list the run leaves
        have hpass : ∀ pre file post,
            (m.deps.MergeFiles (readMatches m.deps fs1 matches_ ([], [])).1).1
              = pre ++ file :: post →
            ∀ x ∈ (mergedFileStep m f agent (mergeMatches m fs1 dir matches_ w).dir
              (mergedFilesLoop m f agent (mergeMatches m fs1 dir matches_ w).dir 0 pre
                ⟨(mergeMatches m fs1 dir matches_ w).el, (mergeMatches m fs1 dir matches_ w).fs,
                  w1, 0, [], []⟩) pre.length file).el, x ∈ (WithEachMerged m f fs w).el := by
          intro pre file post hsplit x hx
          rw [hWel]
          rw [← hfiles] at hsplit
          have := mergedFilesLoop_mem m f agent (mergeMatches m fs1 dir matches_ w).dir
            (mergeMatches m fs1 dir matches_ w).files pre post file 0
            ⟨(mergeMatches m fs1 dir matches_ w).el, (mergeMatches m fs1 dir matches_ w).fs, w1, 0,
              [], []⟩ hsplit x
          rw [Nat.zero_add] at this
          exact this hx
        refine ⟨hpolicy.1, hpolicy.2, ?_, hread, hmerge, ?_, ?_, ?_⟩
        · rintro (⟨p, hp, e, he⟩ | ⟨e, he⟩)
          · exact List.ne_nil_of_mem (hread p hp e he)
          · exact List.ne_nil_of_mem (hmerge e he)
        · intro hz e he
          apply hstart
          rw [hmel, if_pos (by rw [hz]; rfl), he]
          exact List.mem_append_right _ (List.mem_singleton.mpr rfl)
        · intro pre file post hsplit
          have hp := hpass pre file post hsplit
          rw [mergedFileStep_errors, prepareMerged_errors] at hp
          refine ⟨?_, ?_, ?_⟩
          · intro hcfg e he
            apply hp
            cases hc : m.cfg.Merging.FlattenBatches with
            | none => exact absurd hc hcfg
            | some u =>
              simp only [he]
              simp
          · intro e he
            apply hp
            rw [he]
            simp
          · intro w2 e w3 hlock hcall
            apply hp
            rw [hlock]
            simp only [hcall]
            simp
        · intro hnoread hnomerge hnoremove hnopass
          apply hpolicy.2
          rw [hWel]
          apply mergedFilesLoop_nil
          · simp only
            rw [hmel, hr3 hnoread, hnomerge]
            by_cases hz : (m.deps.MergeFiles (readMatches m.deps fs1 matches_ ([], [])).1).1.length = 0
            · rw [if_pos hz, hnoremove (List.length_eq_zero.mp hz)]
              rfl
            · rw [if_neg hz]
              rfl
          · intro pre file post hsplit hpre
            rw [hfiles] at hsplit
            obtain ⟨hflat, hwrite, hcall⟩ := hnopass pre file post hsplit
            rw [Nat.zero_add, mergedFileStep_errors, prepareMerged_errors, hpre, hwrite]
            have hf0 : (match m.cfg.Merging.FlattenBatches with
                | none => ([] : List GoError)
                | some _ =>
                  match m.deps.FlattenBatches file with
                  | .error err => [err]
                  | .ok _ => []) = [] := by
              cases hc : m.cfg.Merging.FlattenBatches with
              | none => rfl
              | some u =>
                cases hfl : m.deps.FlattenBatches file with
                | error e => exact absurd hfl (hflat (by rw [hc]; simp) e)
                | ok f1 => rfl
            rw [hf0]
            simp only [List.append_nil, List.nil_append]
            cases hl : m.deps.AcquireLock (leaderKey m.shard.Name)
                (mergedFilesLoop m f agent (mergeMatches m fs1 dir matches_ w).dir 0 pre
                  ⟨(mergeMatches m fs1 dir matches_ w).el, (mergeMatches m fs1 dir matches_ w).fs,
                    w1, 0, [], []⟩).world with
            | mk r w2 =>
              cases r with
              | some e => rfl
              | none =>
                simp only
                rw [hcall w2 hl]

set_option maxRecDepth 100000 in
theorem result_policy_witness :
    (isolateMergableDir sampleMerger sampleFS 0
        = ("/b/sh-20200101-000000".toList, none, (isolateMergableDir sampleMerger sampleFS 0).2.2) ∧
      getNonCanceledMatches (isolateMergableDir sampleMerger sampleFS 0).2.2
        (Join "/b/sh-20200101-000000".toList "*.ach".toList) = .ok ["/b/sh-20200101-000000/Y.ach".toList] ∧
      (WithEachMerged sampleMerger countingCallback sampleFS 0).el = []) ∧
    ((WithEachMerged sampleMerger countingCallback sampleFS 0).err = none ∧
      (WithEachMerged sampleMerger countingCallback sampleFS 0).processed
        = some ⟨"sh".toList, ["Y".toList]⟩) ∧
    (errorf "problem from callback: connection refused".toList
        ∈ (WithEachMerged sampleMerger failingCallback sampleFS 0).el ∧
      (WithEachMerged sampleMerger failingCallback sampleFS 0).processed = none ∧
      (WithEachMerged sampleMerger failingCallback sampleFS 0).err
        = some (.errorList (WithEachMerged sampleMerger failingCallback sampleFS 0).el)) ∧
    (errorf "problem reading /b/sh-20200101-000000/F1.ach: parse".toList
        ∈ (WithEachMerged sampleMerger countingCallback corruptFS 0).el) ∧
    (errorf "permission denied".toList
        ∈ (WithEachMerged noRemoveMerger countingCallback emptyFS 0).el) :=
  have h1 : isolateMergableDir sampleMerger sampleFS 0
      = ("/b/sh-20200101-000000".toList, none, (isolateMergableDir sampleMerger sampleFS 0).2.2) := by
    decide
  have h2 : getNonCanceledMatches (isolateMergableDir sampleMerger sampleFS 0).2.2
      (Join "/b/sh-20200101-000000".toList "*.ach".toList)
        = .ok ["/b/sh-20200101-000000/Y.ach".toList] := by decide
  have h3 : (WithEachMerged sampleMerger countingCallback sampleFS 0).el = [] := by decide
  have hfail := (((result_policy sampleMerger failingCallback sampleFS 0).2 _ _ h1).2 _ h2).2 () 0 rfl
  have hcb := (hfail.2.2.2.2.2.2.1 [] "yy".toList [] (by decide)).2.2 0
    (errorf "connection refused".toList) 1 (by decide) (by decide)
  have g1 : isolateMergableDir sampleMerger corruptFS 0
      = ("/b/sh-20200101-000000".toList, none, (isolateMergableDir sampleMerger corruptFS 0).2.2) := by
    decide
  have g2 : getNonCanceledMatches (isolateMergableDir sampleMerger corruptFS 0).2.2
      (Join "/b/sh-20200101-000000".toList "*.ach".toList)
        = .ok ["/b/sh-20200101-000000/F1.ach".toList] := by decide
  have k1 : isolateMergableDir noRemoveMerger emptyFS 0
      = ("/b/sh-20200101-000000".toList, none, (isolateMergableDir noRemoveMerger emptyFS 0).2.2) := by
    decide
  have k2 : getNonCanceledMatches (isolateMergableDir noRemoveMerger emptyFS 0).2.2
      (Join "/b/sh-20200101-000000".toList "*.ach".toList) = .ok [] := by decide
  ⟨⟨h1, h2, h3⟩,
    ((((result_policy sampleMerger countingCallback sampleFS 0).2 _ _ h1).2 _ h2).2 () 0 rfl).2.1 h3,
    ⟨hcb, hfail.1 (List.ne_nil_of_mem hcb)⟩,
    ((((result_policy sampleMerger countingCallback corruptFS 0).2 _ _ g1).2 _ g2).2 () 0
      rfl).2.2.2.1 "/b/sh-20200101-000000/F1.ach".toList (by decide) (errorf "parse".toList)
      (by decide),
    ((((result_policy noRemoveMerger countingCallback emptyFS 0).2 _ _ k1).2 _ k2).2 () 0
      rfl).2.2.2.2.2.1 (by decide) (errorf "permission denied".toList) rfl⟩

/-- C10 (as stated, refuted). Two processes run the same shard against one lock backend, each
with one staged file of its own. Process 1 runs its cutoff first: it acquires the key and
invokes the callback for its merged file. Process 2 then runs its cutoff: its AcquireLock
fails with the not-leader message and it invokes no callback, so its merged file is passed to
the callback by no process at all, not by exactly one. -/
theorem exactly_one_uploader_counterexample :
    (WithEachMerged (clientMerger 1) quietCallback sampleFS []).calls = [(0, "yy".toList)] ∧
    (mergeMatches (clientMerger 2)
        (isolateMergableDir (clientMerger 2) otherFS
          (WithEachMerged (clientMerger 1) quietCallback sampleFS []).world).2.2
        "/b/sh-20200101-000000".toList ["/b/sh-20200101-000000/Z.ach".toList]
        (WithEachMerged (clientMerger 1) quietCallback sampleFS []).world).files = ["zz".toList] ∧
    (WithEachMerged (clientMerger 2) quietCallback otherFS
        (WithEachMerged (clientMerger 1) quietCallback sampleFS []).world).locks
      = [some (errorf "we are not the leader of achgateway/outbound/sh".toList)] ∧
    (WithEachMerged (clientMerger 2) quietCallback otherFS
        (WithEachMerged (clientMerger 1) quietCallback sampleFS []).world).calls = [] ∧
    (WithEachMerged (clientMerger 2) quietCallback otherFS
        (WithEachMerged (clientMerger 1) quietCallback sampleFS []).world).err = none := by
  decide

theorem holder_cons_self (key : Str) (client : Nat) (b : LockBackend) :
    holder ((key, client) :: b) key = some client := by
  simp [holder]

/-- What one pass of the loop body does to the backend when the lock client is the modelled
one and the callback leaves the backend alone. -/
theorem mergedFileStep_backend (m : filesystemMerging File Agent LockBackend)
    (f : Callback File Agent LockBackend) (agent : Agent) (dir : Str)
    (st : LoopState File LockBackend) (i : Nat) (file : File) (client : Nat)
    (hlock : m.deps.AcquireLock = AcquireLock client)
    (hquiet : ∀ i a file b, (f i a file b).2 = b) :
    (holder st.world (leaderKey m.shard.Name) = none →
      (mergedFileStep m f agent dir st i file).world = (leaderKey m.shard.Name, client) :: st.world) ∧
    (∀ c0, holder st.world (leaderKey m.shard.Name) = some c0 →
      (mergedFileStep m f agent dir st i file).world = st.world ∧
      (c0 ≠ client → (mergedFileStep m f agent dir st i file).calls = st.calls)) := by
  unfold mergedFileStep
  obtain ⟨file1, el, fs⟩ := prepareMerged m dir st.el st.fs file
  simp only [hlock, AcquireLock]
  constructor
  · intro hnone
    simp only [hnone]
    have := hquiet i agent file1 ((leaderKey m.shard.Name, client) :: st.world)
    split
    · rename_i heq; rw [heq] at this; exact this
    · rename_i heq; rw [heq] at this; exact this
  · intro c0 hsome
    simp only [hsome]
    by_cases hc : c0 = client
    · simp only [hc, if_true]
      have := hquiet i agent file1 st.world
      refine ⟨?_, fun h => absurd rfl h⟩
      split
      · rename_i heq; rw [heq] at this; exact this
      · rename_i heq; rw [heq] at this; exact this
    · simp only [hc, if_false]
      exact ⟨trivial, fun _ => trivial⟩

theorem clusterStep_invariant (ms : Nat → filesystemMerging File Agent LockBackend)
    (f : Callback File Agent LockBackend) (agents : Nat → Agent) (dirs : Nat → Str)
    (client : Nat → Nat) (name : Str)
    (hname : ∀ n, (ms n).shard.Name = name)
    (hlock : ∀ n, (ms n).deps.AcquireLock = AcquireLock (client n))
    (hquiet : ∀ i a file b, (f i a file b).2 = b)
    (c : Cluster File) (ev : Nat × Nat × File)
    (hinv : ∀ n, (c.sts n).calls ≠ [] → holder c.backend (leaderKey name) = some (client n)) :
    ∀ n, ((clusterStep ms f agents dirs c ev).sts n).calls ≠ [] →
      holder (clusterStep ms f agents dirs c ev).backend (leaderKey name) = some (client n) := by
  obtain ⟨h1, h2⟩ := mergedFileStep_backend (ms ev.1) f (agents ev.1) (dirs ev.1)
    ⟨(c.sts ev.1).el, (c.sts ev.1).fs, c.backend, (c.sts ev.1).successfulRemoteWrites,
      (c.sts ev.1).locks, (c.sts ev.1).calls⟩ ev.2.1 ev.2.2 (client ev.1) (hlock ev.1) hquiet
  rw [hname ev.1] at h1 h2
  simp only at h1 h2
  intro n hn
  simp only [clusterStep] at hn ⊢
  cases hh : holder c.backend (leaderKey name) with
  | none =>
    rw [h1 hh]
    by_cases hne : n = ev.1
    · rw [hne]; exact holder_cons_self _ _ _
    · rw [Function.update_noteq hne] at hn
      have := hinv n hn
      rw [hh] at this
      cases this
  | some c0 =>
    obtain ⟨hw, hcalls⟩ := h2 c0 hh
    rw [hw, hh]
    by_cases hne : n = ev.1
    · rw [hne] at hn ⊢
      rw [Function.update_same] at hn
      by_cases hc : c0 = client ev.1
      · rw [hc]
      · rw [hcalls hc] at hn
        have := hinv ev.1 hn
        rw [hh] at this
        exact this
    · rw [Function.update_noteq hne] at hn
      have := hinv n hn
      rw [hh] at this
      exact this

theorem clusterRun_invariant (ms : Nat → filesystemMerging File Agent LockBackend)
    (f : Callback File Agent LockBackend) (agents : Nat → Agent) (dirs : Nat → Str)
    (client : Nat → Nat) (name : Str)
    (hname : ∀ n, (ms n).shard.Name = name)
    (hlock : ∀ n, (ms n).deps.AcquireLock = AcquireLock (client n))
    (hquiet : ∀ i a file b, (f i a file b).2 = b)
    (schedule : List (Nat × Nat × File)) :
    ∀ c : Cluster File,
    (∀ n, (c.sts n).calls ≠ [] → holder c.backend (leaderKey name) = some (client n)) →
    ∀ n, ((clusterRun ms f agents dirs c schedule).sts n).calls ≠ [] →
      holder (clusterRun ms f agents dirs c schedule).backend (leaderKey name) = some (client n) := by
  induction schedule with
  | nil => intro c hinv; exact hinv
  | cons ev rest ih =>
    intro c hinv
    exact ih (clusterStep ms f agents dirs c ev)
      (clusterStep_invariant ms f agents dirs client name hname hlock hquiet c ev hinv)

/-- While a client holds the key, a pass of any process leaves the backend as it is, a pass of
the holder invokes the callback, and the record of the holder's callback invocations gains
exactly the passes of the holder. -/
theorem clusterRun_leader (ms : Nat → filesystemMerging File Agent LockBackend)
    (f : Callback File Agent LockBackend) (agents : Nat → Agent) (dirs : Nat → Str)
    (client : Nat → Nat) (name : Str)
    (hname : ∀ n, (ms n).shard.Name = name)
    (hlock : ∀ n, (ms n).deps.AcquireLock = AcquireLock (client n))
    (hquiet : ∀ i a file b, (f i a file b).2 = b)
    (p : Nat) (schedule : List (Nat × Nat × File)) :
    ∀ c : Cluster File, holder c.backend (leaderKey name) = some (client p) →
      ((clusterRun ms f agents dirs c schedule).sts p).calls.map Prod.fst
        = (c.sts p).calls.map Prod.fst
          ++ (schedule.filter (fun ev => ev.1 = p)).map (fun ev => ev.2.1) := by
  induction schedule with
  | nil => intro c _; simp [clusterRun]
  | cons ev rest ih =>
    intro c hh
    obtain ⟨_, h2⟩ := mergedFileStep_backend (ms ev.1) f (agents ev.1) (dirs ev.1)
      ⟨(c.sts ev.1).el, (c.sts ev.1).fs, c.backend, (c.sts ev.1).successfulRemoteWrites,
        (c.sts ev.1).locks, (c.sts ev.1).calls⟩ ev.2.1 ev.2.2 (client ev.1) (hlock ev.1) hquiet
    rw [hname ev.1] at h2
    obtain ⟨hw, _⟩ := h2 (client p) hh
    have hh1 : holder (clusterStep ms f agents dirs c ev).backend (leaderKey name) = some (client p) := by
      simp only [clusterStep]
      rw [hw]; exact hh
    have := ih (clusterStep ms f agents dirs c ev) hh1
    simp only [clusterRun, List.foldl_cons] at this ⊢
    rw [this]
    by_cases hp : ev.1 = p
    · obtain ⟨r, _, hr, _, hsucc⟩ := mergedFileStep_spec (ms ev.1) f (agents ev.1) (dirs ev.1)
        ⟨(c.sts ev.1).el, (c.sts ev.1).fs, c.backend, (c.sts ev.1).successfulRemoteWrites,
          (c.sts ev.1).locks, (c.sts ev.1).calls⟩ ev.2.1 ev.2.2
      have hrn : r = none := by
        rw [hr, hlock ev.1, hname ev.1]
        simp only [AcquireLock, hh, hp, if_true]
      have hc := hsucc hrn
      simp only at hc
      simp only [clusterStep, List.filter_cons, hp, decide_True, if_true, List.map_cons]
      rw [← hp, Function.update_same, hc]
      simp
    · simp only [clusterStep, List.filter_cons, hp, decide_False, Bool.false_eq_true, if_false]
      rw [Function.update_noteq (fun h => hp h.symm)]

/-- C10 (amended, spec-modelled lock). Leader-lock exclusivity: AcquireLock returns at once,
and when one client holds key k, AcquireLock(k) by another client returns the error "we are
not the leader of k" and leaves the backend as it is; consequently, across any number of
processes running the same shard against the same lock backend, with any interleaving of
their loops over their merged files, at most one process invokes the upload callback during
a cutoff; when the key is free as the cutoff starts, that process is the one whose loop runs
first, and it invokes the callback for every one of its own merged files. -/
theorem leader_lock_exclusivity :
    (∀ (c1 c2 : Nat) (key : Str) (b : LockBackend), holder b key = some c1 → c2 ≠ c1 →
      AcquireLock c2 key b = (some (errorf ("we are not the leader of ".toList ++ key)), b)) ∧
    (∀ (client : Nat) (key : Str) (b : LockBackend), holder b key = none →
      (AcquireLock client key b).1 = none ∧ holder (AcquireLock client key b).2 key = some client) ∧
    (∀ (File Agent : Type) (ms : Nat → filesystemMerging File Agent LockBackend)
      (f : Callback File Agent LockBackend) (agents : Nat → Agent) (dirs : Nat → Str)
      (client : Nat → Nat) (name : Str) (c : Cluster File) (schedule : List (Nat × Nat × File)),
      (∀ n, (ms n).shard.Name = name) →
      (∀ n, (ms n).deps.AcquireLock = AcquireLock (client n)) →
      (∀ n n1, client n = client n1 → n = n1) →
      (∀ i a file b, (f i a file b).2 = b) →
      (∀ n, (c.sts n).calls = []) →
      (∀ n n1, ((clusterRun ms f agents dirs c schedule).sts n).calls ≠ [] →
        ((clusterRun ms f agents dirs c schedule).sts n1).calls ≠ [] → n = n1) ∧
      (holder c.backend (leaderKey name) = none → ∀ ev rest, schedule = ev :: rest →
        ((clusterRun ms f agents dirs c schedule).sts ev.1).calls.map Prod.fst
          = (schedule.filter (fun e => e.1 = ev.1)).map (fun e => e.2.1))) := by
  refine ⟨?_, ?_, ?_⟩
  · intro c1 c2 key b hh hne
    simp only [AcquireLock, hh]
    rw [if_neg (fun h => hne h.symm)]
  · intro client key b hh
    simp only [AcquireLock, hh]
    exact ⟨trivial, holder_cons_self _ _ _⟩
  · intro File Agent ms f agents dirs client name c schedule hname hlock hinj hquiet hinit
    constructor
    · intro n n1 hn hn1
      have hinv := clusterRun_invariant ms f agents dirs client name hname hlock hquiet schedule c
        (fun k hk => absurd (hinit k) hk)
      have e1 := hinv n hn
      have e2 := hinv n1 hn1
      rw [e1] at e2
      exact hinj n n1 (Option.some.inj e2)
    · intro hfree ev rest hsched
      subst hsched
      obtain ⟨h1, _⟩ := mergedFileStep_backend (ms ev.1) f (agents ev.1) (dirs ev.1)
        ⟨(c.sts ev.1).el, (c.sts ev.1).fs, c.backend, (c.sts ev.1).successfulRemoteWrites,
          (c.sts ev.1).locks, (c.sts ev.1).calls⟩ ev.2.1 ev.2.2 (client ev.1) (hlock ev.1) hquiet
      rw [hname ev.1] at h1
      have hw := h1 hfree
      simp only at hw
      have hh1 : holder (clusterStep ms f agents dirs c ev).backend (leaderKey name)
          = some (client ev.1) := by
        simp only [clusterStep]
        rw [hw]; exact holder_cons_self _ _ _
      have hrun := clusterRun_leader ms f agents dirs client name hname hlock hquiet ev.1 rest
        (clusterStep ms f agents dirs c ev) hh1
      simp only [clusterRun, List.foldl_cons] at hrun ⊢
      rw [hrun]
      obtain ⟨r, _, hr, _, hsucc⟩ := mergedFileStep_spec (ms ev.1) f (agents ev.1) (dirs ev.1)
        ⟨(c.sts ev.1).el, (c.sts ev.1).fs, c.backend, (c.sts ev.1).successfulRemoteWrites,
          (c.sts ev.1).locks, (c.sts ev.1).calls⟩ ev.2.1 ev.2.2
      have hrn : r = none := by
        rw [hr, hlock ev.1, hname ev.1]
        simp only [AcquireLock, hfree]
      have hc := hsucc hrn
      simp only at hc
      simp only [clusterStep, List.filter_cons, decide_True, if_true, List.map_cons]
      rw [Function.update_same, hc, hinit ev.1]
      simp

set_option maxRecDepth 100000 in
theorem leader_lock_exclusivity_witness :
    AcquireLock 2 "achgateway/outbound/sh".toList [("achgateway/outbound/sh".toList, 1)]
      = (some (errorf "we are not the leader of achgateway/outbound/sh".toList),
          [("achgateway/outbound/sh".toList, 1)]) ∧
    ((clusterRun clientMerger quietCallback (fun _ => ()) (fun _ => "/b/sh-1/uploaded".toList)
        sampleCluster [(1, 0, "yy".toList), (2, 0, "zz".toList), (1, 1, "ww".toList)]).sts 1).calls
      = [(0, "yy".toList), (1, "ww".toList)] ∧
    ((clusterRun clientMerger quietCallback (fun _ => ()) (fun _ => "/b/sh-1/uploaded".toList)
        sampleCluster [(1, 0, "yy".toList), (2, 0, "zz".toList), (1, 1, "ww".toList)]).sts 2).calls
      = [] :=
  ⟨leader_lock_exclusivity.1 1 2 "achgateway/outbound/sh".toList
      [("achgateway/outbound/sh".toList, 1)] rfl (by decide),
    by decide,
    Decidable.byContradiction (fun h =>
      absurd
        ((leader_lock_exclusivity.2.2 Str Unit clientMerger quietCallback (fun _ => ())
          (fun _ => "/b/sh-1/uploaded".toList) (fun n => n) "sh".toList sampleCluster
          [(1, 0, "yy".toList), (2, 0, "zz".toList), (1, 1, "ww".toList)]
          (fun _ => rfl) (fun _ => rfl) (fun _ _ h => h) (fun _ _ _ _ => rfl) (fun _ => rfl)).1
          1 2 (by decide) h)
        (by decide))⟩

/-! ## Cancel precedence, carried to the cutoff -/

theorem normalElem_ach (X : Str) (h : '/' ∉ X) : normalElem (X ++ ".ach".toList) := by
  refine ⟨by simp, ?_, ?_, ?_⟩
  · intro hmem
    rcases List.mem_append.mp hmem with hm | hm
    · exact h hm
    · revert hm; decide
  · intro hEq
    have := congrArg List.length hEq
    simp at this
  · intro hEq
    have := congrArg List.length hEq
    simp at this

theorem Join_joinPrefix (d e : Str) (he : normalElem e) : Join d e = joinPrefix d ++ e := by
  by_cases hd : d = []
  · simp [Join, joinPrefix, hd, he.1, Clean_normal e he]
  · obtain ⟨he1, he2, he3, he4⟩ := he
    have hstep : ∀ r S, cleanStep r S e = e :: S := by
      intro r S; simp [cleanStep, he1, he3, he4]
    have hne : d ++ '/' :: e ≠ [] := by simp
    have hhead : (d ++ '/' :: e).head? = d.head? := by
      cases d with
      | nil => exact absurd rfl hd
      | cons c cs => rfl
    have hfold : ∀ r, ((splitSep (d ++ '/' :: e)).foldl (cleanStep r) []).reverse
        = ((splitSep d).foldl (cleanStep r) []).reverse ++ [e] := by
      intro r
      rw [splitSep_append, splitSep_noSlash e he2, List.foldl_append]
      simp [hstep]
    simp only [Join, hd, ne_eq, not_false_eq_true, if_true, Clean, hne, if_false, hfold,
      joinSep_snoc, hhead, joinPrefix]
    generalize ((splitSep d).foldl (cleanStep (decide (d.head? = some '/'))) []).reverse = L
    by_cases hr : d.head? = some '/'
    · by_cases hL : L = []
      · simp [hr, hL]
      · simp [hr, hL]
    · by_cases hL : L = []
      · simp [hr, hL, he1]
      · simp [hr, hL]

/-- After a rename, an entry that was below the old path is below the new one. -/
theorem Rename_below (fs fs1 : FS) (old new rest : Str) (h : Rename fs old new = .ok fs1)
    (hne : old ≠ new) (hex : (lookup fs (old ++ '/' :: rest)).isSome = true) :
    (lookup fs1 (new ++ '/' :: rest)).isSome = true := by
  have hnu : under old new = false := by
    unfold Rename at h
    cases hl : lookup fs old with
    | none => simp [hl] at h
    | some node =>
      simp only [hl] at h
      split at h
      · cases h
      · split at h
        · cases h
        · rename_i hu
          simpa using hu
  obtain ⟨_, rfl⟩ := Rename_ok _ _ _ _ h hne
  rw [lookup_isSome_iff] at hex ⊢
  obtain ⟨e, he, hk⟩ := hex
  have hunder : under old e.1 = true := by
    rw [hk]
    unfold under
    have : old ++ '/' :: rest = (old ++ ['/']) ++ rest := by simp
    rw [this]
    exact isPrefixOf_append_self _ _
  refine ⟨rekey old new e, ?_, ?_⟩
  · simp only [List.mem_map, List.mem_filter]
    refine ⟨e, ⟨he, ?_⟩, rfl⟩
    simp only [decide_eq_true_eq]
    intro hc
    rw [hc] at hunder
    rw [hunder] at hnu
    cases hnu
  · unfold rekey
    have hne2 : e.1 ≠ old := by
      rw [hk]
      intro hc
      have := congrArg List.length hc
      simp at this
    rw [if_neg hne2, if_pos hunder, hk]
    simp

/-- The cutoff that follows: once HandleXfer(X) and HandleCancel(X) have both succeeded, in
either order, for a FileID without separator, the path of X in the isolated directory is not
among the matches the cutoff reads. The staging directory is taken to exist, and the staging
and isolated directories to be cleaned paths that `filepath.Join` extends by a separator. -/
theorem cutoff_skips_canceled (m : filesystemMerging File Agent W) (xfer : ACHFile File)
    (cancel : CancelACHFile) (hid : cancel.FileID = xfer.FileID) (fs fs1 fs2 : FS) (w : W)
    (dir : Str) (fs3 : FS) (matches_ : List Str)
    (hsteps : (HandleXfer m xfer fs = (none, fs1) ∧ HandleCancel m cancel fs1 = (none, fs2)) ∨
      (HandleCancel m cancel fs = (none, fs1) ∧ HandleXfer m xfer fs1 = (none, fs2)))
    (hX : '/' ∉ xfer.FileID)
    (hstaging : joinPrefix (Join m.baseDir m.shard.Name) = Join m.baseDir m.shard.Name ++ ['/'])
    (hnewdir : joinPrefix (Join (Dir m.baseDir) (m.shard.Name ++ '-' :: m.deps.now w))
      = Join (Dir m.baseDir) (m.shard.Name ++ '-' :: m.deps.now w) ++ ['/'])
    (hexists : (lookup fs2 (Join m.baseDir m.shard.Name)).isSome = true)
    (hiso : isolateMergableDir m fs2 w = (dir, none, fs3))
    (hglob : getNonCanceledMatches fs3 (Join dir "*.ach".toList) = .ok matches_) :
    Join dir (xfer.FileID ++ ".ach".toList) ∉ matches_ := by
  have hnorm := normalElem_ach xfer.FileID hX
  -- the sibling X.ach.canceled exists in the staging directory
  have hsib : (lookup fs2 (Join (Join m.baseDir m.shard.Name) (xfer.FileID ++ ".ach".toList)
      ++ ".canceled".toList)).isSome = true := by
    rcases hsteps with ⟨_, hc⟩ | ⟨hc, hx⟩
    · have := (HandleCancel_ok m cancel fs1 fs2 hc).2
      rw [hid] at this
      exact this
    · have h1 := (HandleCancel_ok m cancel fs fs1 hc).2
      rw [hid] at h1
      exact (HandleXfer_ok m xfer fs1 fs2 hx).2 _ (append_ne_self _ _ (by decide)) h1
  rw [Join_joinPrefix _ _ hnorm, hstaging] at hsib
  -- isolation renamed the staging directory
  unfold isolateMergableDir at hiso
  simp only at hiso
  have hstat : (match Stat fs2 (Join m.baseDir m.shard.Name) with
      | .error err => err.notExist
      | .ok _ => false) = false := by
    cases hl : lookup fs2 (Join m.baseDir m.shard.Name) with
    | none => rw [hl] at hexists; cases hexists
    | some n => simp [Stat, hl]
  rw [hstat] at hiso
  simp only [Bool.false_eq_true, if_false] at hiso
  split at hiso
  · cases hiso
  · rename_i fs4 hren
    simp only [Prod.mk.injEq, true_and] at hiso
    obtain ⟨hdir, hfs⟩ := hiso
    subst hfs
    subst hdir
    have hmoved : (lookup fs4 (Join (Dir m.baseDir) (m.shard.Name ++ '-' :: m.deps.now w)
        ++ '/' :: (xfer.FileID ++ ".ach".toList ++ ".canceled".toList))).isSome = true := by
      have hsib2 : (lookup fs2 (Join m.baseDir m.shard.Name
          ++ '/' :: (xfer.FileID ++ ".ach".toList ++ ".canceled".toList))).isSome = true := by
        simpa [List.append_assoc] using hsib
      by_cases hne : Join m.baseDir m.shard.Name
          = Join (Dir m.baseDir) (m.shard.Name ++ '-' :: m.deps.now w)
      · rw [← hne] at hren ⊢
        have hsame : fs4 = fs2 := by
          unfold Rename at hren
          cases hl : lookup fs2 (Join m.baseDir m.shard.Name) with
          | none => simp [hl] at hren
          | some node =>
            simp only [hl] at hren
            split at hren
            · cases hren
            · cases hren; rfl
        rw [hsame]
        exact hsib2
      · exact Rename_below fs2 fs4 _ _ _ hren hne hsib2
    obtain ⟨pre, hpre, hjoin⟩ := Join_normal
      (Join (Dir m.baseDir) (m.shard.Name ++ '-' :: m.deps.now w)) _ normalElem_starAch
    rw [hjoin] at hglob
    intro hmem
    obtain ⟨_, hnc⟩ := getNonCanceledMatches_sound fs4 pre hpre matches_ hglob _ hmem
    rw [Join_joinPrefix _ _ hnorm, hnewdir] at hnc
    have hEq : Join (Dir m.baseDir) (m.shard.Name ++ '-' :: m.deps.now w) ++ ['/']
          ++ (xfer.FileID ++ ".ach".toList) ++ ".canceled".toList
        = Join (Dir m.baseDir) (m.shard.Name ++ '-' :: m.deps.now w)
          ++ '/' :: (xfer.FileID ++ ".ach".toList ++ ".canceled".toList) := by
      simp [List.append_assoc]
    rw [hEq] at hnc
    rw [hnc] at hmoved
    cases hmoved

set_option maxRecDepth 100000 in
theorem cutoff_skips_canceled_witness :
    getNonCanceledMatches (isolateMergableDir sampleMerger canceledFS 0).2.2
      (Join "/b/sh-20200101-000000".toList "*.ach".toList) = .ok [] ∧
    "/b/sh-20200101-000000/X.ach".toList ∉ ([] : List Str) :=
  have h2 : getNonCanceledMatches (isolateMergableDir sampleMerger canceledFS 0).2.2
      (Join "/b/sh-20200101-000000".toList "*.ach".toList) = .ok [] := by decide
  ⟨h2, cutoff_skips_canceled sampleMerger sampleXfer sampleCancel rfl emptyFS
    (HandleCancel sampleMerger sampleCancel emptyFS).2 canceledFS 0
    "/b/sh-20200101-000000".toList (isolateMergableDir sampleMerger canceledFS 0).2.2 []
    (Or.inr ⟨by decide, by decide⟩) (by decide) (by decide)
    (by decide) (by decide) (by decide) h2⟩

/-! ## C11: FileID round trip -/

theorem dropWhile_reverse_snoc (l : Str) (c : Char) (hc : c ≠ '/') :
    ((l ++ [c]).reverse.dropWhile (fun x => x = '/')).reverse = l ++ [c] := by
  simp [List.dropWhile, hc]

/-- The base of a path that ends in an element without separator is that element. -/
theorem Base_dirPrefix (pre e : Str) (hp : dirPrefix pre) (he : e ≠ []) (hs : '/' ∉ e) :
    Base (pre ++ e) = e := by
  obtain ⟨e1, c, rfl⟩ : ∃ e1 c, e = e1 ++ [c] :=
    ⟨e.dropLast, e.getLast he, (List.dropLast_append_getLast he).symm⟩
  have hc : c ≠ '/' := fun h => hs (by simp [h])
  have hne : pre ++ (e1 ++ [c]) ≠ [] := by simp
  unfold Base
  rw [if_neg hne]
  have hstrip : ((pre ++ (e1 ++ [c])).reverse.dropWhile (fun x => x = '/')).reverse
      = pre ++ (e1 ++ [c]) := by
    rw [← List.append_assoc]
    exact dropWhile_reverse_snoc (pre ++ e1) c hc
  simp only [hstrip, Split_dirPrefix pre (e1 ++ [c]) hp hs]
  rw [if_neg he]

theorem TrimSuffix_append (X suf : Str) : TrimSuffix (X ++ suf) suf = X := by
  have h : HasSuffix (X ++ suf) suf = true := by
    unfold HasSuffix
    rw [List.reverse_append]
    exact isPrefixOf_append_self _ _
  unfold TrimSuffix
  rw [if_pos h]
  simp

/-- C11. FileID round trip: for every FileID X without path separator and every staging
directory d, the path at which writeACHFile stages X, Join(d, X + ".ach"), is mapped back to X
by TrimSuffix(Base(path), ".ach"), also when X is empty or ends in ".ach"; a successful
writeACHFile leaves the file at that path; and newProcessedFiles(k, matches) has shardKey k
and one FileID per match, in the order of the matches. -/
theorem fileID_round_trip :
    (∀ (d X : Str), '/' ∉ X →
      TrimSuffix (Base (Join d (X ++ ".ach".toList))) ".ach".toList = X ∧
      ∀ k, newProcessedFiles k [Join d (X ++ ".ach".toList)] = ⟨k, [X]⟩) ∧
    (∀ (File Agent W : Type) (m : filesystemMerging File Agent W) (xfer : ACHFile File)
      (fs fs1 : FS), writeACHFile m xfer fs = (none, fs1) →
      ∃ buf, m.deps.achWrite xfer.File = .ok buf ∧
        lookup fs1 (Join (Join m.baseDir m.shard.Name) (xfer.FileID ++ ".ach".toList))
          = some (Node.file buf)) ∧
    (∀ (k : Str) (matches_ : List Str),
      (newProcessedFiles k matches_).shardKey = k ∧
      (newProcessedFiles k matches_).fileIDs.length = matches_.length ∧
      ∀ i : Nat, (newProcessedFiles k matches_).fileIDs[i]?
        = (matches_[i]?).map (fun p => TrimSuffix (Base p) ".ach".toList)) := by
  have key : ∀ (d X : Str), '/' ∉ X →
      TrimSuffix (Base (Join d (X ++ ".ach".toList))) ".ach".toList = X := by
    intro d X hX
    have hnorm := normalElem_ach X hX
    obtain ⟨pre, hpre, hjoin⟩ := Join_normal d _ hnorm
    rw [hjoin, Base_dirPrefix pre _ hpre hnorm.1 hnorm.2.1, TrimSuffix_append]
  refine ⟨?_, ?_, ?_⟩
  · intro d X hX
    refine ⟨key d X hX, fun k => ?_⟩
    simp only [newProcessedFiles, List.map_cons, List.map_nil, key d X hX]
  · intro File Agent W m xfer fs fs1 h
    unfold writeACHFile at h
    cases hb : m.deps.achWrite xfer.File with
    | error err => simp [hb] at h
    | ok buf =>
      refine ⟨buf, rfl, ?_⟩
      simp only [hb] at h
      split at h
      · simp at h
      · rename_i fs2 hw
        simp only [Prod.mk.injEq, true_and] at h
        subst h
        rw [WriteFile_ok _ _ _ _ hw]
        simp [lookup]
  · intro k matches_
    refine ⟨rfl, by simp [newProcessedFiles], fun i => ?_⟩
    simp [newProcessedFiles]

set_option maxRecDepth 100000 in
theorem fileID_round_trip_witness :
    ('/' ∉ "report.ach".toList ∧ '/' ∉ ([] : Str)) ∧
    Join "/b/mergable/sh".toList ("report.ach".toList ++ ".ach".toList)
      = "/b/mergable/sh/report.ach.ach".toList ∧
    TrimSuffix (Base (Join "/b/mergable/sh".toList ("report.ach".toList ++ ".ach".toList)))
      ".ach".toList = "report.ach".toList ∧
    TrimSuffix (Base (Join "/b/mergable/sh".toList ([] ++ ".ach".toList))) ".ach".toList = [] ∧
    lookup (writeACHFile sampleMerger sampleXfer sampleFS).2 "/b/mergable/sh/X.ach".toList
      = some (Node.file "xx".toList) :=
  ⟨⟨by decide, by decide⟩, by decide,
    (fileID_round_trip.1 "/b/mergable/sh".toList "report.ach".toList (by decide)).1,
    (fileID_round_trip.1 "/b/mergable/sh".toList [] (by decide)).1,
    by decide⟩

/-! ## C12: cancel isolation between FileIDs -/

/-- The paths getNonCanceledMatches returns for `<dir>/*.ach`, written out for a directory
without glob metacharacter: the entries of the directory whose name matches `*.ach`, in sorted
order, without those that are a prefix of an entry whose name matches `*.ach*.canceled`. -/
theorem getNonCanceledMatches_eq (fs : FS) (pre : Str) (hp : dirPrefix pre)
    (hd : hasMeta pre = false) (hsep : dirSep (cleanGlobPath pre) = pre) (out : List Str)
    (h : getNonCanceledMatches fs (pre ++ "*.ach".toList) = .ok out) :
    out = ((if isDir fs (cleanGlobPath pre) then
        ((Readdirnames fs pre).filter (fun n => matchPat "*.ach".toList n)).map (fun n => pre ++ n)
        else []).filter
      (fun p => !((if isDir fs (cleanGlobPath pre) then
        ((Readdirnames fs pre).filter (fun n => matchPat "*.ach*.canceled".toList n)).map
          (fun n => pre ++ n) else []).any (fun n => HasPrefix n p)))) := by
  have := getNonCanceledMatches_globDirs fs pre hp out h
  rw [globDirs_plain fs pre hd] at this
  simp only [List.flatMap_cons, List.flatMap_nil, List.append_nil] at this
  unfold globDir at this
  rw [hsep] at this
  exact this

/-- Which staged paths are returned, for a directory without glob metacharacter: a path of
the directory whose name matches `*.ach` is left out exactly when some entry of the directory whose name matches `*.ach*.canceled` has it
as a prefix, whatever follows the prefix. -/
theorem getNonCanceledMatches_mem (fs : FS) (pre : Str) (hp : dirPrefix pre)
    (hd : hasMeta pre = false) (hsep : dirSep (cleanGlobPath pre) = pre) (out : List Str)
    (h : getNonCanceledMatches fs (pre ++ "*.ach".toList) = .ok out) (p : Str) :
    p ∈ out ↔
      (isDir fs (cleanGlobPath pre) = true ∧
        (∃ n ∈ Readdirnames fs pre, matchPat "*.ach".toList n = true ∧ p = pre ++ n) ∧
        ∀ n ∈ Readdirnames fs pre, matchPat "*.ach*.canceled".toList n = true →
          HasPrefix (pre ++ n) p = false) := by
  rw [getNonCanceledMatches_eq fs pre hp hd hsep out h]
  by_cases hdir : isDir fs (cleanGlobPath pre) = true
  · simp only [hdir, if_true, List.mem_filter, List.mem_map, Bool.not_eq_true',
      List.any_eq_false, true_and]
    constructor
    · rintro ⟨⟨n, ⟨hn, hm⟩, rfl⟩, hneg⟩
      refine ⟨⟨n, hn, hm, rfl⟩, fun n1 hn1 hm1 => ?_⟩
      have := hneg (pre ++ n1) ⟨n1, ⟨hn1, hm1⟩, rfl⟩
      simpa using this
    · rintro ⟨⟨n, hn, hm, rfl⟩, hneg⟩
      refine ⟨⟨n, ⟨hn, hm⟩, rfl⟩, ?_⟩
      rintro q ⟨n1, ⟨hn1, hm1⟩, rfl⟩
      simpa using hneg n1 hn1 hm1
  · simp [hdir]

/-- The returned paths keep the order of the positive matches. -/
theorem getNonCanceledMatches_order (fs : FS) (path : Str) (out : List Str)
    (h : getNonCanceledMatches fs path = .ok out) :
    ∃ positiveMatches, Glob fs path = .ok positiveMatches ∧ List.Sublist out positiveMatches := by
  unfold getNonCanceledMatches at h
  cases hpos : Glob fs path with
  | error err => simp [hpos] at h
  | ok positiveMatches =>
    refine ⟨positiveMatches, rfl, ?_⟩
    simp only [hpos] at h
    split at h
    · cases h
    · simp only [Except.ok.injEq] at h
      subst h
      exact List.filter_sublist _

/-- C12 (failing input). The staging directory holds the staged files of FileIDs `a` and `c`,
and both are returned. HandleCancel of the distinct FileID `a.ach` succeeds and writes the
tombstone `a.ach.ach.canceled`; the staged `a.ach` still exists and has no sibling
`a.ach.canceled`, yet it is no longer returned, because the tombstone's path starts with the
path of `a.ach`. -/
theorem cancel_isolation_fails :
    getNonCanceledMatches stagedFS (Join (Join sampleMerger.baseDir sampleMerger.shard.Name) "*.ach".toList)
      = .ok ["/b/mergable/sh/a.ach".toList, "/b/mergable/sh/c.ach".toList] ∧
    (HandleCancel sampleMerger ⟨"a.ach".toList, "sh".toList⟩ stagedFS).1 = none ∧
    lookup (HandleCancel sampleMerger ⟨"a.ach".toList, "sh".toList⟩ stagedFS).2
      "/b/mergable/sh/a.ach".toList = some (Node.file "aa".toList) ∧
    lookup (HandleCancel sampleMerger ⟨"a.ach".toList, "sh".toList⟩ stagedFS).2
      "/b/mergable/sh/a.ach.canceled".toList = none ∧
    lookup (HandleCancel sampleMerger ⟨"a.ach".toList, "sh".toList⟩ stagedFS).2
      "/b/mergable/sh/a.ach.ach.canceled".toList = some (Node.file []) ∧
    getNonCanceledMatches (HandleCancel sampleMerger ⟨"a.ach".toList, "sh".toList⟩ stagedFS).2
      (Join (Join sampleMerger.baseDir sampleMerger.shard.Name) "*.ach".toList)
      = .ok ["/b/mergable/sh/c.ach".toList] := by
  decide

/-! ## What HandleCancel leaves alone -/

theorem lookup_map_filter (f : Str × Node → Str × Node) (p : Str × Node → Bool) (k : Str) :
    ∀ fs : FS, (∀ e ∈ fs, (e.1 = k → p e = true ∧ f e = e) ∧
        (e.1 ≠ k → p e = true → (f e).1 ≠ k)) →
      lookup ((fs.filter p).map f) k = lookup fs k := by
  intro fs
  induction fs with
  | nil => intro _; rfl
  | cons e rest ih =>
    intro h
    have hrest := ih (fun e1 he1 => h e1 (List.mem_cons_of_mem _ he1))
    obtain ⟨h1, h2⟩ := h e (List.mem_cons_self _ _)
    obtain ⟨ek, en⟩ := e
    by_cases hk : ek = k
    · obtain ⟨hp, hf⟩ := h1 hk
      rw [List.filter_cons, if_pos hp, List.map_cons, hf]
      simp only [lookup, hk, if_true]
    · by_cases hp : p (ek, en) = true
      · have hne := h2 hk hp
        simp only [List.filter_cons, hp, if_true, List.map_cons]
        cases hfe : f (ek, en) with
        | mk fk fn =>
          rw [hfe] at hne
          simp only [lookup, hk, if_false]
          rw [if_neg hne]
          exact hrest
      · simp only [List.filter_cons, hp, Bool.false_eq_true, if_false, lookup, hk]
        exact hrest

theorem lookup_snoc (fs : FS) (q : Str) (n : Node) (k : Str) :
    lookup (fs ++ [(q, n)]) k
      = match lookup fs k with
        | some x => some x
        | none => if q = k then some n else none := by
  induction fs with
  | nil => simp [lookup]
  | cons e rest ih =>
    obtain ⟨ek, en⟩ := e
    by_cases hk : ek = k
    · simp [lookup, hk]
    · simp only [List.cons_append, lookup, hk, if_false]
      exact ih

/-- Creating directories changes no path that exists already and none outside the created
ones. -/
theorem mkdirFold_lookup (k : Str) : ∀ (l : List Str) (fs0 fs1 : FS),
    l.foldl mkdirStep (.ok fs0) = .ok fs1 → (k ∉ l ∨ (lookup fs0 k).isSome = true) →
    lookup fs1 k = lookup fs0 k := by
  intro l
  induction l with
  | nil =>
    intro fs0 fs1 h _
    simp only [List.foldl_nil, Except.ok.injEq] at h
    rw [h]
  | cons q rest ih =>
    intro fs0 fs1 h hk
    rw [List.foldl_cons] at h
    obtain ⟨fs2, hstep, _⟩ := mkdirFold_mono rest _ fs1 h
    rw [hstep] at h
    have h2 : lookup fs2 k = lookup fs0 k := by
      unfold mkdirStep at hstep
      simp only at hstep
      split at hstep
      · simp only [Except.ok.injEq] at hstep
        rw [hstep]
      · split at hstep
        · cases hstep
        · rename_i hnone
          simp only [Except.ok.injEq] at hstep
          rw [← hstep, lookup_snoc]
          cases hl : lookup fs0 k with
          | some x => rfl
          | none =>
            have hq : q ≠ k := by
              rcases hk with hk | hk
              · intro hc
                exact hk (by rw [hc]; exact List.mem_cons_self _ _)
              · rw [hl] at hk
                cases hk
            simp [hq]
    rw [← h2]
    refine ih fs2 fs1 h ?_
    rcases hk with hk | hk
    · exact Or.inl (fun hc => hk (List.mem_cons_of_mem _ hc))
    · right
      rw [h2]
      exact hk

theorem mem_ancestors_length (p q : Str) (h : q ∈ ancestors p ++ [p]) : q.length ≤ p.length := by
  rcases List.mem_append.mp h with h | h
  · unfold ancestors at h
    have := (List.mem_filter.mp h).1
    rw [List.mem_inits] at this
    exact this.length_le
  · simp only [List.mem_singleton] at h
    rw [h]

/-- A path that is neither the staged file of the canceled FileID nor its tombstone, and lies
below neither, is left as it was by HandleCancel, provided it exists or is not one of the
directories HandleCancel creates. -/
theorem HandleCancel_frame (m : filesystemMerging File Agent W) (cancel : CancelACHFile) (fs : FS)
    (k : Str)
    (hk1 : k ≠ Join (Join m.baseDir m.shard.Name) (cancel.FileID ++ ".ach".toList))
    (hk2 : under (Join (Join m.baseDir m.shard.Name) (cancel.FileID ++ ".ach".toList)) k = false)
    (hk3 : k ≠ Join (Join m.baseDir m.shard.Name) (cancel.FileID ++ ".ach".toList)
      ++ ".canceled".toList)
    (hk4 : under (Join (Join m.baseDir m.shard.Name) (cancel.FileID ++ ".ach".toList)
      ++ ".canceled".toList) k = false)
    (hk5 : k ∉ ancestors (Join m.baseDir m.shard.Name) ++ [Join m.baseDir m.shard.Name] ∨
      (lookup fs k).isSome = true) :
    lookup (HandleCancel m cancel fs).2 k = lookup fs k := by
  unfold HandleCancel
  simp only
  generalize Join (Join m.baseDir m.shard.Name) (cancel.FileID ++ ".ach".toList) = p
    at hk1 hk2 hk3 hk4 ⊢
  have hmk : lookup (match MkdirAll fs (Join m.baseDir m.shard.Name) with
      | .ok fs1 => fs1
      | .error _ => fs) k = lookup fs k := by
    cases hmk : MkdirAll fs (Join m.baseDir m.shard.Name) with
    | error _ => rfl
    | ok fs1 => exact mkdirFold_lookup k _ fs fs1 hmk hk5
  generalize (match MkdirAll fs (Join m.baseDir m.shard.Name) with
    | .ok fs1 => fs1
    | .error _ => fs) = fs1 at hmk ⊢
  rw [← hmk]
  have hsuf : ".canceled".toList ≠ [] := by decide
  split
  · split
    · rfl
    · rename_i fs3 hw0
      have hw : WriteFile fs1 (p ++ ".canceled".toList) [] = .ok fs3 := hw0
      simp only
      rw [WriteFile_ok _ _ _ _ hw]
      simp only [lookup]
      rw [if_neg (fun hc => hk3 hc.symm)]
      have := lookup_map_filter id (fun e => decide (e.1 ≠ p ++ ".canceled".toList)) k fs1
        (fun e _ => ⟨fun he => ⟨by simp only [decide_eq_true_eq]; rw [he]; exact hk3, rfl⟩,
          fun he _ => he⟩)
      rw [List.map_id] at this
      exact this
  · split
    · rfl
    · rename_i fs3 hr0
      have hr : Rename fs1 p (p ++ ".canceled".toList) = .ok fs3 := hr0
      simp only
      rw [(Rename_ok fs1 fs3 p _ hr (fun hc => append_ne_self p _ hsuf hc.symm)).2]
      apply lookup_map_filter
      intro e _
      constructor
      · intro he
        refine ⟨by simp only [decide_eq_true_eq]; rw [he]; exact hk3, ?_⟩
        unfold rekey
        rw [he, if_neg hk1, hk2]
        simp
      · intro he _
        unfold rekey
        by_cases h1 : e.1 = p
        · rw [if_pos h1]
          exact fun hc => hk3 hc.symm
        · rw [if_neg h1]
          by_cases h2 : under p e.1 = true
          · rw [if_pos h2]
            intro hc
            simp only at hc
            have hu : under (p ++ ".canceled".toList) k = true := by
              unfold under at h2 ⊢
              rw [ List.isPrefixOf_iff_prefix] at h2 ⊢
              obtain ⟨r, hr⟩ := h2
              refine ⟨r, ?_⟩
              rw [← hc, ← hr]
              simp
            rw [hu] at hk4
            cases hk4
          · rw [if_neg h2]
            exact he

/-! ## Cancel isolation, where it does hold -/

theorem matchStar_split (g : Str → Bool) : ∀ s : Str, matchStar g s = true →
    ∃ s1 s2, s = s1 ++ s2 ∧ g s2 = true := by
  intro s
  induction s with
  | nil =>
    intro h
    exact ⟨[], [], rfl, h⟩
  | cons c s ih =>
    intro h
    simp only [matchStar, Bool.or_eq_true, Bool.and_eq_true] at h
    rcases h with h | ⟨_, h⟩
    · exact ⟨[], c :: s, rfl, h⟩
    · obtain ⟨s1, s2, hs, hg⟩ := ih h
      exact ⟨c :: s1, s2, by rw [hs]; rfl, hg⟩

/-- A name matched by a pattern that ends in a plain character ends in that character. -/
theorem matchPat_snoc (c : Char) (h1 : c ≠ '*') (h2 : c ≠ '?') : ∀ (P s : Str),
    matchPat (P ++ [c]) s = true → ∃ s0, s = s0 ++ [c] := by
  intro P
  induction P with
  | nil =>
    intro s h
    cases s with
    | nil => simp [matchPat, h1] at h
    | cons x s =>
      simp only [List.nil_append, matchPat, h1, h2, if_false, Bool.and_eq_true, beq_iff_eq,
        List.isEmpty_iff] at h
      cases s with
      | nil => exact ⟨[], by rw [h.1]; rfl⟩
      | cons y t => simp [matchPat] at h
  | cons a P ih =>
    intro s h
    by_cases ha : a = '*'
    · simp only [List.cons_append, matchPat, ha, if_true] at h
      obtain ⟨s1, s2, hs, hg⟩ := matchStar_split _ s h
      obtain ⟨s0, hs0⟩ := ih s2 hg
      exact ⟨s1 ++ s0, by rw [hs, hs0, List.append_assoc]⟩
    · cases s with
      | nil => simp [matchPat, ha] at h
      | cons x s =>
        simp only [List.cons_append, matchPat, ha, if_false] at h
        have hrest : matchPat (P ++ [c]) s = true := by
          split at h
          · simp only [Bool.and_eq_true] at h
            exact h.2
          · simp only [Bool.and_eq_true] at h
            exact h.2
        obtain ⟨s0, hs0⟩ := ih s hrest
        exact ⟨x :: s0, by rw [hs0]; rfl⟩

/-- A staged file is never taken for a tombstone. -/
theorem not_tombstone_ach (Y : Str) :
    matchPat "*.ach*.canceled".toList (Y ++ ".ach".toList) = false := by
  cases hm : matchPat "*.ach*.canceled".toList (Y ++ ".ach".toList) with
  | false => rfl
  | true =>
    have hm2 : matchPat ("*.ach*.cancele".toList ++ ['d']) (Y ++ ".ach".toList) = true := hm
    obtain ⟨s0, hs0⟩ := matchPat_snoc 'd' (by decide) (by decide) _ _ hm2
    have := congrArg List.getLast? hs0
    have e : Y ++ ".ach".toList = (Y ++ ".ac".toList) ++ ['h'] := by simp
    rw [e, List.getLast?_concat, List.getLast?_concat] at this
    revert this
    decide

theorem matchPat_star (X : Str) (h : '/' ∉ X) : matchPat ['*'] X = true := by
  simp only [matchPat, if_true]
  induction X with
  | nil => rfl
  | cons c s ih =>
    have hc : c ≠ '/' := fun hc => h (by rw [hc]; exact List.mem_cons_self _ _)
    have hs : '/' ∉ s := fun hs => h (List.mem_cons_of_mem _ hs)
    simp [matchStar, hc, ih hs]

theorem matchPat_ach (X : Str) (h : '/' ∉ X) :
    matchPat "*.ach".toList (X ++ ".ach".toList) = true :=
  matchPat_append ['*'] ".ach".toList ".ach".toList (by decide) X (matchPat_star X h)

theorem under_same_dir (pre y n : Str) (hn : '/' ∉ n) : under (pre ++ y) (pre ++ n) = false := by
  cases hu : under (pre ++ y) (pre ++ n) with
  | false => rfl
  | true =>
    unfold under at hu
    rw [ List.isPrefixOf_iff_prefix] at hu
    obtain ⟨r, hr⟩ := hu
    have : n = y ++ '/' :: r := by
      have h2 : pre ++ (y ++ '/' :: r) = pre ++ n := by
        rw [← hr]; simp
      exact (List.append_cancel_left h2).symm
    exact absurd (by rw [this]; simp) hn

/-- Whether a staged path is returned, in terms of the entries of the directory, for a
directory without glob metacharacter. -/
theorem getNonCanceledMatches_staged (fs : FS) (pre : Str) (hp : dirPrefix pre)
    (hd : hasMeta pre = false) (hsep : dirSep (cleanGlobPath pre) = pre) (out : List Str)
    (h : getNonCanceledMatches fs (pre ++ "*.ach".toList) = .ok out) (X : Str) (hX : '/' ∉ X) :
    pre ++ (X ++ ".ach".toList) ∈ out ↔
      (isDir fs (cleanGlobPath pre) = true ∧
        (lookup fs (pre ++ (X ++ ".ach".toList))).isSome = true ∧
        ∀ n, n ≠ [] → '/' ∉ n → (lookup fs (pre ++ n)).isSome = true →
          matchPat "*.ach*.canceled".toList n = true →
          HasPrefix n (X ++ ".ach".toList) = false) := by
  rw [getNonCanceledMatches_mem fs pre hp hd hsep out h]
  have hpre : ∀ n, HasPrefix (pre ++ n) (pre ++ (X ++ ".ach".toList))
      = HasPrefix n (X ++ ".ach".toList) := by
    intro n
    unfold HasPrefix
    rw [Bool.eq_iff_iff, List.isPrefixOf_iff_prefix, List.isPrefixOf_iff_prefix,
      List.prefix_append_right_inj]
  have hnorm := normalElem_ach X hX
  constructor
  · rintro ⟨hd, ⟨n, hn, _, heq⟩, hneg⟩
    have hnx : n = X ++ ".ach".toList := (List.append_cancel_left heq).symm
    rw [mem_Readdirnames, ← lookup_isSome_iff, hnx] at hn
    refine ⟨hd, hn.2.2, fun n1 h1 h2 h3 h4 => ?_⟩
    rw [← hpre]
    exact hneg n1 ((mem_Readdirnames fs pre n1).mpr ⟨h1, h2, (lookup_isSome_iff _ _).mp h3⟩) h4
  · rintro ⟨hd, hex, hneg⟩
    refine ⟨hd, ⟨X ++ ".ach".toList, ?_, matchPat_ach X hX, rfl⟩, fun n1 hn1 h4 => ?_⟩
    · exact (mem_Readdirnames fs pre _).mpr ⟨hnorm.1, hnorm.2.1, (lookup_isSome_iff _ _).mp hex⟩
    · rw [mem_Readdirnames, ← lookup_isSome_iff] at hn1
      rw [hpre]
      exact hneg n1 hn1.1 hn1.2.1 hn1.2.2 h4

theorem under_length (p k : Str) (h : under p k = true) : p.length < k.length := by
  unfold under at h
  rw [ List.isPrefixOf_iff_prefix] at h
  have := h.length_le
  simp only [List.length_append, List.length_singleton] at this
  omega

/-- Cancel isolation, where the code provides it. The staging directory exists and holds no
glob metacharacter, X and Y hold no separator, and the tombstone name `Y.ach.canceled` does not
start with `X.ach`. Then
HandleCancel(Y), whether it succeeds or fails, does not change whether the staged path of X is
returned by getNonCanceledMatches. The staging directory is taken to be a cleaned path that
`filepath.Join` extends by a separator. -/
theorem cancel_isolation_frame (m : filesystemMerging File Agent W) (cancel : CancelACHFile)
    (X : Str) (fs : FS) (out out1 : List Str)
    (hX : '/' ∉ X) (hY : '/' ∉ cancel.FileID)
    (hstaging : joinPrefix (Join m.baseDir m.shard.Name) = Join m.baseDir m.shard.Name ++ ['/'])
    (hmeta : hasMeta (Join m.baseDir m.shard.Name) = false)
    (hdir : lookup fs (Join m.baseDir m.shard.Name) = some Node.dir)
    (hnp : HasPrefix (cancel.FileID ++ ".ach.canceled".toList) (X ++ ".ach".toList) = false)
    (h1 : getNonCanceledMatches fs (Join (Join m.baseDir m.shard.Name) "*.ach".toList) = .ok out)
    (h2 : getNonCanceledMatches (HandleCancel m cancel fs).2
      (Join (Join m.baseDir m.shard.Name) "*.ach".toList) = .ok out1) :
    Join (Join m.baseDir m.shard.Name) (X ++ ".ach".toList) ∈ out ↔
      Join (Join m.baseDir m.shard.Name) (X ++ ".ach".toList) ∈ out1 := by
  have hfrm := HandleCancel_frame m cancel fs
  generalize (HandleCancel m cancel fs).2 = fs1 at h2 hfrm
  have hJX := Join_joinPrefix (Join m.baseDir m.shard.Name) _ (normalElem_ach X hX)
  have hJY := Join_joinPrefix (Join m.baseDir m.shard.Name) _ (normalElem_ach cancel.FileID hY)
  have hJS := Join_joinPrefix (Join m.baseDir m.shard.Name) _ normalElem_starAch
  rw [hstaging] at hJX hJY hJS
  rw [hJS] at h1 h2
  rw [hJX]
  rw [hJY] at hfrm
  have hS : Join m.baseDir m.shard.Name ≠ [] := by
    intro hc
    rw [hc] at hstaging
    simp [joinPrefix] at hstaging
  generalize Join m.baseDir m.shard.Name = S at *
  have hp : dirPrefix (S ++ ['/']) := Or.inr ⟨S, rfl⟩
  have hcg : cleanGlobPath (S ++ ['/']) = S := by
    unfold cleanGlobPath
    have h3 : S ++ ['/'] ≠ ['/'] := by
      intro hc
      have := congrArg List.length hc
      simp only [List.length_append, List.length_singleton] at this
      exact hS (List.length_eq_zero.mp (by omega))
    rw [if_neg (by simp), if_neg h3, List.dropLast_concat]
  have hSdot : S ≠ ['.'] := by
    intro hc
    rw [hc] at hstaging
    revert hstaging
    decide
  have hSroot : S ≠ ['/'] := by
    intro hc
    rw [hc] at hstaging
    revert hstaging
    decide
  have hsep : dirSep (cleanGlobPath (S ++ ['/'])) = S ++ ['/'] := by
    rw [hcg]
    unfold dirSep
    rw [if_neg hSdot, if_neg hSroot]
  have hmeta1 : hasMeta (S ++ ['/']) = false := by
    unfold hasMeta at hmeta ⊢
    rw [List.any_append, hmeta]
    decide
  have eC : (S ++ ['/'] ++ (cancel.FileID ++ ".ach".toList)) ++ ".canceled".toList
      = S ++ ['/'] ++ (cancel.FileID ++ ".ach.canceled".toList) := by
    simp [List.append_assoc]
  rw [eC] at hfrm
  -- the entries of the directory other than those of Y are kept
  have hfr : ∀ n, '/' ∉ n → n ≠ cancel.FileID ++ ".ach".toList →
      n ≠ cancel.FileID ++ ".ach.canceled".toList →
      lookup fs1 (S ++ ['/'] ++ n) = lookup fs (S ++ ['/'] ++ n) := by
    intro n hn hn1 hn2
    refine hfrm _ (fun hc => hn1 (List.append_cancel_left hc)) (under_same_dir _ _ _ hn)
      (fun hc => hn2 (List.append_cancel_left hc)) (under_same_dir _ _ _ hn) (Or.inl ?_)
    intro hc
    have := mem_ancestors_length _ _ hc
    simp only [List.length_append, List.length_singleton] at this
    omega
  -- so is the staging directory
  have hdir1 : lookup fs1 S = some Node.dir := by
    rw [← hdir]
    refine hfrm S ?_ ?_ ?_ ?_ (Or.inr (by rw [hdir]; rfl))
    · intro hc
      have := congrArg List.length hc
      simp only [List.length_append, List.length_singleton] at this
      omega
    · cases hu : under (S ++ ['/'] ++ (cancel.FileID ++ ".ach".toList)) S with
      | false => rfl
      | true =>
        have := under_length _ _ hu
        simp only [List.length_append, List.length_singleton] at this
        omega
    · intro hc
      have := congrArg List.length hc
      simp only [List.length_append, List.length_singleton] at this
      omega
    · cases hu : under (S ++ ['/'] ++ (cancel.FileID ++ ".ach.canceled".toList)) S with
      | false => rfl
      | true =>
        have := under_length _ _ hu
        simp only [List.length_append, List.length_singleton] at this
        omega
  have hd : isDir fs S = true := by simp [isDir, hdir]
  have hd1 : isDir fs1 S = true := by simp [isDir, hdir1]
  -- the staged file of X is neither the staged file nor the tombstone of Y
  have hXY : X ++ ".ach".toList ≠ cancel.FileID ++ ".ach".toList := by
    intro hc
    have e2 : cancel.FileID ++ ".ach.canceled".toList
        = (cancel.FileID ++ ".ach".toList) ++ ".canceled".toList := by simp [List.append_assoc]
    rw [e2, ← hc] at hnp
    unfold HasPrefix at hnp
    rw [isPrefixOf_append_self] at hnp
    cases hnp
  have hXYc : X ++ ".ach".toList ≠ cancel.FileID ++ ".ach.canceled".toList := by
    intro hc
    rw [← hc] at hnp
    unfold HasPrefix at hnp
    have := isPrefixOf_append_self (X ++ ".ach".toList) []
    rw [List.append_nil] at this
    rw [this] at hnp
    cases hnp
  have hXs : '/' ∉ X ++ ".ach".toList := (normalElem_ach X hX).2.1
  rw [getNonCanceledMatches_staged fs _ hp hmeta1 hsep out h1 X hX,
    getNonCanceledMatches_staged fs1 _ hp hmeta1 hsep out1 h2 X hX, hcg, hfr _ hXs hXY hXYc]
  constructor
  · rintro ⟨_, hex, hneg⟩
    refine ⟨hd1, hex, fun n hn1 hn2 hn3 hn4 => ?_⟩
    by_cases hc : n = cancel.FileID ++ ".ach.canceled".toList
    · rw [hc]; exact hnp
    · have hny : n ≠ cancel.FileID ++ ".ach".toList := by
        intro hc2
        rw [hc2, not_tombstone_ach] at hn4
        cases hn4
      rw [hfr n hn2 hny hc] at hn3
      exact hneg n hn1 hn2 hn3 hn4
  · rintro ⟨_, hex, hneg⟩
    refine ⟨hd, hex, fun n hn1 hn2 hn3 hn4 => ?_⟩
    by_cases hc : n = cancel.FileID ++ ".ach.canceled".toList
    · rw [hc]; exact hnp
    · have hny : n ≠ cancel.FileID ++ ".ach".toList := by
        intro hc2
        rw [hc2, not_tombstone_ach] at hn4
        cases hn4
      rw [← hfr n hn2 hny hc] at hn3
      exact hneg n hn1 hn2 hn3 hn4

set_option maxRecDepth 100000 in
theorem cancel_isolation_frame_witness :
    getNonCanceledMatches (HandleCancel sampleMerger ⟨"a".toList, "sh".toList⟩ stagedFS).2
      (Join (Join sampleMerger.baseDir sampleMerger.shard.Name) "*.ach".toList)
      = .ok ["/b/mergable/sh/c.ach".toList] ∧
    (Join (Join sampleMerger.baseDir sampleMerger.shard.Name) ("c".toList ++ ".ach".toList)
        ∈ ["/b/mergable/sh/a.ach".toList, "/b/mergable/sh/c.ach".toList] ↔
      Join (Join sampleMerger.baseDir sampleMerger.shard.Name) ("c".toList ++ ".ach".toList)
        ∈ ["/b/mergable/sh/c.ach".toList]) :=
  ⟨by decide,
    cancel_isolation_frame sampleMerger ⟨"a".toList, "sh".toList⟩ "c".toList stagedFS
      ["/b/mergable/sh/a.ach".toList, "/b/mergable/sh/c.ach".toList]
      ["/b/mergable/sh/c.ach".toList]
      (by decide) (by decide) (by decide) (by decide) (by decide) (by decide) (by decide)
      (by decide)⟩

end AchGateway
